import Mathlib

/-!
# TelecomTask: event engine and report generator

A shallow embedding of `internal/process/process_events.go` (with the `Config`
record of `internal/config/config.go`) and theorems about it.

Conventions of the embedding

* Go `string` is `String`; scanning functions work on its list of characters.
* `time.Duration` is an `Int` number of nanoseconds.  Sums of durations wrap
  into the int64 range (`wrap64`) exactly where Go adds `Duration` values.
* `time.Time` is an `Int` number of nanoseconds since `0000-01-01 00:00:00 UTC`,
  the day on which `time.Parse` places a clock-only layout.  The zero value
  `time.Time{}` is `0001-01-01 00:00:00 UTC`, 366 days later.
* `float64` results are binary64 values computed with round-to-nearest-even
  (`f64`), kept as exact rationals.
* A Go map is an association list with distinct keys; the order in which
  `range` visits a map is an input of `GenerateReport`.
* A run-time fault (index out of range) is the result `none`.
* The process-wide logger is not part of the model.
-/

namespace TelecomTask

/-! ## Machine integers, durations and instants -/

/-- Two-complement wrap of an integer into the int64 range. -/
def wrap64 (x : Int) : Int := (x + 2 ^ 63) % 2 ^ 64 - 2 ^ 63

def minDuration : Int := -(2 ^ 63)

def maxDuration : Int := 2 ^ 63 - 1

def Millisecond : Nat := 1000000

def Second : Nat := 1000000000

def Minute : Nat := 60 * Second

def Hour : Nat := 60 * Minute

/-- The zero value `time.Time{}`, that is 0001-01-01 00:00:00 UTC; year 0 is a
leap year, so it lies 366 days after the day of a parsed clock time. -/
def zeroTime : Int := 366 * 24 * (Hour : Int)

/-- `t.Sub(u)` of package time: the difference, saturated to the range of
`Duration`. -/
def timeSub (t u : Int) : Int :=
  if t - u < minDuration then minDuration
  else if maxDuration < t - u then maxDuration
  else t - u

/-! ## binary64 arithmetic -/

/-- Floor of the base-2 logarithm, by halving (`fuel` bounds the halvings). -/
def log2F : Nat → Nat → Nat
  | 0, _ => 0
  | fuel + 1, n => if n < 2 then 0 else log2F fuel (n / 2) + 1

/-- Floor of the base-2 logarithm of `n` (0 for `n = 0`). -/
def ilog2 (n : Nat) : Nat := log2F n n

/-- The integer nearest to `num / den`, ties to the even one. -/
def roundHalfEven (num den : Nat) : Nat :=
  let q := num / den
  let r := num % den
  if 2 * r < den then q
  else if den < 2 * r then q + 1
  else if q % 2 = 0 then q else q + 1

/-- The binary64 value nearest to the rational `num / den` (ties to even), as a
fraction `(n, 2 ^ t)`.  With `t = ⌊log2 den⌋ + 53` the scaled quotient
`num * 2 ^ t / den` has at least 53 bits; its lowest `drop` bits lie below the
53-bit significand and are rounded away.  Exponent range is not modelled: every
value the program computes is far inside the normal range. -/
def f64 (num den : Nat) : Nat × Nat :=
  if num = 0 ∨ den = 0 then (0, 1)
  else
    let t := ilog2 den + 53
    let big := num * 2 ^ t
    let drop := ilog2 (big / den) - 52
    (roundHalfEven big (den * 2 ^ drop) * 2 ^ drop, 2 ^ t)

/-- The float64 `float64(a / unit) + float64(a % unit) / float64(unit)` for a
non-negative count `a` of nanoseconds: the body shared by `Duration.Hours`,
`Duration.Minutes` and `Duration.Seconds`. -/
def floatUnits (unit a : Nat) : Nat × Nat :=
  let frac := f64 (a % unit) unit
  f64 (a / unit * frac.2 + frac.1) frac.2

/-- The conversion `int(d.Hours())`, `int(d.Minutes())`, `int(d.Seconds())` for
`unit = Hour, Minute, Second`: the float64 of `floatUnits`, truncated toward
zero.  Division, remainder, rounding and truncation are all symmetric in the
sign of `d`. -/
def truncUnits (unit : Nat) (d : Int) : Int :=
  let v := floatUnits unit d.natAbs
  let n : Int := ((v.1 / v.2 : Nat) : Int)
  if d < 0 then -n else n

/-! ## Text formatting -/

/-- The verb `%d` of `fmt.Sprintf` on an int. -/
def fmtInt (n : Int) : String :=
  if n < 0 then "-" ++ Nat.repr n.natAbs else Nat.repr n.natAbs

/-- The verb `%0wd` of `fmt.Sprintf`: zero padding to width `w`, the sign of a
negative number counting toward the width. -/
def padZero (w : Nat) (n : Int) : String :=
  let ds := (Nat.repr n.natAbs).toList
  if n < 0 then String.mk ('-' :: (List.replicate (w - 1 - ds.length) '0' ++ ds))
  else String.mk (List.replicate (w - ds.length) '0' ++ ds)

/-- The function formatDuration. -/
def formatDuration (d : Int) : String :=
  let hours := truncUnits Hour d
  let minutes := Int.tmod (truncUnits Minute d) 60
  let seconds := Int.tmod (truncUnits Second d) 60
  let millis := Int.tmod (Int.tdiv d Millisecond) 1000
  padZero 2 hours ++ ":" ++ padZero 2 minutes ++ ":" ++ padZero 2 seconds ++ "." ++
    padZero 3 millis

/-! ## Scanning numbers: packages time and fmt -/

def digitVal (c : Char) : Nat := c.toNat - 48

/-- The function leadingInt of package time, started with accumulator `x`
(a uint64): the leading digits of `s` and the rest; `none` is errLeadingInt. -/
def leadingInt : Nat → List Char → Option (Nat × List Char)
  | x, [] => some (x, [])
  | x, c :: cs =>
    if c.isDigit then
      if x > 2 ^ 63 / 10 then none
      else if x * 10 + digitVal c > 2 ^ 63 then none
      else leadingInt (x * 10 + digitVal c) cs
    else some (x, c :: cs)

/-- The function leadingFraction of package time: the digits read as an integer
`x`, the float64 `scale` (times 10 for every digit taken into `x`) and the
rest.  Digits after an overflow are consumed and ignored. -/
def leadingFraction : Nat → Nat × Nat → Bool → List Char → Nat × (Nat × Nat) × List Char
  | x, scale, _, [] => (x, scale, [])
  | x, scale, overflow, c :: cs =>
    if c.isDigit then
      if overflow then leadingFraction x scale true cs
      else if x > (2 ^ 63 - 1) / 10 then leadingFraction x scale true cs
      else if x * 10 + digitVal c > 2 ^ 63 then leadingFraction x scale true cs
      else leadingFraction (x * 10 + digitVal c) (f64 (scale.1 * 10) scale.2) false cs
    else (x, scale, c :: cs)

/-- The table unitMap of package time, in nanoseconds. -/
def unitMap (u : List Char) : Option Nat :=
  if u = ['n', 's'] then some 1
  else if u = ['u', 's'] then some 1000
  else if u = [Char.ofNat 0xB5, 's'] then some 1000
  else if u = [Char.ofNat 0x3BC, 's'] then some 1000
  else if u = ['m', 's'] then some 1000000
  else if u = ['s'] then some 1000000000
  else if u = ['m'] then some 60000000000
  else if u = ['h'] then some 3600000000000
  else none

def isUnitChar (c : Char) : Bool := !(c == '.' || c.isDigit)

/-- The value `uint64(float64(f) * (float64(unit) / scale))` of
time.ParseDuration. -/
def fracNanos (f unit : Nat) (scale : Nat × Nat) : Nat :=
  let ff := f64 f 1
  let us := f64 (unit * scale.2) scale.1
  let prod := f64 (ff.1 * us.1) (ff.2 * us.2)
  prod.1 / prod.2

/-- The step `(\.[0-9]*)?` of time.ParseDuration on what follows the integer
part: the fraction digits as an integer, their scale, the rest, and whether a
digit was consumed. -/
def readFraction (s1 : List Char) : Nat × (Nat × Nat) × List Char × Bool :=
  match s1 with
  | [] => (0, (1, 1), s1, false)
  | p :: r =>
    if p = '.' then
      ((leadingFraction 0 (1, 1) false r).1,
        (leadingFraction 0 (1, 1) false r).2.1,
        (leadingFraction 0 (1, 1) false r).2.2,
        r.length != (leadingFraction 0 (1, 1) false r).2.2.length)
    else (0, (1, 1), s1, false)

/-- The step of time.ParseDuration that adds `v` units and the fraction
`f / scale` of a unit to the uint64 accumulator `d`; `none` is an overflow
error. -/
def addUnits (d v f unit : Nat) (scale : Nat × Nat) : Option Nat :=
  if v > 2 ^ 63 / unit then none
  else
    let v1 := if f > 0 then v * unit + fracNanos f unit scale else v * unit
    if f > 0 ∧ v1 > 2 ^ 63 then none
    else if (d + v1) % 2 ^ 64 > 2 ^ 63 then none
    else some ((d + v1) % 2 ^ 64)

/-- One round of the loop `for s != ""` of time.ParseDuration on a non-empty
`s` with the uint64 accumulator `d`: a number, an optional fraction and a unit
are consumed; the result is the rest of the text and the new accumulator, and
`none` is an error return. -/
def parseDurationRound (s : List Char) (d : Nat) : Option (List Char × Nat) :=
  match s with
  | [] => none
  | c :: cs =>
    if !(c == '.' || c.isDigit) then none
    else
      match leadingInt 0 (c :: cs) with
      | none => none
      | some (v, s1) =>
        let pre := (c :: cs).length != s1.length
        let fr := readFraction s1
        if !pre && !fr.2.2.2 then none
        else if fr.2.2.1.takeWhile isUnitChar = [] then none
        else
          match unitMap (fr.2.2.1.takeWhile isUnitChar) with
          | none => none
          | some unit =>
            match addUnits d v fr.1 unit fr.2.1 with
            | none => none
            | some d1 => some (fr.2.2.1.dropWhile isUnitChar, d1)

/-- The loop `for s != ""` of time.ParseDuration; `none` is an error return.
Every round consumes at least the unit, so a `fuel` above the length of `s` is
never used up (theorem parseDurationLoop_fuel). -/
def parseDurationLoop : Nat → List Char → Nat → Option Nat
  | 0, _, _ => none
  | _ + 1, [], d => some d
  | fuel + 1, c :: cs, d =>
    match parseDurationRound (c :: cs) d with
    | none => none
    | some res => parseDurationLoop fuel res.1 res.2

/-- The optional sign `[-+]?` that time.ParseDuration, atoi and the scanner of
fmt read first: whether it is a minus, and the rest. -/
def takeSign : List Char → Bool × List Char
  | [] => (false, [])
  | c :: r => if c = '-' then (true, r) else if c = '+' then (false, r) else (false, c :: r)

/-- The function time.ParseDuration; `none` is an error return. -/
def ParseDuration (s : String) : Option Int :=
  let sg := takeSign s.toList
  if sg.2 = ['0'] then some 0
  else if sg.2 = [] then none
  else
    match parseDurationLoop (sg.2.length + 1) sg.2 0 with
    | none => none
    | some d =>
      if sg.1 then some (-(d : Int))
      else if d > 2 ^ 63 - 1 then none
      else some (d : Int)

/-- The call `strings.Replace(s, ":", "h", 1)`: the first colon becomes `h`. -/
def replaceFirstColon : List Char → List Char
  | [] => []
  | c :: cs => if c = ':' then 'h' :: cs else c :: replaceFirstColon cs

/-- The value of `d, _ := time.ParseDuration(strings.Replace(s, ":", "h", 1) + "m" + "s")`,
which is 0 when ParseDuration returns an error. -/
def clockDuration (s : String) : Int :=
  (ParseDuration (String.mk (replaceFirstColon s.toList) ++ "m" ++ "s")).getD 0

/-- The function atoi of package time. -/
def atoi (s : List Char) : Option Int :=
  let sg := takeSign s
  match leadingInt 0 sg.2 with
  | some (q, []) => some (if sg.1 then wrap64 (-(wrap64 q)) else wrap64 q)
  | _ => none

/-- The function getnum of package time: one or two digits, exactly two when
`fixed`. -/
def getnum (s : List Char) (fixed : Bool) : Option (Nat × List Char) :=
  match s with
  | [] => none
  | a :: rest =>
    if !a.isDigit then none
    else
      match rest with
      | [] => if fixed then none else some (digitVal a, [])
      | b :: rest2 =>
        if b.isDigit then some (digitVal a * 10 + digitVal b, rest2)
        else if fixed then none
        else some (digitVal a, rest)

/-- The call `time.Parse("15:04:05.000", s)`: an hour of one or two digits below
24, a two-digit minute and second below 60, then a period or comma and exactly
three characters that atoi reads as a non-negative number of milliseconds, and
nothing after.  The result is the instant on 0000-01-01 UTC; `none` is an
error return. -/
def parseClock (s : String) : Option Int :=
  match getnum s.toList false with
  | none => none
  | some (hour, v1) =>
    if 24 ≤ hour then none
    else
      match v1 with
      | ':' :: v2 =>
        match getnum v2 true with
        | none => none
        | some (min, v3) =>
          if 60 ≤ min then none
          else
            match v3 with
            | ':' :: v4 =>
              match getnum v4 true with
              | none => none
              | some (sec, v5) =>
                if 60 ≤ sec then none
                else
                  match v5 with
                  | p :: d1 :: d2 :: d3 :: v6 =>
                    if !(p == '.' || p == ',') then none
                    else
                      match atoi [d1, d2, d3] with
                      | none => none
                      | some ms =>
                        if ms < 0 then none
                        else if v6 ≠ [] then none
                        else
                          some ((((hour * 60 + min) * 60 + sec : Nat) : Int) * (Second : Int)
                            + ms * (Millisecond : Int))
                  | _ => none
            | _ => none
      | _ => none

/-- White space of package fmt (the table `space`), which is also
unicode.IsSpace. -/
def isSpace (c : Char) : Bool :=
  let n := c.toNat
  (0x09 ≤ n && n ≤ 0x0d) || n == 0x20 || n == 0x85 || n == 0xa0 || n == 0x1680 ||
    (0x2000 ≤ n && n ≤ 0x200a) || n == 0x2028 || n == 0x2029 || n == 0x202f ||
    n == 0x205f || n == 0x3000

/-- The method SkipSpace of the scanner behind fmt.Sscanf, where a newline is
an error (`none`). -/
def skipSpace : List Char → Option (List Char)
  | [] => some []
  | c :: cs =>
    if c = '\n' then none
    else if isSpace c then skipSpace cs
    else some (c :: cs)

/-- Value of a string of decimal digits. -/
def digitsVal (ds : List Char) : Nat := ds.foldl (fun acc c => acc * 10 + digitVal c) 0

/-- The call `fmt.Sscanf(s, "%d", &n)`: white space, an optional sign, then the
longest run of decimal digits, read by strconv.ParseInt into an int64; whatever
follows the digits is left unread.  `none` is an error return. -/
def sscanfInt (s : String) : Option Int :=
  match skipSpace s.toList with
  | none => none
  | some s1 =>
    let sg := takeSign s1
    let tok := sg.2.takeWhile Char.isDigit
    if tok = [] then none
    else
      let v : Int := if sg.1 then -(digitsVal tok : Int) else (digitsVal tok : Int)
      if v < -(2 ^ 63) ∨ 2 ^ 63 - 1 < v then none else some v

/-! ## Data model -/

/-- The record Config of package config. -/
structure Config where
  Laps : Int
  LapLen : Int
  PenaltyLen : Int
  FiringLines : Int
  Start : String
  StartDelta : String
deriving DecidableEq, Repr

structure Event where
  Time : String
  EventID : Int
  CompetitorID : Int
  ExtraParams : List String
deriving DecidableEq, Repr

structure Competitor where
  ID : Int
  Registered : Bool
  StartTime : Int
  ActualStart : Int
  LapTimes : List Int
  PenaltyTimes : List Int
  Hits : List (Int × List Int)
  Shots : List (Int × Int)
  Status : String
  CurrentLap : Int
  PenaltyLaps : Int
  FiringRange : Int
  LastPenaltyTime : Int
  LastLapTime : Int
deriving DecidableEq, Repr

structure LapDetail where
  Time : String
  Speed : ℚ
deriving DecidableEq, Repr

structure Report where
  CompetitorID : Int
  TotalTime : String
  LapDetails : List LapDetail
  PenaltyTime : String
  PenaltySpeed : ℚ
  HitsShots : String
deriving DecidableEq, Repr

/-! ## Go maps as association lists -/

/-- The two-result lookup `v, ok := m[k]`. -/
def mapFind {β : Type} (m : List (Int × β)) (k : Int) : Option β :=
  match m with
  | [] => none
  | p :: rest => if p.1 = k then some p.2 else mapFind rest k

/-- The lookup `m[k]`, with the zero value `dflt` for an absent key. -/
def mapGet {β : Type} (dflt : β) (m : List (Int × β)) (k : Int) : β :=
  (mapFind m k).getD dflt

/-- The assignment `m[k] = v`. -/
def mapSet {β : Type} (m : List (Int × β)) (k : Int) (v : β) : List (Int × β) :=
  match m with
  | [] => [(k, v)]
  | p :: rest => if p.1 = k then (k, v) :: rest else p :: mapSet rest k v

/-! ## The event engine -/

/-- The competitor that Events creates at the first event of an id; the fields
the composite literal leaves out hold their zero values. -/
def newCompetitor (id : Int) : Competitor :=
  { ID := id, Registered := false, StartTime := zeroTime, ActualStart := zeroTime,
    LapTimes := [], PenaltyTimes := [], Hits := [], Shots := [], Status := "NotStarted",
    CurrentLap := -1, PenaltyLaps := 0, FiringRange := 0, LastPenaltyTime := zeroTime,
    LastLapTime := zeroTime }

/-- Case 4, started.  The start delta is the value of `clockDuration` on
config.StartDelta. -/
def caseStarted (config : Config) (comp : Competitor) (event : Event) (eventTime : Int) :
    Competitor × List Event :=
  let comp1 := { comp with ActualStart := eventTime, Status := "Started", LastLapTime := eventTime }
  let startDelta := clockDuration config.StartDelta
  if timeSub eventTime comp1.StartTime > startDelta then
    ({ comp1 with Status := "NotStarted" },
      [{ Time := event.Time, EventID := 32, CompetitorID := comp1.ID, ExtraParams := [] }])
  else (comp1, [])

/-- Case 5, on the firing range, with the range id read from the parameter. -/
def caseFiringRange (comp : Competitor) (rangeID : Int) : Competitor :=
  { comp with FiringRange := rangeID, Shots := mapSet comp.Shots rangeID 5 }

/-- Case 6, target hit, with the target read from the parameter. -/
def caseHit (comp : Competitor) (target : Int) : Competitor :=
  { comp with
    Hits := mapSet comp.Hits comp.FiringRange (mapGet [] comp.Hits comp.FiringRange ++ [target]) }

/-- Case 7, off the firing range; the subtraction and the `+=` are those of
Go's int and wrap. -/
def caseOffRange (comp : Competitor) : Competitor :=
  let misses := wrap64 (mapGet 0 comp.Shots comp.FiringRange
    - ((mapGet [] comp.Hits comp.FiringRange).length : Int))
  { comp with PenaltyLaps := wrap64 (comp.PenaltyLaps + misses) }

/-- Case 9, off the penalty laps; the `--` is that of Go's int and wraps. -/
def caseOffPenalty (comp : Competitor) (eventTime : Int) : Competitor :=
  let penaltyTime := timeSub eventTime comp.LastPenaltyTime
  { comp with PenaltyTimes := comp.PenaltyTimes ++ [penaltyTime],
              PenaltyLaps := wrap64 (comp.PenaltyLaps - 1) }

/-- Case 10, lap completed. -/
def caseLapCompleted (config : Config) (comp : Competitor) (event : Event) (eventTime : Int) :
    Competitor × List Event :=
  let currentLap := comp.CurrentLap + 1
  let lapTime :=
    if currentLap = 0 then timeSub eventTime comp.ActualStart
    else timeSub eventTime comp.LastLapTime
  let comp1 := { comp with CurrentLap := currentLap, LapTimes := comp.LapTimes ++ [lapTime],
                           LastLapTime := eventTime }
  if comp1.CurrentLap + 1 = config.Laps ∧ comp1.PenaltyLaps = 0 then
    ({ comp1 with Status := "Finished" },
      [{ Time := event.Time, EventID := 33, CompetitorID := comp1.ID, ExtraParams := [] }])
  else (comp1, [])

/-- The `switch event.EventID` of Events, applied to the competitor of the event
once the time of the event has parsed to `eventTime`: the competitor afterwards
and the events appended to outgoingEvents.  `none` is the index-out-of-range
fault of `event.ExtraParams[0]` on an empty parameter list;  a parameter that
does not parse leaves the competitor as it is (`continue`).  The counter
CurrentLap rises by at most one per event, so it stays far inside int64 on any
slice of events that fits in memory and is not wrapped.  The counter
PenaltyLaps moves in one off-range event by as much as the number of hits
listed for the range, and is wrapped as Go's int is. -/
def processEvent (config : Config) (comp : Competitor) (event : Event) (eventTime : Int) :
    Option (Competitor × List Event) :=
  if event.EventID = 1 then
    some ({ comp with Registered := true, Status := "Registered" }, [])
  else if event.EventID = 2 then
    match event.ExtraParams with
    | [] => none
    | p :: _ =>
      match parseClock p with
      | none => some (comp, [])
      | some startTime => some ({ comp with StartTime := startTime }, [])
  else if event.EventID = 3 then
    some (comp, [])
  else if event.EventID = 4 then
    some (caseStarted config comp event eventTime)
  else if event.EventID = 5 then
    match event.ExtraParams with
    | [] => none
    | p :: _ =>
      match sscanfInt p with
      | none => some (comp, [])
      | some rangeID => some (caseFiringRange comp rangeID, [])
  else if event.EventID = 6 then
    match event.ExtraParams with
    | [] => none
    | p :: _ =>
      match sscanfInt p with
      | none => some (comp, [])
      | some target => some (caseHit comp target, [])
  else if event.EventID = 7 then
    some (caseOffRange comp, [])
  else if event.EventID = 8 then
    some ({ comp with LastPenaltyTime := eventTime }, [])
  else if event.EventID = 9 then
    some (caseOffPenalty comp eventTime, [])
  else if event.EventID = 10 then
    some (caseLapCompleted config comp event eventTime)
  else if event.EventID = 11 then
    some ({ comp with Status := "NotFinished" }, [])
  else some (comp, [])

/-- The variables `competitors` and `outgoingEvents` of Events. -/
structure RunState where
  competitors : List (Int × Competitor)
  outgoingEvents : List Event
deriving DecidableEq, Repr

/-- The competitor an event works on: the one stored under its id, or a new
one. -/
def competitorOf (competitors : List (Int × Competitor)) (id : Int) : Competitor :=
  (mapFind competitors id).getD (newCompetitor id)

/-- One round of the loop of Events.  The competitor is entered into the map
before the time of the event is parsed, so an event that is skipped for its
time still registers its competitor. -/
def eventStep (config : Config) (st : RunState) (event : Event) : Option RunState :=
  let comp := competitorOf st.competitors event.CompetitorID
  match parseClock event.Time with
  | none =>
    some { st with competitors := mapSet st.competitors event.CompetitorID comp }
  | some eventTime =>
    match processEvent config comp event eventTime with
    | none => none
    | some res =>
      some { competitors := mapSet st.competitors event.CompetitorID res.1,
             outgoingEvents := st.outgoingEvents ++ res.2 }

/-- The loop of Events from a given state. -/
def runEvents (config : Config) : RunState → List Event → Option RunState
  | st, [] => some st
  | st, event :: rest =>
    match eventStep config st event with
    | none => none
    | some st1 => runEvents config st1 rest

/-- The function Events; `none` is a run that ends in a run-time fault. -/
def Events (config : Config) (events : List Event) :
    Option (List (Int × Competitor) × List Event) :=
  (runEvents config { competitors := [], outgoingEvents := [] } events).map
    (fun st => (st.competitors, st.outgoingEvents))

/-! ## The report generator -/

/-- The loops `for _, x := range xs { total += x }` on durations, from `start`. -/
def durSum (start : Int) (xs : List Int) : Int :=
  xs.foldl (fun acc x => wrap64 (acc + x)) start

/-- A float64 as a rational number. -/
def f64Rat (v : Nat × Nat) : ℚ := (v.1 : ℚ) / (v.2 : ℚ)

/-- The method Seconds of Duration. -/
def durSeconds (d : Int) : ℚ :=
  if d < 0 then -f64Rat (floatUnits Second d.natAbs) else f64Rat (floatUnits Second d.natAbs)

/-- The conversion `float64(n)` of an int. -/
def floatOfInt (n : Int) : ℚ :=
  if n < 0 then -f64Rat (f64 n.natAbs 1) else f64Rat (f64 n.natAbs 1)

/-- The float64 quotient `x / y` of two float64 values, `y` not zero. -/
def floatDiv (x y : ℚ) : ℚ :=
  let v := f64Rat (f64 (x.num.natAbs * y.den) (x.den * y.num.natAbs))
  if (decide (x < 0)) != (decide (y < 0)) then -v else v

def emptyLap : LapDetail := { Time := "", Speed := 0 }

/-- The first loop over LapTimes that builds lapDetails. -/
def lapDetailsOf (config : Config) (lapTimes : List Int) : List LapDetail :=
  lapTimes.map (fun lt =>
    { Time := formatDuration lt,
      Speed := if durSeconds lt > 0 then floatDiv (floatOfInt config.LapLen) (durSeconds lt) else 0 })

/-- The loop `for len(lapDetails) < config.Laps` that appends empty entries;
`fuel` bounds the rounds. -/
def padLapDetails (laps : Int) : Nat → List LapDetail → List LapDetail
  | 0, lapDetails => lapDetails
  | fuel + 1, lapDetails =>
    if (lapDetails.length : Int) < laps then padLapDetails laps fuel (lapDetails ++ [emptyLap])
    else lapDetails

/-- The loop over Hits: `totalHits += len(hits)`. -/
def totalHitsOf (hits : List (Int × List Int)) : Int :=
  hits.foldl (fun acc p => wrap64 (acc + (p.2.length : Int))) 0

/-- The loop over Shots: `totalShots += shots`. -/
def totalShotsOf (shots : List (Int × Int)) : Int :=
  shots.foldl (fun acc p => wrap64 (acc + p.2)) 0

/-- The body of the loop of GenerateReport: the report of one competitor. -/
def reportOf (config : Config) (comp : Competitor) : Report :=
  let totalTime := durSum (durSum 0 comp.LapTimes) comp.PenaltyTimes
  let lapDetails := padLapDetails config.Laps config.Laps.toNat (lapDetailsOf config comp.LapTimes)
  let penaltyTime := durSum 0 comp.PenaltyTimes
  let penaltySpeed : ℚ :=
    if penaltyTime > 0 then
      floatDiv (floatOfInt (wrap64 (config.PenaltyLen * (comp.PenaltyTimes.length : Int))))
        (durSeconds penaltyTime)
    else 0
  { CompetitorID := comp.ID,
    TotalTime := if comp.Status = "Finished" then formatDuration totalTime else comp.Status,
    LapDetails := lapDetails,
    PenaltyTime := formatDuration penaltyTime,
    PenaltySpeed := penaltySpeed,
    HitsShots := fmtInt (totalHitsOf comp.Hits) ++ "/" ++ fmtInt (totalShotsOf comp.Shots) }

/-- The comparison handed to sort.Slice, on the reports at the two indices. -/
def reportLess (ri rj : Report) : Bool :=
  if ri.TotalTime = "NotStarted" ∨ ri.TotalTime = "NotFinished" then false
  else if rj.TotalTime = "NotStarted" ∨ rj.TotalTime = "NotFinished" then true
  else decide (clockDuration ri.TotalTime < clockDuration rj.TotalTime)

/-- The inner loop `for j := i; j > a && less(j, j-1); j--` of the insertion
sort of package sort: the element `x` moves toward the front past every
element it is less than.  `sorted` holds the slice before `x`, last element
first. -/
def insertBack {α : Type} (less : α → α → Bool) (x : α) : List α → List α
  | [] => [x]
  | y :: ys => if less x y then y :: insertBack less x ys else x :: y :: ys

/-- The call `sort.Slice(data, less)` as the insertion sort that package sort
runs on a slice of at most 12 elements.  (On a longer slice package sort runs
another, also unstable, comparison sort; the theorems below that speak of the
order of the result use of it only that the result is a permutation with no
pair out of order.) -/
def sortSlice {α : Type} (less : α → α → Bool) (data : List α) : List α :=
  (data.foldl (fun sorted x => insertBack less x sorted) []).reverse

/-- The function GenerateReport; `competitors` lists the entries of the map in
the order in which `range` visits them, which Go leaves unspecified. -/
def GenerateReport (competitors : List (Int × Competitor)) (config : Config) : List Report :=
  sortSlice reportLess (competitors.map (fun p => reportOf config p.2))

/-! ## Reading event lines -/

/-- The function strings.Fields; `cur` is the field being read, last character
first. -/
def fieldsFrom : List Char → List Char → List String
  | cur, [] => if cur = [] then [] else [String.mk cur.reverse]
  | cur, c :: cs =>
    if isSpace c then
      if cur = [] then fieldsFrom [] cs else String.mk cur.reverse :: fieldsFrom [] cs
    else fieldsFrom (c :: cur) cs

def Fields (s : String) : List String := fieldsFrom [] s.toList

def isBracket (c : Char) : Bool := c == '[' || c == ']'

/-- The call `strings.Trim(s, "[]")`. -/
def trimBrackets (s : String) : String :=
  String.mk ((s.toList.dropWhile isBracket).reverse.dropWhile isBracket).reverse

/-- The function parseEvent; `none` is an error return. -/
def parseEvent (line : String) : Option Event :=
  match Fields line with
  | p0 :: p1 :: p2 :: extraParams =>
    match sscanfInt p1 with
    | none => none
    | some eventID =>
      match sscanfInt p2 with
      | none => none
      | some competitorID =>
        some { Time := trimBrackets p0, EventID := eventID, CompetitorID := competitorID,
               ExtraParams := extraParams }
  | _ => none


/-! ## Notions used to state the properties -/

/-- The tolerance that a start delta written "HH:MM:SS" denotes, in
nanoseconds: two decimal digits for each of hours, minutes and seconds. -/
def clockTolerance (s : String) : Option Int :=
  match s.toList with
  | [h1, h2, c1, m1, m2, c2, s1, s2] =>
    if c1 = ':' ∧ c2 = ':' ∧ h1.isDigit = true ∧ h2.isDigit = true ∧ m1.isDigit = true ∧
        m2.isDigit = true ∧ s1.isDigit = true ∧ s2.isDigit = true then
      some ((((digitVal h1 * 10 + digitVal h2) * 3600 + (digitVal m1 * 10 + digitVal m2) * 60 +
        (digitVal s1 * 10 + digitVal s2) : Nat) : Int) * (Second : Int))
    else none
  | _ => none

/-- Every competitor is stored under its own ID, as in every map that Events
builds. -/
def WellKeyed (m : List (Int × Competitor)) : Prop := ∀ p ∈ m, p.2.ID = p.1

/-- The configuration of the tests of the repository. -/
def testConfig : Config :=
  { Laps := 2, LapLen := 1000, PenaltyLen := 100, FiringLines := 1, Start := "10:00:00",
    StartDelta := "00:00:10" }

/-- The first four events of TestEvents: registration, draw of the start time
10:00:10.000, start line, start at 10:00:12.000. -/
def testStartEvents : List Event :=
  [ { Time := "10:00:00.000", EventID := 1, CompetitorID := 1, ExtraParams := [] },
    { Time := "10:00:05.000", EventID := 2, CompetitorID := 1, ExtraParams := ["10:00:10.000"] },
    { Time := "10:00:08.000", EventID := 3, CompetitorID := 1, ExtraParams := [] },
    { Time := "10:00:12.000", EventID := 4, CompetitorID := 1, ExtraParams := [] } ]

/-- A run state in which competitor 1 has drawn the start time 10:00:10.000. -/
def drawnState : RunState :=
  { competitors := [(1, { newCompetitor 1 with StartTime := 36010000000000 })],
    outgoingEvents := [] }

/-- A report that shows "NotStarted" or "NotFinished" as its total time. -/
def isNonFinisher (r : Report) : Prop :=
  r.TotalTime = "NotStarted" ∨ r.TotalTime = "NotFinished"

/-- The rank that `reportLess` compares: non-finishers above everything, the
others by the duration that `clockDuration` reads from the total time. -/
def reportKey (r : Report) : WithTop Int :=
  if r.TotalTime = "NotStarted" ∨ r.TotalTime = "NotFinished" then ⊤
  else ((clockDuration r.TotalTime : Int) : WithTop Int)

/-- The competitors of the ranking example of the specification: 1 has not
started, 2 has finished in ten minutes, 3 in five; visited in the order 1, 2, 3. -/
def rankingCompetitors : List (Int × Competitor) :=
  [ (1, newCompetitor 1),
    (2, { newCompetitor 2 with Status := "Finished", LapTimes := [600000000000] }),
    (3, { newCompetitor 3 with Status := "Finished", LapTimes := [300000000000] }) ]

/-- A competitor with three recorded laps, one more than testConfig.Laps. -/
def threeLapCompetitor : Competitor :=
  { newCompetitor 1 with LapTimes := [588000000000, 600000000000, 612000000000], CurrentLap := 2 }

def threeLapCompetitors : List (Int × Competitor) := [(1, threeLapCompetitor)]

/-- What the loop of Events does to one competitor over the events that carry
its id: an event whose time does not parse is skipped, a fault ends the run. -/
def runCompetitor (config : Config) : Competitor → List Event → Option Competitor
  | comp, [] => some comp
  | comp, event :: rest =>
    match parseClock event.Time with
    | none => runCompetitor config comp rest
    | some eventTime =>
      match processEvent config comp event eventTime with
      | none => none
      | some res => runCompetitor config res.1 rest

/-- The events of a sequence that carry the competitor id `c`. -/
def eventsOf (c : Int) (events : List Event) : List Event :=
  events.filter (fun e => decide (e.CompetitorID = c))

/-- A visit of competitor 1 to firing range 1 with all five targets hit. -/
def fullVisit : List Event :=
  [ { Time := "10:05:00.000", EventID := 5, CompetitorID := 1, ExtraParams := ["1"] },
    { Time := "10:05:10.000", EventID := 6, CompetitorID := 1, ExtraParams := ["1"] },
    { Time := "10:05:20.000", EventID := 6, CompetitorID := 1, ExtraParams := ["2"] },
    { Time := "10:05:30.000", EventID := 6, CompetitorID := 1, ExtraParams := ["3"] },
    { Time := "10:05:40.000", EventID := 6, CompetitorID := 1, ExtraParams := ["4"] },
    { Time := "10:05:45.000", EventID := 6, CompetitorID := 1, ExtraParams := ["5"] },
    { Time := "10:05:50.000", EventID := 7, CompetitorID := 1, ExtraParams := [] } ]

/-- The first parameter of an event read by `fmt.Sscanf(..., "%d", ...)`: the
range id of an on-firing-range event, the target of a target-hit event. -/
def firstIntParam (e : Event) : Option Int :=
  match e.ExtraParams with
  | [] => none
  | p :: _ => sscanfInt p

/-- The first parameter of an event read by `time.Parse("15:04:05.000", ...)`:
the start time of a start-time-assigned event. -/
def firstClockParam (e : Event) : Option Int :=
  match e.ExtraParams with
  | [] => none
  | p :: _ => parseClock p

/-- An event whose time parses and whose first parameter, where the kind reads
one, is present and parses: a clock time for kind 2, an integer for kinds 5
and 6. -/
def Parseable (e : Event) : Prop :=
  parseClock e.Time ≠ none ∧
  (e.EventID = 2 → firstClockParam e ≠ none) ∧
  (e.EventID = 5 ∨ e.EventID = 6 → firstIntParam e ≠ none)

instance (e : Event) : Decidable (Parseable e) := by
  unfold Parseable
  infer_instance

/-- The number of target-hit events (kind 6) of competitor `c`. -/
def hitCount (c : Int) (events : List Event) : Nat :=
  ((eventsOf c events).filter (fun e => decide (e.EventID = 6))).length

/-- The range ids of the on-firing-range events (kind 5) of competitor `c`, one
for every visit. -/
def visitedRanges (c : Int) (events : List Event) : List Int :=
  ((eventsOf c events).filter (fun e => decide (e.EventID = 5))).filterMap firstIntParam

/-- The number of different firing ranges competitor `c` has visited. -/
def distinctRanges (c : Int) (events : List Event) : Nat :=
  (visitedRanges c events).dedup.length

/-- The keys of a map. -/
def mapKeys {β : Type} (m : List (Int × β)) : List Int := m.map (fun p => p.1)

/-- The number of hits over all ranges of a Hits map. -/
def hitSum (m : List (Int × List Int)) : Nat := (m.map (fun p => p.2.length)).sum

/-- Two visits of competitor 1 to firing range 1, no target hit. -/
def twoVisits : List Event :=
  [ { Time := "10:05:00.000", EventID := 5, CompetitorID := 1, ExtraParams := ["1"] },
    { Time := "10:06:00.000", EventID := 7, CompetitorID := 1, ExtraParams := [] },
    { Time := "10:15:00.000", EventID := 5, CompetitorID := 1, ExtraParams := ["1"] },
    { Time := "10:16:00.000", EventID := 7, CompetitorID := 1, ExtraParams := [] } ]

/-- The four instants of a competitor each lie between 0000-01-01 00:00 and the
zero value of `time.Time`, as a parsed clock time and the zero value do. -/
def ClockFields (comp : Competitor) : Prop :=
  (0 ≤ comp.StartTime ∧ comp.StartTime ≤ zeroTime) ∧
  (0 ≤ comp.ActualStart ∧ comp.ActualStart ≤ zeroTime) ∧
  (0 ≤ comp.LastPenaltyTime ∧ comp.LastPenaltyTime ≤ zeroTime) ∧
  (0 ≤ comp.LastLapTime ∧ comp.LastLapTime ≤ zeroTime)

/-- The start of competitor 1 at 10:00:12.000. -/
def startEvent : Event :=
  { Time := "10:00:12.000", EventID := 4, CompetitorID := 1, ExtraParams := [] }

/-- The first lap of competitor 1, completed at 10:10:00.000. -/
def lapEvent : Event :=
  { Time := "10:10:00.000", EventID := 10, CompetitorID := 1, ExtraParams := [] }

/-- Competitor 1 enters the penalty laps at 10:06:00.000. -/
def onPenaltyEvent : Event :=
  { Time := "10:06:00.000", EventID := 8, CompetitorID := 1, ExtraParams := [] }

/-- Competitor 1 leaves the penalty laps at 10:07:00.000. -/
def offPenaltyEvent : Event :=
  { Time := "10:07:00.000", EventID := 9, CompetitorID := 1, ExtraParams := [] }

/-- The state of Events before the first event. -/
def initialState : RunState := { competitors := [], outgoingEvents := [] }

/-- The state of Events after the start of competitor 1 at 10:00:12.000. -/
def startedState : RunState :=
  { competitors := [(1, { newCompetitor 1 with ActualStart := 36012000000000, Status := "Started", LastLapTime := 36012000000000 })],
    outgoingEvents := [] }

/-- The state of Events after competitor 1 entered the penalty laps at
10:06:00.000. -/
def penaltyEntryState : RunState :=
  { competitors := [(1, { newCompetitor 1 with LastPenaltyTime := 36360000000000 })],
    outgoingEvents := [] }

/-- One round of the loop of Events as it acts on the competitor of the event:
the competitor afterwards and the events emitted; an event whose time does not
parse changes nothing, `none` is a fault. -/
def competitorStep (config : Config) (comp : Competitor) (event : Event) :
    Option (Competitor × List Event) :=
  match parseClock event.Time with
  | none => some (comp, [])
  | some eventTime => processEvent config comp event eventTime

/-- The number of events `finished` (33) for competitor `c` in a sequence of
outgoing events. -/
def finishCount (c : Int) (out : List Event) : Nat :=
  (out.filter (fun e => decide (e.EventID = 33 ∧ e.CompetitorID = c))).length

/-- The outgoing events that carry the competitor id `c`. -/
def outgoingOf (c : Int) (out : List Event) : List Event :=
  out.filter (fun e => decide (e.CompetitorID = c))

/-- A start-time-assigned event without its parameter, as parseEvent reads it
from the line "[10:00:05.000] 2 1". -/
def missingParamEvent : Event :=
  { Time := "10:00:05.000", EventID := 2, CompetitorID := 1, ExtraParams := [] }

/-- Events of two competitors: the start and first lap of competitor 1 around
the registration of competitor 2. -/
def twoCompetitorEvents : List Event :=
  [ startEvent,
    { Time := "10:01:00.000", EventID := 1, CompetitorID := 2, ExtraParams := [] },
    lapEvent ]

/-- The state after the run on twoCompetitorEvents. -/
def twoCompetitorRun : RunState :=
  (runEvents testConfig initialState twoCompetitorEvents).getD initialState

/-- A start and three completed laps of competitor 1; with the two laps of
testConfig the second lap finishes the race. -/
def finishingEvents : List Event := [startEvent, lapEvent, lapEvent, lapEvent]

/-- The state after the run on finishingEvents. -/
def finishingRun : RunState :=
  (runEvents testConfig initialState finishingEvents).getD initialState

/-! ## Well-formed event lines, in the words of the specification -/

/-- A run of white space, possibly empty. -/
def Blank (ws : List Char) : Prop := ∀ ch ∈ ws, isSpace ch = true

/-- A separator between two fields: white space, at least one character. -/
def Separator (ws : List Char) : Prop := ws ≠ [] ∧ Blank ws

/-- A field of a line: at least one character and no white space. -/
def Unbroken (f : List Char) : Prop := f ≠ [] ∧ ∀ ch ∈ f, isSpace ch = false

instance (ws : List Char) : Decidable (Blank ws) := by
  unfold Blank
  infer_instance

instance (ws : List Char) : Decidable (Separator ws) := by
  unfold Separator
  infer_instance

instance (f : List Char) : Decidable (Unbroken f) := by
  unfold Unbroken
  infer_instance

/-- The text of fields written one after the other, each behind its separator. -/
def joinFields : List (List Char × String) → List Char
  | [] => []
  | (sep, f) :: rest => sep ++ f.toList ++ joinFields rest

/-- The number that a string of decimal digits denotes, most significant digit
first. -/
def decimalValue (ds : List Char) : Nat :=
  Nat.ofDigits 10 (ds.reverse.map (fun d => d.toNat - 48))

/-- The string `s` is a decimal numeral of the integer `k`: decimal digits, at
least one, behind an optional sign. -/
def IsNumeral (s : String) (k : Int) : Prop :=
  ∃ ds : List Char, ds ≠ [] ∧ (∀ d ∈ ds, d.isDigit = true) ∧
    ((s.toList = ds ∧ k = (decimalValue ds : Int)) ∨
     (s.toList = '+' :: ds ∧ k = (decimalValue ds : Int)) ∨
     (s.toList = '-' :: ds ∧ k = -(decimalValue ds : Int)))

/-- Events of competitor 1 around those of competitor 2: a start at
10:00:12.000, a lap completed at 10:20:00.000, a visit to the firing range, a
lap stamped earlier, at 10:10:00.000, and a last lap at 10:30:00.000. -/
def telescopeEvents : List Event :=
  [ { Time := "09:55:00.000", EventID := 1, CompetitorID := 1, ExtraParams := [] },
    startEvent,
    { Time := "10:01:00.000", EventID := 10, CompetitorID := 2, ExtraParams := [] },
    { Time := "10:20:00.000", EventID := 10, CompetitorID := 1, ExtraParams := [] },
    { Time := "10:21:00.000", EventID := 5, CompetitorID := 1, ExtraParams := ["1"] },
    lapEvent,
    { Time := "10:30:00.000", EventID := 10, CompetitorID := 1, ExtraParams := [] },
    { Time := "10:31:00.000", EventID := 11, CompetitorID := 1, ExtraParams := ["Lost"] } ]

/-- The state after the run on telescopeEvents. -/
def telescopeRun : RunState :=
  (runEvents testConfig initialState telescopeEvents).getD initialState

/-- A race of two laps of competitor 1 with a visit to firing range 1 in each
lap and all five targets hit in both visits. -/
def cleanRace : List Event :=
  startEvent :: (fullVisit ++
    [ lapEvent,
      { Time := "10:15:00.000", EventID := 5, CompetitorID := 1, ExtraParams := ["1"] },
      { Time := "10:15:10.000", EventID := 6, CompetitorID := 1, ExtraParams := ["1"] },
      { Time := "10:15:20.000", EventID := 6, CompetitorID := 1, ExtraParams := ["2"] },
      { Time := "10:15:30.000", EventID := 6, CompetitorID := 1, ExtraParams := ["3"] },
      { Time := "10:15:40.000", EventID := 6, CompetitorID := 1, ExtraParams := ["4"] },
      { Time := "10:15:45.000", EventID := 6, CompetitorID := 1, ExtraParams := ["5"] },
      { Time := "10:15:50.000", EventID := 7, CompetitorID := 1, ExtraParams := [] },
      { Time := "10:20:00.000", EventID := 10, CompetitorID := 1, ExtraParams := [] } ])

/-- The same race with the one visit of the first lap only. -/
def oneVisitRace : List Event :=
  startEvent :: (fullVisit ++
    [ lapEvent,
      { Time := "10:20:00.000", EventID := 10, CompetitorID := 1, ExtraParams := [] } ])

/-- An on-firing-range event of competitor 1 whose parameter "7x" is not an
integer. -/
def trailingTextEvent : Event :=
  { Time := "10:05:00.000", EventID := 5, CompetitorID := 1, ExtraParams := ["7x"] }

/-- A state in which competitor 1 has the least int64, -2^63, as penalty laps. -/
def leastLapsState : RunState :=
  { competitors := [(1, { newCompetitor 1 with PenaltyLaps := -9223372036854775808 })],
    outgoingEvents := [] }

/-! ## Characters and leading digits -/

theorem isDigit_iff (c : Char) : c.isDigit = true ↔ 48 ≤ c.toNat ∧ c.toNat ≤ 57 := by
  unfold Char.isDigit
  simp [Char.toNat, UInt32.le_def, BitVec.le_def, UInt32.toNat]

theorem digitVal_le (c : Char) (h : c.isDigit = true) : digitVal c ≤ 9 := by
  rw [isDigit_iff] at h
  unfold digitVal
  omega

theorem isDigit_ne (c d : Char) (h : c.isDigit = true) (hd : d.isDigit = false) : c ≠ d := by
  rintro rfl
  rw [h] at hd
  exact Bool.noConfusion hd

theorem leadingInt_digit (x : Nat) (c : Char) (cs : List Char) (h : c.isDigit = true)
    (hx : x * 10 + digitVal c ≤ 2 ^ 63) :
    leadingInt x (c :: cs) = leadingInt (x * 10 + digitVal c) cs := by
  have h1 : ¬ x > 2 ^ 63 / 10 := by omega
  have h2 : ¬ x * 10 + digitVal c > 2 ^ 63 := by omega
  simp only [leadingInt, h, if_true, h1, h2, if_false]

theorem leadingInt_stop (x : Nat) (c : Char) (cs : List Char) (h : c.isDigit = false) :
    leadingInt x (c :: cs) = some (x, c :: cs) := by
  simp [leadingInt, h]

theorem leadingInt_two (a b c : Char) (cs : List Char) (ha : a.isDigit = true)
    (hb : b.isDigit = true) (hc : c.isDigit = false) :
    leadingInt 0 (a :: b :: c :: cs) = some (digitVal a * 10 + digitVal b, c :: cs) := by
  have := digitVal_le a ha
  have := digitVal_le b hb
  rw [leadingInt_digit 0 a _ ha (by omega), leadingInt_digit _ b _ hb (by omega),
    leadingInt_stop _ c _ hc]
  simp

/-- On a text "HH:MM:SS" only the first colon is replaced, ParseDuration stops
at the unit ":" after the minutes with an error, and the value used is 0. -/
theorem clockDuration_clock (h1 h2 m1 m2 s1 s2 : Char) (hh1 : h1.isDigit = true)
    (hh2 : h2.isDigit = true) (hm1 : m1.isDigit = true) (hm2 : m2.isDigit = true)
    (hs1 : s1.isDigit = true) :
    clockDuration (String.mk [h1, h2, ':', m1, m2, ':', s1, s2]) = 0 := by
  have n1 : h1 ≠ ':' := isDigit_ne _ _ hh1 (by decide)
  have n2 : h2 ≠ ':' := isDigit_ne _ _ hh2 (by decide)
  have n3 : h1 ≠ '-' := isDigit_ne _ _ hh1 (by decide)
  have n4 : h1 ≠ '+' := isDigit_ne _ _ hh1 (by decide)
  have e1 : leadingInt 0 [h1, h2, 'h', m1, m2, ':', s1, s2, 'm', 's']
      = some (digitVal h1 * 10 + digitVal h2, ['h', m1, m2, ':', s1, s2, 'm', 's']) :=
    leadingInt_two _ _ _ _ hh1 hh2 (by decide)
  have e2 : leadingInt 0 [m1, m2, ':', s1, s2, 'm', 's']
      = some (digitVal m1 * 10 + digitVal m2, [':', s1, s2, 'm', 's']) :=
    leadingInt_two _ _ _ _ hm1 hm2 (by decide)
  have u1 : isUnitChar m1 = false := by simp [isUnitChar, hm1]
  have u2 : isUnitChar s1 = false := by simp [isUnitChar, hs1]
  have uh : isUnitChar 'h' = true := by decide
  have uc : isUnitChar ':' = true := by decide
  have r2 : ∀ d, parseDurationRound [m1, m2, ':', s1, s2, 'm', 's'] d = none := by
    intro d
    simp [parseDurationRound, readFraction, hm1, e2, List.takeWhile, u2, uc, unitMap]
  unfold clockDuration ParseDuration
  simp [replaceFirstColon, n1, n2, takeSign, n3, n4, parseDurationLoop, parseDurationRound,
    readFraction, addUnits, hh1, e1, List.takeWhile, List.dropWhile, u1, uh, unitMap]
  split_ifs <;> simp [parseDurationLoop, r2]

theorem clockDuration_of_tolerance (s : String) (D : Int)
    (h : clockTolerance s = some D) : clockDuration s = 0 ∧ 0 ≤ D := by
  unfold clockTolerance at h
  split at h
  · rename_i h1 h2 c1 m1 m2 c2 s1 s2 hs
    split at h
    · rename_i hc
      obtain ⟨rfl, rfl, d1, d2, d3, d4, d5, -⟩ := hc
      have hs' : s = String.mk [h1, h2, ':', m1, m2, ':', s1, s2] := by
        rw [← hs]
        cases s
        rfl
      refine ⟨?_, ?_⟩
      · rw [hs']
        exact clockDuration_clock h1 h2 m1 m2 s1 s2 d1 d2 d3 d4 d5
      · injection h with h
        rw [← h]
        exact Int.mul_nonneg (Int.ofNat_nonneg _) (Int.ofNat_nonneg _)
    · exact Option.noConfusion h
  · exact Option.noConfusion h

/-! ## Maps -/

theorem mapFind_mapSet_self {β : Type} (m : List (Int × β)) (k : Int) (v : β) :
    mapFind (mapSet m k v) k = some v := by
  induction m with
  | nil => simp [mapSet, mapFind]
  | cons p rest ih =>
    by_cases h : p.1 = k
    · simp [mapSet, h, mapFind]
    · simp [mapSet, h, mapFind, ih]

theorem mapFind_mapSet_ne {β : Type} (m : List (Int × β)) (k k' : Int) (v : β) (hne : k' ≠ k) :
    mapFind (mapSet m k v) k' = mapFind m k' := by
  induction m with
  | nil => simp [mapSet, mapFind, hne.symm]
  | cons p rest ih =>
    by_cases h : p.1 = k
    · have h' : ¬ p.1 = k' := fun e => hne (e.symm.trans h)
      simp [mapSet, h, mapFind, h', hne.symm]
    · by_cases h2 : p.1 = k'
      · rw [mapSet, if_neg h, mapFind, if_pos h2, mapFind, if_pos h2]
      · rw [mapSet, if_neg h, mapFind, if_neg h2, mapFind, if_neg h2, ih]

theorem mem_mapSet {β : Type} (m : List (Int × β)) (k : Int) (v : β) (p : Int × β)
    (hp : p ∈ mapSet m k v) : p = (k, v) ∨ p ∈ m := by
  induction m with
  | nil => simpa [mapSet] using hp
  | cons q rest ih =>
    by_cases h : q.1 = k
    · simp only [mapSet, h, if_true, List.mem_cons] at hp
      rcases hp with hp | hp
      · exact Or.inl hp
      · exact Or.inr (List.mem_cons_of_mem _ hp)
    · simp only [mapSet, h, if_false, List.mem_cons] at hp
      rcases hp with hp | hp
      · exact Or.inr (hp ▸ List.mem_cons_self _ _)
      · rcases ih hp with h1 | h1
        · exact Or.inl h1
        · exact Or.inr (List.mem_cons_of_mem _ h1)

theorem mapFind_mem {β : Type} (m : List (Int × β)) (k : Int) (v : β)
    (h : mapFind m k = some v) : (k, v) ∈ m := by
  induction m with
  | nil => simp [mapFind] at h
  | cons p rest ih =>
    by_cases hk : p.1 = k
    · simp only [mapFind, hk, if_true, Option.some.injEq] at h
      have : p = (k, v) := Prod.ext hk h
      rw [this]
      exact List.mem_cons_self _ _
    · simp only [mapFind, hk, if_false] at h
      exact List.mem_cons_of_mem _ (ih h)

theorem competitorOf_mapSet_self (m : List (Int × Competitor)) (k : Int) (v : Competitor) :
    competitorOf (mapSet m k v) k = v := by
  simp [competitorOf, mapFind_mapSet_self]

theorem competitorOf_mapSet_ne (m : List (Int × Competitor)) (k k' : Int) (v : Competitor)
    (hne : k' ≠ k) : competitorOf (mapSet m k v) k' = competitorOf m k' := by
  simp [competitorOf, mapFind_mapSet_ne _ _ _ _ hne]

theorem competitorOf_ID (m : List (Int × Competitor)) (hk : WellKeyed m) (id : Int) :
    (competitorOf m id).ID = id := by
  unfold competitorOf
  cases h : mapFind m id with
  | none => rfl
  | some c => exact hk _ (mapFind_mem m id c h)

theorem wellKeyed_mapSet (m : List (Int × Competitor)) (hk : WellKeyed m) (k : Int)
    (v : Competitor) (hv : v.ID = k) : WellKeyed (mapSet m k v) := by
  intro p hp
  rcases mem_mapSet m k v p hp with h | h
  · rw [h]
    exact hv
  · exact hk p h

/-! ## The engine keeps every competitor under its own ID -/

theorem caseStarted_ID (config : Config) (comp : Competitor) (event : Event) (t : Int) :
    (caseStarted config comp event t).1.ID = comp.ID := by
  unfold caseStarted
  dsimp only
  split <;> rfl

theorem caseLapCompleted_ID (config : Config) (comp : Competitor) (event : Event) (t : Int) :
    (caseLapCompleted config comp event t).1.ID = comp.ID := by
  unfold caseLapCompleted
  dsimp only
  split <;> rfl

theorem kind_cases (n : Int) :
    n = 1 ∨ n = 2 ∨ n = 3 ∨ n = 4 ∨ n = 5 ∨ n = 6 ∨ n = 7 ∨ n = 8 ∨ n = 9 ∨ n = 10 ∨ n = 11 ∨
      (n ≠ 1 ∧ n ≠ 2 ∧ n ≠ 3 ∧ n ≠ 4 ∧ n ≠ 5 ∧ n ≠ 6 ∧ n ≠ 7 ∧ n ≠ 8 ∧ n ≠ 9 ∧ n ≠ 10 ∧
        n ≠ 11) := by
  omega

theorem processEvent_registered (config : Config) (comp : Competitor) (event : Event) (t : Int)
    (h : event.EventID = 1) :
    processEvent config comp event t =
      some ({ comp with Registered := true, Status := "Registered" }, []) := by
  simp [processEvent, h]

theorem processEvent_startTime (config : Config) (comp : Competitor) (event : Event) (t : Int)
    (h : event.EventID = 2) :
    processEvent config comp event t =
      match event.ExtraParams with
      | [] => none
      | p :: _ =>
        match parseClock p with
        | none => some (comp, [])
        | some startTime => some ({ comp with StartTime := startTime }, []) := by
  simp [processEvent, h]

theorem processEvent_startLine (config : Config) (comp : Competitor) (event : Event) (t : Int)
    (h : event.EventID = 3) : processEvent config comp event t = some (comp, []) := by
  simp [processEvent, h]

theorem processEvent_started (config : Config) (comp : Competitor) (event : Event) (t : Int)
    (h : event.EventID = 4) :
    processEvent config comp event t = some (caseStarted config comp event t) := by
  simp [processEvent, h]

theorem processEvent_firingRange (config : Config) (comp : Competitor) (event : Event) (t : Int)
    (h : event.EventID = 5) :
    processEvent config comp event t =
      match event.ExtraParams with
      | [] => none
      | p :: _ =>
        match sscanfInt p with
        | none => some (comp, [])
        | some rangeID => some (caseFiringRange comp rangeID, []) := by
  simp [processEvent, h]

theorem processEvent_hit (config : Config) (comp : Competitor) (event : Event) (t : Int)
    (h : event.EventID = 6) :
    processEvent config comp event t =
      match event.ExtraParams with
      | [] => none
      | p :: _ =>
        match sscanfInt p with
        | none => some (comp, [])
        | some target => some (caseHit comp target, []) := by
  simp [processEvent, h]

theorem processEvent_offRange (config : Config) (comp : Competitor) (event : Event) (t : Int)
    (h : event.EventID = 7) :
    processEvent config comp event t = some (caseOffRange comp, []) := by
  simp [processEvent, h]

theorem processEvent_onPenalty (config : Config) (comp : Competitor) (event : Event) (t : Int)
    (h : event.EventID = 8) :
    processEvent config comp event t = some ({ comp with LastPenaltyTime := t }, []) := by
  simp [processEvent, h]

theorem processEvent_offPenalty (config : Config) (comp : Competitor) (event : Event) (t : Int)
    (h : event.EventID = 9) :
    processEvent config comp event t = some (caseOffPenalty comp t, []) := by
  simp [processEvent, h]

theorem processEvent_lapCompleted (config : Config) (comp : Competitor) (event : Event) (t : Int)
    (h : event.EventID = 10) :
    processEvent config comp event t = some (caseLapCompleted config comp event t) := by
  simp [processEvent, h]

theorem processEvent_cannotContinue (config : Config) (comp : Competitor) (event : Event)
    (t : Int) (h : event.EventID = 11) :
    processEvent config comp event t = some ({ comp with Status := "NotFinished" }, []) := by
  simp [processEvent, h]

theorem processEvent_other (config : Config) (comp : Competitor) (event : Event) (t : Int)
    (h : event.EventID ≠ 1 ∧ event.EventID ≠ 2 ∧ event.EventID ≠ 3 ∧ event.EventID ≠ 4 ∧
      event.EventID ≠ 5 ∧ event.EventID ≠ 6 ∧ event.EventID ≠ 7 ∧ event.EventID ≠ 8 ∧
      event.EventID ≠ 9 ∧ event.EventID ≠ 10 ∧ event.EventID ≠ 11) :
    processEvent config comp event t = some (comp, []) := by
  obtain ⟨h1, h2, h3, h4, h5, h6, h7, h8, h9, h10, h11⟩ := h
  simp [processEvent, h1, h2, h3, h4, h5, h6, h7, h8, h9, h10, h11]

theorem processEvent_ID (config : Config) (comp : Competitor) (event : Event) (t : Int)
    (res : Competitor × List Event) (h : processEvent config comp event t = some res) :
    res.1.ID = comp.ID := by
  rcases kind_cases event.EventID with k | k | k | k | k | k | k | k | k | k | k | k
  · rw [processEvent_registered _ _ _ _ k] at h
    injection h with h
    rw [← h]
  · rw [processEvent_startTime _ _ _ _ k] at h
    split at h
    · exact Option.noConfusion h
    · split at h <;> (injection h with h; rw [← h])
  · rw [processEvent_startLine _ _ _ _ k] at h
    injection h with h
    rw [← h]
  · rw [processEvent_started _ _ _ _ k] at h
    injection h with h
    rw [← h]
    exact caseStarted_ID _ _ _ _
  · rw [processEvent_firingRange _ _ _ _ k] at h
    split at h
    · exact Option.noConfusion h
    · split at h <;> (injection h with h; rw [← h]; try rfl)
  · rw [processEvent_hit _ _ _ _ k] at h
    split at h
    · exact Option.noConfusion h
    · split at h <;> (injection h with h; rw [← h]; try rfl)
  · rw [processEvent_offRange _ _ _ _ k] at h
    injection h with h
    rw [← h]
    rfl
  · rw [processEvent_onPenalty _ _ _ _ k] at h
    injection h with h
    rw [← h]
  · rw [processEvent_offPenalty _ _ _ _ k] at h
    injection h with h
    rw [← h]
    rfl
  · rw [processEvent_lapCompleted _ _ _ _ k] at h
    injection h with h
    rw [← h]
    exact caseLapCompleted_ID _ _ _ _
  · rw [processEvent_cannotContinue _ _ _ _ k] at h
    injection h with h
    rw [← h]
  · rw [processEvent_other _ _ _ _ k] at h
    injection h with h
    rw [← h]

theorem eventStep_wellKeyed (config : Config) (st st1 : RunState) (event : Event)
    (hk : WellKeyed st.competitors) (h : eventStep config st event = some st1) :
    WellKeyed st1.competitors := by
  unfold eventStep at h
  dsimp only at h
  split at h
  · injection h with h
    rw [← h]
    exact wellKeyed_mapSet _ hk _ _ (competitorOf_ID _ hk _)
  · split at h
    · exact Option.noConfusion h
    · rename_i res hres
      injection h with h
      rw [← h]
      refine wellKeyed_mapSet _ hk _ _ ?_
      rw [processEvent_ID _ _ _ _ _ hres]
      exact competitorOf_ID _ hk _

theorem runEvents_wellKeyed (config : Config) (events : List Event) (st st1 : RunState)
    (hk : WellKeyed st.competitors) (h : runEvents config st events = some st1) :
    WellKeyed st1.competitors := by
  induction events generalizing st with
  | nil =>
    simp only [runEvents, Option.some.injEq] at h
    rw [← h]
    exact hk
  | cons e rest ih =>
    simp only [runEvents] at h
    split at h
    · exact Option.noConfusion h
    · rename_i st2 hst2
      exact ih st2 (eventStep_wellKeyed config st st2 e hk hst2) h

/-! ## Start and finish -/

set_option maxRecDepth 100000 in
/-- C1 (the code departs from the claim): with StartDelta "00:00:10", the start
time 10:00:10.000 drawn and the start at 10:00:12.000, two seconds late and
inside the tolerance of ten, Events emits the event disqualified (32) and
leaves the status "NotStarted": the start delta is read through
`clockDuration`, which is 0 for this text. -/
theorem C1_start_within_tolerance_is_disqualified :
    clockTolerance testConfig.StartDelta = some 10000000000 ∧
    clockDuration testConfig.StartDelta = 0 ∧
    (Events testConfig testStartEvents).map (fun r => r.2) =
      some [{ Time := "10:00:12.000", EventID := 32, CompetitorID := 1, ExtraParams := [] }] ∧
    (Events testConfig testStartEvents).map
        (fun r => ((competitorOf r.1 1).StartTime, (competitorOf r.1 1).ActualStart,
          (competitorOf r.1 1).Status)) =
      some (36010000000000, 36012000000000, "NotStarted") := by
  decide

/-- C2: a start later than the drawn start time by more than the tolerance D
that StartDelta denotes sets ActualStart and LastLapTime to the time of the
event, leaves the status "NotStarted" and appends exactly one event, with
EventID 32, the Time text of the start event and its competitor id. -/
theorem C2_late_start_is_disqualified (config : Config) (st : RunState) (event : Event)
    (t : Int) (D : Int) (hk : WellKeyed st.competitors) (hkind : event.EventID = 4)
    (ht : parseClock event.Time = some t) (hD : clockTolerance config.StartDelta = some D)
    (hlate : t - (competitorOf st.competitors event.CompetitorID).StartTime > D) :
    ∃ st1, eventStep config st event = some st1 ∧
      (competitorOf st1.competitors event.CompetitorID).ActualStart = t ∧
      (competitorOf st1.competitors event.CompetitorID).LastLapTime = t ∧
      (competitorOf st1.competitors event.CompetitorID).Status = "NotStarted" ∧
      st1.outgoingEvents = st.outgoingEvents ++
        [{ Time := event.Time, EventID := 32, CompetitorID := event.CompetitorID,
           ExtraParams := [] }] := by
  obtain ⟨h0, hD0⟩ := clockDuration_of_tolerance _ _ hD
  have hsub : timeSub t (competitorOf st.competitors event.CompetitorID).StartTime > 0 := by
    unfold timeSub minDuration maxDuration
    split
    · omega
    · split <;> omega
  have hid := competitorOf_ID _ hk event.CompetitorID
  have hcase : caseStarted config (competitorOf st.competitors event.CompetitorID) event t =
      ({ competitorOf st.competitors event.CompetitorID with
          ActualStart := t, Status := "NotStarted", LastLapTime := t },
        [{ Time := event.Time, EventID := 32, CompetitorID := event.CompetitorID,
           ExtraParams := [] }]) := by
    unfold caseStarted
    dsimp only
    rw [h0, if_pos hsub, hid]
  have hstep : eventStep config st event = some
      { competitors := mapSet st.competitors event.CompetitorID
          (caseStarted config (competitorOf st.competitors event.CompetitorID) event t).1,
        outgoingEvents := st.outgoingEvents ++
          (caseStarted config (competitorOf st.competitors event.CompetitorID) event t).2 } := by
    simp [eventStep, ht, processEvent, hkind]
  refine ⟨_, hstep, ?_⟩
  simp only [competitorOf_mapSet_self, hcase, and_self]

set_option maxRecDepth 100000 in
theorem C2_late_start_is_disqualified_witness :
    ∃ st1, eventStep { testConfig with StartDelta := "00:00:01" } drawnState
        { Time := "10:00:12.000", EventID := 4, CompetitorID := 1, ExtraParams := [] } = some st1 ∧
      (competitorOf st1.competitors 1).ActualStart = 36012000000000 ∧
      (competitorOf st1.competitors 1).LastLapTime = 36012000000000 ∧
      (competitorOf st1.competitors 1).Status = "NotStarted" ∧
      st1.outgoingEvents = drawnState.outgoingEvents ++
        [{ Time := "10:00:12.000", EventID := 32, CompetitorID := 1, ExtraParams := [] }] :=
  C2_late_start_is_disqualified { testConfig with StartDelta := "00:00:01" } drawnState
    { Time := "10:00:12.000", EventID := 4, CompetitorID := 1, ExtraParams := [] }
    36012000000000 1000000000
    (by intro p hp; simp [drawnState] at hp; subst hp; rfl) rfl (by decide) (by decide) (by decide)

theorem eventStep_parsed (config : Config) (st : RunState) (event : Event) (t : Int)
    (ht : parseClock event.Time = some t) :
    eventStep config st event =
      (processEvent config (competitorOf st.competitors event.CompetitorID) event t).map
        (fun res =>
          { competitors := mapSet st.competitors event.CompetitorID res.1,
            outgoingEvents := st.outgoingEvents ++ res.2 }) := by
  unfold eventStep
  simp only [ht]
  cases processEvent config (competitorOf st.competitors event.CompetitorID) event t <;> rfl

theorem eventStep_unparsed (config : Config) (st : RunState) (event : Event)
    (ht : parseClock event.Time = none) :
    eventStep config st event =
      some { competitors := (mapSet st.competitors event.CompetitorID
                (competitorOf st.competitors event.CompetitorID)),
             outgoingEvents := st.outgoingEvents } := by
  unfold eventStep
  simp only [ht]

/-- What an event of a kind other than 10 does to the status and the output: no
event 33, and no status "Finished" that was not there before. -/
theorem processEvent_not_lap (config : Config) (comp : Competitor) (event : Event) (t : Int)
    (res : Competitor × List Event) (hkind : event.EventID ≠ 10)
    (h : processEvent config comp event t = some res) :
    (∀ e ∈ res.2, e.EventID ≠ 33) ∧ (res.1.Status = "Finished" → comp.Status = "Finished") := by
  rcases kind_cases event.EventID with k | k | k | k | k | k | k | k | k | k | k | k
  · rw [processEvent_registered _ _ _ _ k] at h
    injection h with h
    rw [← h]
    simp
  · rw [processEvent_startTime _ _ _ _ k] at h
    split at h
    · exact Option.noConfusion h
    · split at h <;> (injection h with h; rw [← h]; simp)
  · rw [processEvent_startLine _ _ _ _ k] at h
    injection h with h
    rw [← h]
    simp
  · rw [processEvent_started _ _ _ _ k] at h
    injection h with h
    rw [← h]
    unfold caseStarted
    dsimp only
    split <;> simp
  · rw [processEvent_firingRange _ _ _ _ k] at h
    split at h
    · exact Option.noConfusion h
    · split at h <;> (injection h with h; rw [← h]; simp [caseFiringRange])
  · rw [processEvent_hit _ _ _ _ k] at h
    split at h
    · exact Option.noConfusion h
    · split at h <;> (injection h with h; rw [← h]; simp [caseHit])
  · rw [processEvent_offRange _ _ _ _ k] at h
    injection h with h
    rw [← h]
    simp [caseOffRange]
  · rw [processEvent_onPenalty _ _ _ _ k] at h
    injection h with h
    rw [← h]
    simp
  · rw [processEvent_offPenalty _ _ _ _ k] at h
    injection h with h
    rw [← h]
    simp [caseOffPenalty]
  · exact absurd k hkind
  · rw [processEvent_cannotContinue _ _ _ _ k] at h
    injection h with h
    rw [← h]
    simp
  · rw [processEvent_other _ _ _ _ k] at h
    injection h with h
    rw [← h]
    simp

/-- C3: a lap-completed event (kind 10) with a time that parses raises the lap
index by one and leaves the penalty laps as they are; it appends exactly one
event 33 with the Time text and competitor id of the lap event and sets the
status "Finished" if the new CurrentLap + 1 equals config.Laps and PenaltyLaps
is 0, and otherwise appends nothing and leaves the status as it is.  An event of
any other kind appends no event 33 and gives no competitor a status "Finished"
that it did not have. -/
theorem C3_finish_gating (config : Config) (st : RunState) (event : Event)
    (hk : WellKeyed st.competitors) :
    (∀ t, event.EventID = 10 → parseClock event.Time = some t →
      ∃ st1, eventStep config st event = some st1 ∧
        (competitorOf st1.competitors event.CompetitorID).CurrentLap =
          (competitorOf st.competitors event.CompetitorID).CurrentLap + 1 ∧
        (competitorOf st1.competitors event.CompetitorID).PenaltyLaps =
          (competitorOf st.competitors event.CompetitorID).PenaltyLaps ∧
        (((competitorOf st1.competitors event.CompetitorID).CurrentLap + 1 = config.Laps ∧
            (competitorOf st1.competitors event.CompetitorID).PenaltyLaps = 0) →
          st1.outgoingEvents = st.outgoingEvents ++
            [{ Time := event.Time, EventID := 33, CompetitorID := event.CompetitorID,
               ExtraParams := [] }] ∧
          (competitorOf st1.competitors event.CompetitorID).Status = "Finished") ∧
        (¬ ((competitorOf st1.competitors event.CompetitorID).CurrentLap + 1 = config.Laps ∧
            (competitorOf st1.competitors event.CompetitorID).PenaltyLaps = 0) →
          st1.outgoingEvents = st.outgoingEvents ∧
          (competitorOf st1.competitors event.CompetitorID).Status =
            (competitorOf st.competitors event.CompetitorID).Status)) ∧
    (event.EventID ≠ 10 → ∀ st1, eventStep config st event = some st1 →
      (∃ out, st1.outgoingEvents = st.outgoingEvents ++ out ∧ ∀ e ∈ out, e.EventID ≠ 33) ∧
      ∀ id, (competitorOf st1.competitors id).Status = "Finished" →
        (competitorOf st.competitors id).Status = "Finished") := by
  have hid := competitorOf_ID _ hk event.CompetitorID
  constructor
  · intro t hkind ht
    rw [eventStep_parsed config st event t ht, processEvent_lapCompleted _ _ _ _ hkind]
    refine ⟨_, rfl, ?_⟩
    simp only [competitorOf_mapSet_self]
    unfold caseLapCompleted
    dsimp only
    split
    · rename_i hc
      simp [hc, hid]
    · rename_i hc
      simp [hc]
  · intro hkind st1 hst
    by_cases hp : parseClock event.Time = none
    · rw [eventStep_unparsed config st event hp] at hst
      injection hst with hst
      rw [← hst]
      refine ⟨⟨[], by simp, by simp⟩, ?_⟩
      intro id hfin
      by_cases hi : id = event.CompetitorID
      · rw [hi] at hfin ⊢
        simpa [competitorOf_mapSet_self] using hfin
      · simpa [competitorOf_mapSet_ne _ _ _ _ hi] using hfin
    · obtain ⟨t, ht⟩ := Option.ne_none_iff_exists'.mp hp
      rw [eventStep_parsed config st event t ht] at hst
      cases hres : processEvent config (competitorOf st.competitors event.CompetitorID) event t with
      | none =>
        rw [hres] at hst
        exact Option.noConfusion hst
      | some res =>
        rw [hres] at hst
        simp only [Option.map_some'] at hst
        injection hst with hst
        rw [← hst]
        obtain ⟨h33, hfin⟩ := processEvent_not_lap config _ event t res hkind hres
        refine ⟨⟨res.2, rfl, h33⟩, ?_⟩
        intro id hf
        by_cases hi : id = event.CompetitorID
        · rw [hi] at hf ⊢
          rw [competitorOf_mapSet_self] at hf
          exact hfin hf
        · simpa [competitorOf_mapSet_ne _ _ _ _ hi] using hf

/-- A run state in which competitor 1 has completed the first of two laps with
no penalty laps outstanding. -/
theorem C3_finish_gating_witness :
    ∃ st1, eventStep testConfig
        { competitors := [(1, { newCompetitor 1 with CurrentLap := 0, Status := "Started" })],
          outgoingEvents := [] }
        { Time := "10:20:00.000", EventID := 10, CompetitorID := 1, ExtraParams := [] } =
          some st1 ∧
      st1.outgoingEvents =
        [{ Time := "10:20:00.000", EventID := 33, CompetitorID := 1, ExtraParams := [] }] ∧
      (competitorOf st1.competitors 1).Status = "Finished" := by
  have hk : WellKeyed [((1 : Int), { newCompetitor 1 with CurrentLap := 0, Status := "Started" })] := by
    intro p hp
    simp only [List.mem_singleton] at hp
    subst hp
    rfl
  obtain ⟨st1, h1, h2, h3, h4, -⟩ := (C3_finish_gating testConfig
    { competitors := [(1, { newCompetitor 1 with CurrentLap := 0, Status := "Started" })],
      outgoingEvents := [] }
    { Time := "10:20:00.000", EventID := 10, CompetitorID := 1, ExtraParams := [] } hk).1
    37200000000000 rfl (by decide)
  have hc : (competitorOf st1.competitors 1).CurrentLap + 1 = testConfig.Laps ∧
      (competitorOf st1.competitors 1).PenaltyLaps = 0 := by
    constructor
    · rw [h2]
      decide
    · rw [h3]
      decide
  exact ⟨st1, h1, by simpa using (h4 hc).1, (h4 hc).2⟩

/-! ## The sort -/

theorem insertBack_perm {α : Type} (less : α → α → Bool) (x : α) (l : List α) :
    (insertBack less x l).Perm (x :: l) := by
  induction l with
  | nil => exact List.Perm.refl _
  | cons y ys ih =>
    unfold insertBack
    split
    · exact ((List.Perm.cons y ih).trans (List.Perm.swap x y ys))
    · exact List.Perm.refl _

theorem foldl_insertBack_perm {α : Type} (less : α → α → Bool) (data acc : List α) :
    (data.foldl (fun sorted x => insertBack less x sorted) acc).Perm (data.reverse ++ acc) := by
  induction data generalizing acc with
  | nil => exact List.Perm.refl _
  | cons x xs ih =>
    rw [List.foldl_cons, List.reverse_cons, List.append_assoc]
    exact (ih _).trans (List.Perm.append_left _ (insertBack_perm less x acc))

/-- The sort returns a permutation of the slice. -/
theorem sortSlice_perm {α : Type} (less : α → α → Bool) (data : List α) :
    (sortSlice less data).Perm data := by
  unfold sortSlice
  refine (List.reverse_perm _).trans ((foldl_insertBack_perm less data []).trans ?_)
  rw [List.append_nil]
  exact List.reverse_perm _

theorem insertBack_descending {α κ : Type} [LinearOrder κ] (less : α → α → Bool) (key : α → κ)
    (hless : ∀ a b, less a b = true ↔ key a < key b) (x : α) (l : List α)
    (hl : l.Pairwise (fun a b => key b ≤ key a)) :
    (insertBack less x l).Pairwise (fun a b => key b ≤ key a) := by
  induction l with
  | nil => simp [insertBack]
  | cons y ys ih =>
    obtain ⟨hy, hys⟩ := List.pairwise_cons.mp hl
    unfold insertBack
    split
    · rename_i hxy
      refine List.pairwise_cons.mpr ⟨?_, ih hys⟩
      intro z hz
      have hz1 := (insertBack_perm less x ys).mem_iff.mp hz
      rw [List.mem_cons] at hz1
      rcases hz1 with hz1 | hz1
      · rw [hz1]
        exact le_of_lt ((hless x y).mp hxy)
      · exact hy z hz1
    · rename_i hxy
      have hyx : key y ≤ key x := not_lt.mp (fun h => hxy ((hless x y).mpr h))
      refine List.pairwise_cons.mpr ⟨?_, hl⟩
      intro z hz
      rw [List.mem_cons] at hz
      rcases hz with hz | hz
      · rw [hz]
        exact hyx
      · exact le_trans (hy z hz) hyx

theorem foldl_insertBack_descending {α κ : Type} [LinearOrder κ] (less : α → α → Bool)
    (key : α → κ) (hless : ∀ a b, less a b = true ↔ key a < key b) (data acc : List α)
    (hacc : acc.Pairwise (fun a b => key b ≤ key a)) :
    (data.foldl (fun sorted x => insertBack less x sorted) acc).Pairwise
      (fun a b => key b ≤ key a) := by
  induction data generalizing acc with
  | nil => exact hacc
  | cons x xs ih =>
    rw [List.foldl_cons]
    exact ih _ (insertBack_descending less key hless x acc hacc)

/-- When the comparison is that of a rank in a linear order, the sort leaves no
pair out of order. -/
theorem sortSlice_sorted {α κ : Type} [LinearOrder κ] (less : α → α → Bool) (key : α → κ)
    (hless : ∀ a b, less a b = true ↔ key a < key b) (data : List α) :
    (sortSlice less data).Pairwise (fun a b => key a ≤ key b) := by
  unfold sortSlice
  rw [List.pairwise_reverse]
  exact foldl_insertBack_descending less key hless data [] List.Pairwise.nil

theorem reportLess_iff (ri rj : Report) : reportLess ri rj = true ↔ reportKey ri < reportKey rj := by
  unfold reportLess reportKey
  by_cases hi : ri.TotalTime = "NotStarted" ∨ ri.TotalTime = "NotFinished"
  · simp [hi]
  · by_cases hj : rj.TotalTime = "NotStarted" ∨ rj.TotalTime = "NotFinished"
    · simp only [hi, hj, if_false, if_true, true_iff]
      exact WithTop.coe_lt_top _
    · simp only [hi, hj, if_false, decide_eq_true_eq]
      exact WithTop.coe_lt_coe.symm

theorem mem_GenerateReport (competitors : List (Int × Competitor)) (config : Config)
    (r : Report) :
    r ∈ GenerateReport competitors config ↔ ∃ p ∈ competitors, reportOf config p.2 = r := by
  unfold GenerateReport
  rw [(sortSlice_perm _ _).mem_iff, List.mem_map]

/-! ## Ranking -/

set_option maxRecDepth 100000 in
/-- C4 (the code departs from the claim): on the ranking example of the
specification, visited in the order 1, 2, 3, GenerateReport returns the order
2, 3, 1, the ten-minute finisher before the five-minute one: `clockDuration`
reads 0 from both total times, so the comparison never puts one finisher before
another. -/
theorem C4_finishers_not_ranked_by_time :
    (GenerateReport rankingCompetitors testConfig).map (fun r => (r.CompetitorID, r.TotalTime)) =
      [(2, "00:10:00.000"), (3, "00:05:00.000"), (1, "NotStarted")] ∧
    clockDuration "00:10:00.000" = 0 ∧ clockDuration "00:05:00.000" = 0 := by
  decide

/-- C5: in the sequence GenerateReport returns, a report that shows "NotStarted"
or "NotFinished" is never followed by a report that shows anything else. -/
theorem C5_non_finishers_rank_last (competitors : List (Int × Competitor)) (config : Config)
    (i j : Nat) (ri rj : Report) (hij : i < j)
    (hi : (GenerateReport competitors config)[i]? = some ri)
    (hj : (GenerateReport competitors config)[j]? = some rj)
    (hn : isNonFinisher ri) : isNonFinisher rj := by
  have hs : (GenerateReport competitors config).Pairwise
      (fun a b => reportKey a ≤ reportKey b) :=
    sortSlice_sorted reportLess reportKey reportLess_iff _
  obtain ⟨hi1, hi2⟩ := List.getElem?_eq_some.mp hi
  obtain ⟨hj1, hj2⟩ := List.getElem?_eq_some.mp hj
  have hle := List.pairwise_iff_getElem.mp hs i j hi1 hj1 hij
  rw [hi2, hj2] at hle
  unfold isNonFinisher at hn ⊢
  by_contra hc
  unfold reportKey at hle
  rw [if_pos hn, if_neg hc] at hle
  exact absurd hle (not_le.mpr (WithTop.coe_lt_top _))

set_option maxRecDepth 100000 in
theorem C5_non_finishers_rank_last_witness :
    isNonFinisher
      { CompetitorID := 2, TotalTime := "NotFinished",
        LapDetails := [emptyLap, emptyLap], PenaltyTime := "00:00:00.000",
        PenaltySpeed := 0, HitsShots := "0/0" } :=
  C5_non_finishers_rank_last
    [(1, newCompetitor 1), (2, { newCompetitor 2 with Status := "NotFinished" })] testConfig 0 1
    { CompetitorID := 1, TotalTime := "NotStarted",
      LapDetails := [emptyLap, emptyLap], PenaltyTime := "00:00:00.000",
      PenaltySpeed := 0, HitsShots := "0/0" }
    { CompetitorID := 2, TotalTime := "NotFinished",
      LapDetails := [emptyLap, emptyLap], PenaltyTime := "00:00:00.000",
      PenaltySpeed := 0, HitsShots := "0/0" }
    (by decide) (by decide) (by decide) (Or.inl rfl)

/-! ## The fields of a report -/

theorem padLapDetails_eq (laps : Int) (fuel : Nat) (l : List LapDetail)
    (hfuel : (laps - (l.length : Int)).toNat ≤ fuel) :
    padLapDetails laps fuel l = l ++ List.replicate (laps - (l.length : Int)).toNat emptyLap := by
  induction fuel generalizing l with
  | zero =>
    have h0 : (laps - (l.length : Int)).toNat = 0 := Nat.le_zero.mp hfuel
    rw [h0]
    simp [padLapDetails]
  | succ n ih =>
    unfold padLapDetails
    split
    · rename_i hlt
      have hlen : (l ++ [emptyLap]).length = l.length + 1 := by simp
      have hn : (laps - ((l ++ [emptyLap]).length : Int)).toNat ≤ n := by
        rw [hlen]
        omega
      rw [ih _ hn, hlen]
      have hs : (laps - (l.length : Int)).toNat = (laps - ((l.length + 1 : Nat) : Int)).toNat + 1 := by
        omega
      rw [hs, List.replicate_succ, List.append_assoc]
      rfl
    · rename_i hlt
      have h0 : (laps - (l.length : Int)).toNat = 0 := by omega
      rw [h0]
      simp

/-- The lap details of a report: one entry for each recorded lap, then empty
entries up to config.Laps.  The loop that pads ends by its own test. -/
theorem reportOf_lapDetails (config : Config) (comp : Competitor) :
    (reportOf config comp).LapDetails =
      lapDetailsOf config comp.LapTimes ++
        List.replicate (config.Laps - (comp.LapTimes.length : Int)).toNat emptyLap := by
  have hlen : (lapDetailsOf config comp.LapTimes).length = comp.LapTimes.length := by
    simp [lapDetailsOf]
  show padLapDetails config.Laps config.Laps.toNat (lapDetailsOf config comp.LapTimes) = _
  rw [padLapDetails_eq, hlen]
  rw [hlen]
  omega

theorem wrap64_idem (x : Int) : wrap64 (wrap64 x) = wrap64 x := by
  unfold wrap64
  omega

theorem wrap64_add_left (a b : Int) : wrap64 (wrap64 a + b) = wrap64 (a + b) := by
  unfold wrap64
  omega

theorem wrap64_of_range (x : Int) (h1 : minDuration ≤ x) (h2 : x ≤ maxDuration) :
    wrap64 x = x := by
  unfold minDuration at h1
  unfold maxDuration at h2
  unfold wrap64
  omega

/-- The sum that the loops of GenerateReport compute is the sum of the list,
wrapped into int64. -/
theorem durSum_eq (start : Int) (xs : List Int) (hs : wrap64 start = start) :
    durSum start xs = wrap64 (start + xs.sum) := by
  induction xs generalizing start with
  | nil => simpa [durSum] using hs.symm
  | cons x rest ih =>
    have h1 : durSum start (x :: rest) = durSum (wrap64 (start + x)) rest := rfl
    rw [h1, ih _ (wrap64_idem _), wrap64_add_left, List.sum_cons, add_assoc]

theorem reportOf_totalTime (config : Config) (comp : Competitor) :
    (reportOf config comp).TotalTime =
      if comp.Status = "Finished" then
        formatDuration (wrap64 (comp.LapTimes.sum + comp.PenaltyTimes.sum))
      else comp.Status := by
  have h0 : wrap64 0 = 0 := by decide
  have h1 : durSum (durSum 0 comp.LapTimes) comp.PenaltyTimes =
      wrap64 (comp.LapTimes.sum + comp.PenaltyTimes.sum) := by
    rw [durSum_eq 0 comp.LapTimes h0, durSum_eq _ _ (wrap64_idem _), zero_add, wrap64_add_left]
  show (if comp.Status = "Finished" then
      formatDuration (durSum (durSum 0 comp.LapTimes) comp.PenaltyTimes) else comp.Status) = _
  rw [h1]

theorem reportOf_penaltyTime (config : Config) (comp : Competitor) :
    (reportOf config comp).PenaltyTime = formatDuration (wrap64 comp.PenaltyTimes.sum) := by
  have h0 : wrap64 0 = 0 := by decide
  show formatDuration (durSum 0 comp.PenaltyTimes) = _
  rw [durSum_eq 0 _ h0, zero_add]

set_option maxRecDepth 100000 in
/-- C6, the claim as stated fails: with config.Laps = 2 a competitor with three
recorded laps gets a report with three lap details. -/
theorem C6_more_laps_than_configured :
    testConfig.Laps = 2 ∧
    (GenerateReport threeLapCompetitors testConfig).map (fun r => r.LapDetails.length) = [3] := by
  decide

/-- C6, amended: every report of GenerateReport belongs to a competitor of the
map, its number of lap details is the larger of config.Laps and the number of
recorded laps, hence config.Laps whenever no more than config.Laps laps are
recorded, and every entry beyond the recorded laps is the empty one. -/
theorem C6_lap_padding (competitors : List (Int × Competitor)) (config : Config)
    (r : Report) (hr : r ∈ GenerateReport competitors config) :
    ∃ p ∈ competitors, r = reportOf config p.2 ∧
      (r.LapDetails.length : Int) = max config.Laps (p.2.LapTimes.length : Int) ∧
      ((p.2.LapTimes.length : Int) ≤ config.Laps → (r.LapDetails.length : Int) = config.Laps) ∧
      ∀ i, p.2.LapTimes.length ≤ i → i < r.LapDetails.length →
        r.LapDetails[i]? = some emptyLap := by
  obtain ⟨p, hp, hpr⟩ := (mem_GenerateReport competitors config r).mp hr
  have hlen : (lapDetailsOf config p.2.LapTimes).length = p.2.LapTimes.length := by
    simp [lapDetailsOf]
  have hd := reportOf_lapDetails config p.2
  rw [hpr] at hd
  have hl : r.LapDetails.length =
      p.2.LapTimes.length + (config.Laps - (p.2.LapTimes.length : Int)).toNat := by
    rw [hd, List.length_append, hlen, List.length_replicate]
  refine ⟨p, hp, hpr.symm, ?_, ?_, ?_⟩
  · rw [hl]
    omega
  · intro hle
    rw [hl]
    omega
  · intro i hi hi2
    rw [hd, List.getElem?_append_right (by rw [hlen]; exact hi), List.getElem?_replicate, hlen]
    rw [if_pos (by omega)]

set_option maxRecDepth 100000 in
theorem C6_lap_padding_witness :
    ∃ p ∈ threeLapCompetitors,
      ((reportOf testConfig threeLapCompetitor).LapDetails.length : Int) =
        max testConfig.Laps (p.2.LapTimes.length : Int) := by
  obtain ⟨p, hp, -, h, -, -⟩ := C6_lap_padding threeLapCompetitors testConfig
    (reportOf testConfig threeLapCompetitor)
    ((mem_GenerateReport _ _ _).mpr ⟨_, List.mem_cons_self _ _, rfl⟩)
  exact ⟨p, hp, h⟩

/-- C7: every competitor of the map has a report whose TotalTime is
formatDuration of the sum of all lap times and all penalty times (the int64 sum
that Go computes) when the status is "Finished" and the status text itself
otherwise, and whose PenaltyTime is formatDuration of the sum of the penalty
times; and every report is that of some competitor.  When the sums lie in the
range of Duration they are the plain sums. -/
theorem C7_total_time_display (competitors : List (Int × Competitor)) (config : Config) :
    (∀ p ∈ competitors, ∃ r ∈ GenerateReport competitors config,
      r.CompetitorID = p.2.ID ∧
      r.TotalTime = (if p.2.Status = "Finished" then
          formatDuration (wrap64 (p.2.LapTimes.sum + p.2.PenaltyTimes.sum)) else p.2.Status) ∧
      r.PenaltyTime = formatDuration (wrap64 p.2.PenaltyTimes.sum) ∧
      (minDuration ≤ p.2.LapTimes.sum + p.2.PenaltyTimes.sum →
        p.2.LapTimes.sum + p.2.PenaltyTimes.sum ≤ maxDuration →
        r.TotalTime = (if p.2.Status = "Finished" then
          formatDuration (p.2.LapTimes.sum + p.2.PenaltyTimes.sum) else p.2.Status)) ∧
      (minDuration ≤ p.2.PenaltyTimes.sum → p.2.PenaltyTimes.sum ≤ maxDuration →
        r.PenaltyTime = formatDuration p.2.PenaltyTimes.sum)) ∧
    (∀ r ∈ GenerateReport competitors config, ∃ p ∈ competitors,
      r.CompetitorID = p.2.ID ∧
      r.TotalTime = (if p.2.Status = "Finished" then
          formatDuration (wrap64 (p.2.LapTimes.sum + p.2.PenaltyTimes.sum)) else p.2.Status) ∧
      r.PenaltyTime = formatDuration (wrap64 p.2.PenaltyTimes.sum)) := by
  constructor
  · intro p hp
    refine ⟨reportOf config p.2, (mem_GenerateReport _ _ _).mpr ⟨p, hp, rfl⟩, rfl,
      reportOf_totalTime config p.2, reportOf_penaltyTime config p.2, ?_, ?_⟩
    · intro h1 h2
      rw [reportOf_totalTime, wrap64_of_range _ h1 h2]
    · intro h1 h2
      rw [reportOf_penaltyTime, wrap64_of_range _ h1 h2]
  · intro r hr
    obtain ⟨p, hp, hpr⟩ := (mem_GenerateReport competitors config r).mp hr
    refine ⟨p, hp, ?_, ?_, ?_⟩
    · rw [← hpr]
      rfl
    · rw [← hpr]
      exact reportOf_totalTime config p.2
    · rw [← hpr]
      exact reportOf_penaltyTime config p.2

set_option maxRecDepth 100000 in
theorem C7_total_time_display_witness :
    ∃ r ∈ GenerateReport rankingCompetitors testConfig, r.CompetitorID = 2 ∧
      r.TotalTime = "00:10:00.000" ∧ r.PenaltyTime = "00:00:00.000" := by
  obtain ⟨r, hr, h1, h2, h3, -, -⟩ := (C7_total_time_display rankingCompetitors testConfig).1
    (2, { newCompetitor 2 with Status := "Finished", LapTimes := [600000000000] })
    (by simp [rankingCompetitors])
  refine ⟨r, hr, h1, ?_, ?_⟩
  · rw [h2]
    decide
  · rw [h3]
    decide

/-! ## One competitor at a time -/

theorem runCompetitor_skip (config : Config) (comp : Competitor) (event : Event)
    (rest : List Event) (h : parseClock event.Time = none) :
    runCompetitor config comp (event :: rest) = runCompetitor config comp rest := by
  simp only [runCompetitor, h]

theorem runCompetitor_step (config : Config) (comp : Competitor) (event : Event)
    (rest : List Event) (t : Int) (res : Competitor × List Event)
    (h : parseClock event.Time = some t) (hres : processEvent config comp event t = some res) :
    runCompetitor config comp (event :: rest) = runCompetitor config res.1 rest := by
  simp only [runCompetitor, h, hres]

theorem eventStep_competitorOf_ne (config : Config) (st st1 : RunState) (event : Event)
    (c : Int) (hc : event.CompetitorID ≠ c) (h : eventStep config st event = some st1) :
    competitorOf st1.competitors c = competitorOf st.competitors c := by
  have hc1 : c ≠ event.CompetitorID := fun e => hc e.symm
  cases hp : parseClock event.Time with
  | none =>
    rw [eventStep_unparsed config st event hp] at h
    injection h with h
    rw [← h]
    exact competitorOf_mapSet_ne _ _ _ _ hc1
  | some t =>
    rw [eventStep_parsed config st event t hp] at h
    cases hres : processEvent config (competitorOf st.competitors event.CompetitorID) event t with
    | none =>
      rw [hres] at h
      exact Option.noConfusion h
    | some res =>
      rw [hres] at h
      simp only [Option.map_some'] at h
      injection h with h
      rw [← h]
      exact competitorOf_mapSet_ne _ _ _ _ hc1

/-- The state of a competitor after a run of the loop of Events is what the
events of that competitor alone make of its state before. -/
theorem runEvents_competitorOf (config : Config) (events : List Event) (st st1 : RunState)
    (c : Int) (h : runEvents config st events = some st1) :
    runCompetitor config (competitorOf st.competitors c) (eventsOf c events) =
      some (competitorOf st1.competitors c) := by
  induction events generalizing st with
  | nil =>
    simp only [runEvents, Option.some.injEq] at h
    rw [← h]
    rfl
  | cons e rest ih =>
    simp only [runEvents] at h
    cases hst : eventStep config st e with
    | none =>
      rw [hst] at h
      exact Option.noConfusion h
    | some st2 =>
      rw [hst] at h
      have h2 := ih st2 h
      by_cases hc : e.CompetitorID = c
      · have hf : eventsOf c (e :: rest) = e :: eventsOf c rest := by
          simp [eventsOf, hc]
        rw [hf]
        cases hp : parseClock e.Time with
        | none =>
          rw [eventStep_unparsed config st e hp] at hst
          injection hst with hst
          rw [runCompetitor_skip _ _ _ _ hp]
          rw [← hst, hc, competitorOf_mapSet_self] at h2
          exact h2
        | some t =>
          rw [eventStep_parsed config st e t hp] at hst
          cases hres : processEvent config (competitorOf st.competitors e.CompetitorID) e t with
          | none =>
            rw [hres] at hst
            exact Option.noConfusion hst
          | some res =>
            rw [hres] at hst
            simp only [Option.map_some'] at hst
            injection hst with hst
            rw [hc] at hres
            rw [runCompetitor_step _ _ _ _ t res hp hres]
            rw [← hst, hc, competitorOf_mapSet_self] at h2
            exact h2
      · have hf : eventsOf c (e :: rest) = eventsOf c rest := by
          simp [eventsOf, hc]
        rw [hf, ← eventStep_competitorOf_ne config st st2 e c hc hst]
        exact h2

/-! ## Firing-range visits -/

theorem mapGet_mapSet_self {β : Type} (dflt : β) (m : List (Int × β)) (k : Int) (v : β) :
    mapGet dflt (mapSet m k v) k = v := by
  simp [mapGet, mapFind_mapSet_self]

theorem mapGet_mapSet_ne {β : Type} (dflt : β) (m : List (Int × β)) (k k' : Int) (v : β)
    (hne : k' ≠ k) : mapGet dflt (mapSet m k v) k' = mapGet dflt m k' := by
  simp [mapGet, mapFind_mapSet_ne _ _ _ _ hne]

theorem processEvent_firingRange_some (config : Config) (comp : Competitor) (event : Event)
    (t r : Int) (h : event.EventID = 5) (hr : firstIntParam event = some r) :
    processEvent config comp event t = some (caseFiringRange comp r, []) := by
  rw [processEvent_firingRange _ _ _ _ h]
  unfold firstIntParam at hr
  split at hr
  · exact Option.noConfusion hr
  · simp only [hr]

theorem processEvent_hit_some (config : Config) (comp : Competitor) (event : Event)
    (t target : Int) (h : event.EventID = 6) (hr : firstIntParam event = some target) :
    processEvent config comp event t = some (caseHit comp target, []) := by
  rw [processEvent_hit _ _ _ _ h]
  unfold firstIntParam at hr
  split at hr
  · exact Option.noConfusion hr
  · simp only [hr]

/-- A run of target-hit events adds one hit each to the list of the current
range and changes nothing else that the penalty count depends on. -/
theorem runCompetitor_hits (config : Config) (hits rest : List Event) (comp : Competitor)
    (hhits : ∀ h ∈ hits, h.EventID = 6 ∧ parseClock h.Time ≠ none ∧ firstIntParam h ≠ none) :
    ∃ comp1, runCompetitor config comp (hits ++ rest) = runCompetitor config comp1 rest ∧
      comp1.FiringRange = comp.FiringRange ∧ comp1.Shots = comp.Shots ∧
      comp1.PenaltyLaps = comp.PenaltyLaps ∧
      (mapGet [] comp1.Hits comp.FiringRange).length =
        (mapGet [] comp.Hits comp.FiringRange).length + hits.length := by
  induction hits generalizing comp with
  | nil => exact ⟨comp, rfl, rfl, rfl, rfl, rfl⟩
  | cons h hs ih =>
    obtain ⟨hk, ht, hp⟩ := hhits h (List.mem_cons_self _ _)
    obtain ⟨t, ht⟩ := Option.ne_none_iff_exists'.mp ht
    obtain ⟨target, hp⟩ := Option.ne_none_iff_exists'.mp hp
    obtain ⟨comp1, h1, h2, h3, h4, h5⟩ := ih (caseHit comp target)
      (fun x hx => hhits x (List.mem_cons_of_mem _ hx))
    refine ⟨comp1, ?_, h2, h3, h4, ?_⟩
    · rw [List.cons_append,
        runCompetitor_step config comp h _ t _ ht (processEvent_hit_some _ _ _ _ _ hk hp)]
      exact h1
    · have hfr : (caseHit comp target).FiringRange = comp.FiringRange := rfl
      rw [hfr] at h5
      rw [h5]
      have hl : (mapGet [] (caseHit comp target).Hits comp.FiringRange).length =
          (mapGet [] comp.Hits comp.FiringRange).length + 1 := by
        show (mapGet [] (mapSet comp.Hits comp.FiringRange _) comp.FiringRange).length = _
        rw [mapGet_mapSet_self]
        simp
      rw [hl, List.length_cons]
      omega

set_option maxRecDepth 100000 in
/-- C9 (the code departs from the claim): a first visit to range 1 with five
hits leaves the penalty laps at 0, and a second visit to the same range with
five hits takes them to -5, where the claim gives 0 + 5 - 5 = 0: entering the
range sets Shots[1] to 5 again but the five hits of the first visit stay in
Hits[1], so the misses of the second visit are 5 - 10.  In a race of two laps
with one such visit in each lap the penalty laps are -5 at the last lap and no
event `finished` (33) is emitted, while the race with the first visit alone
emits it. -/
theorem C9_second_visit_counts_earlier_hits :
    (Events testConfig fullVisit).map (fun r => (competitorOf r.1 1).PenaltyLaps) = some 0 ∧
    (Events testConfig (fullVisit ++ fullVisit)).map
      (fun r => (competitorOf r.1 1).PenaltyLaps) = some (-5) ∧
    (Events testConfig cleanRace).map
      (fun r => ((competitorOf r.1 1).PenaltyLaps, r.2.map (fun e => e.EventID))) =
      some (-5, []) ∧
    (Events testConfig oneVisitRace).map
      (fun r => ((competitorOf r.1 1).PenaltyLaps, r.2.map (fun e => e.EventID))) =
      some (0, [33]) := by
  decide

/-! ## Hits and shots -/

theorem mem_mapKeys_mapSet {β : Type} (m : List (Int × β)) (k k' : Int) (v : β) :
    k' ∈ mapKeys (mapSet m k v) ↔ k' = k ∨ k' ∈ mapKeys m := by
  induction m with
  | nil => simp [mapSet, mapKeys]
  | cons p rest ih =>
    unfold mapKeys at ih ⊢
    by_cases h : p.1 = k
    · rw [mapSet, if_pos h]
      simp only [List.map_cons, List.mem_cons]
      rw [h]
      tauto
    · rw [mapSet, if_neg h]
      simp only [List.map_cons, List.mem_cons]
      rw [ih]
      tauto

theorem nodup_mapKeys_mapSet {β : Type} (m : List (Int × β)) (k : Int) (v : β)
    (hm : (mapKeys m).Nodup) : (mapKeys (mapSet m k v)).Nodup := by
  induction m with
  | nil => simp [mapSet, mapKeys]
  | cons p rest ih =>
    have hm1 : p.1 ∉ mapKeys rest ∧ (mapKeys rest).Nodup := by
      unfold mapKeys at hm ⊢
      exact List.nodup_cons.mp hm
    by_cases h : p.1 = k
    · rw [mapSet, if_pos h]
      unfold mapKeys at hm ⊢
      rw [List.map_cons] at hm ⊢
      rw [h] at hm
      exact hm
    · rw [mapSet, if_neg h]
      have hcons : mapKeys (p :: mapSet rest k v) = p.1 :: mapKeys (mapSet rest k v) := rfl
      rw [hcons]
      refine List.nodup_cons.mpr ⟨?_, ih hm1.2⟩
      intro hmem
      rcases (mem_mapKeys_mapSet rest k p.1 v).mp hmem with h1 | h1
      · exact h h1
      · exact hm1.1 h1

theorem hitSum_mapSet_append (m : List (Int × List Int)) (k x : Int) :
    hitSum (mapSet m k (mapGet [] m k ++ [x])) = hitSum m + 1 := by
  induction m with
  | nil => simp [mapSet, mapGet, mapFind, hitSum]
  | cons p rest ih =>
    by_cases h : p.1 = k
    · have hg : mapGet [] (p :: rest) k = p.2 := by simp [mapGet, mapFind, h]
      rw [hg, mapSet, if_pos h]
      simp only [hitSum, List.map_cons, List.sum_cons, List.length_append, List.length_singleton]
      omega
    · have hg : mapGet [] (p :: rest) k = mapGet [] rest k := by simp [mapGet, mapFind, h]
      rw [hg, mapSet, if_neg h]
      have h1 : hitSum (p :: mapSet rest k (mapGet [] rest k ++ [x])) =
          p.2.length + hitSum (mapSet rest k (mapGet [] rest k ++ [x])) := by
        simp [hitSum]
      have h2 : hitSum (p :: rest) = p.2.length + hitSum rest := by simp [hitSum]
      rw [h1, h2, ih]
      omega

/-- What one event does to the maps Hits and Shots. -/
theorem processEvent_maps (config : Config) (comp : Competitor) (event : Event) (t : Int)
    (res : Competitor × List Event) (h : processEvent config comp event t = some res) :
    res.1.Hits =
      (if event.EventID = 6 then
        match firstIntParam event with
        | some target => (caseHit comp target).Hits
        | none => comp.Hits
      else comp.Hits) ∧
    res.1.Shots =
      (if event.EventID = 5 then
        match firstIntParam event with
        | some r => mapSet comp.Shots r 5
        | none => comp.Shots
      else comp.Shots) := by
  rcases kind_cases event.EventID with k | k | k | k | k | k | k | k | k | k | k | k
  · rw [processEvent_registered _ _ _ _ k] at h
    injection h with h
    rw [← h, k]
    simp
  · rw [processEvent_startTime _ _ _ _ k] at h
    split at h
    · exact Option.noConfusion h
    · split at h <;> (injection h with h; rw [← h, k]; simp)
  · rw [processEvent_startLine _ _ _ _ k] at h
    injection h with h
    rw [← h, k]
    simp
  · rw [processEvent_started _ _ _ _ k] at h
    injection h with h
    rw [← h, k]
    unfold caseStarted
    dsimp only
    split <;> simp
  · cases hp : firstIntParam event with
    | none =>
      rw [processEvent_firingRange _ _ _ _ k] at h
      unfold firstIntParam at hp
      split at hp
      · rename_i he
        rw [he] at h
        exact Option.noConfusion h
      · rename_i p ps he
        rw [he] at h
        simp only [hp] at h
        injection h with h
        rw [← h, k]
        simp
    | some r =>
      rw [processEvent_firingRange_some _ _ _ _ _ k hp] at h
      injection h with h
      rw [← h, k]
      simp [caseFiringRange]
  · cases hp : firstIntParam event with
    | none =>
      rw [processEvent_hit _ _ _ _ k] at h
      unfold firstIntParam at hp
      split at hp
      · rename_i he
        rw [he] at h
        exact Option.noConfusion h
      · rename_i p ps he
        rw [he] at h
        simp only [hp] at h
        injection h with h
        rw [← h, k]
        simp
    | some target =>
      rw [processEvent_hit_some _ _ _ _ _ k hp] at h
      injection h with h
      rw [← h, k]
      simp [caseHit]
  · rw [processEvent_offRange _ _ _ _ k] at h
    injection h with h
    rw [← h, k]
    simp [caseOffRange]
  · rw [processEvent_onPenalty _ _ _ _ k] at h
    injection h with h
    rw [← h, k]
    simp
  · rw [processEvent_offPenalty _ _ _ _ k] at h
    injection h with h
    rw [← h, k]
    simp [caseOffPenalty]
  · rw [processEvent_lapCompleted _ _ _ _ k] at h
    injection h with h
    rw [← h, k]
    unfold caseLapCompleted
    dsimp only
    split <;> simp
  · rw [processEvent_cannotContinue _ _ _ _ k] at h
    injection h with h
    rw [← h, k]
    simp
  · rw [processEvent_other _ _ _ _ k] at h
    injection h with h
    rw [← h]
    simp [k.2.2.2.2.1, k.2.2.2.2.2.1]

/-- An event that is parseable never faults. -/
theorem processEvent_parseable (config : Config) (comp : Competitor) (event : Event) (t : Int)
    (hp : Parseable event) : ∃ res, processEvent config comp event t = some res := by
  obtain ⟨-, h2, h56⟩ := hp
  rcases kind_cases event.EventID with k | k | k | k | k | k | k | k | k | k | k | k
  · exact ⟨_, processEvent_registered _ _ _ _ k⟩
  · obtain ⟨s, hs⟩ := Option.ne_none_iff_exists'.mp (h2 k)
    rw [processEvent_startTime _ _ _ _ k]
    unfold firstClockParam at hs
    split at hs
    · exact Option.noConfusion hs
    · simp only [hs]
      exact ⟨_, rfl⟩
  · exact ⟨_, processEvent_startLine _ _ _ _ k⟩
  · exact ⟨_, processEvent_started _ _ _ _ k⟩
  · obtain ⟨r, hr⟩ := Option.ne_none_iff_exists'.mp (h56 (Or.inl k))
    exact ⟨_, processEvent_firingRange_some _ _ _ _ _ k hr⟩
  · obtain ⟨r, hr⟩ := Option.ne_none_iff_exists'.mp (h56 (Or.inr k))
    exact ⟨_, processEvent_hit_some _ _ _ _ _ k hr⟩
  · exact ⟨_, processEvent_offRange _ _ _ _ k⟩
  · exact ⟨_, processEvent_onPenalty _ _ _ _ k⟩
  · exact ⟨_, processEvent_offPenalty _ _ _ _ k⟩
  · exact ⟨_, processEvent_lapCompleted _ _ _ _ k⟩
  · exact ⟨_, processEvent_cannotContinue _ _ _ _ k⟩
  · exact ⟨_, processEvent_other _ _ _ _ k⟩

/-- On parseable events the loop of Events runs to the end. -/
theorem runEvents_parseable (config : Config) (events : List Event) (st : RunState)
    (hp : ∀ e ∈ events, Parseable e) : ∃ st1, runEvents config st events = some st1 := by
  induction events generalizing st with
  | nil => exact ⟨st, rfl⟩
  | cons e rest ih =>
    have he := hp e (List.mem_cons_self _ _)
    obtain ⟨t, ht⟩ := Option.ne_none_iff_exists'.mp he.1
    obtain ⟨res, hres⟩ := processEvent_parseable config
      (competitorOf st.competitors e.CompetitorID) e t he
    have hstep : eventStep config st e = some
        { competitors := mapSet st.competitors e.CompetitorID res.1,
          outgoingEvents := st.outgoingEvents ++ res.2 } := by
      rw [eventStep_parsed config st e t ht, hres]
      rfl
    obtain ⟨st1, hst1⟩ := ih _ (fun x hx => hp x (List.mem_cons_of_mem _ hx))
    refine ⟨st1, ?_⟩
    simp only [runEvents, hstep]
    exact hst1

/-- Over the parseable events of one competitor: the hits listed grow by the
number of target-hit events, the keys of Shots stay distinct and are joined by
the range ids of the on-firing-range events, and every entry of Shots is 5. -/
theorem runCompetitor_maps (config : Config) (es : List Event) (comp comp1 : Competitor)
    (hp : ∀ e ∈ es, Parseable e) (h : runCompetitor config comp es = some comp1) :
    hitSum comp1.Hits = hitSum comp.Hits + (es.filter (fun e => decide (e.EventID = 6))).length ∧
    ((mapKeys comp.Shots).Nodup → (mapKeys comp1.Shots).Nodup) ∧
    ((∀ p ∈ comp.Shots, p.2 = 5) → ∀ p ∈ comp1.Shots, p.2 = 5) ∧
    (∀ k, k ∈ mapKeys comp1.Shots ↔
      k ∈ mapKeys comp.Shots ∨
        k ∈ (es.filter (fun e => decide (e.EventID = 5))).filterMap firstIntParam) := by
  induction es generalizing comp with
  | nil =>
    simp only [runCompetitor, Option.some.injEq] at h
    rw [← h]
    simp
  | cons e rest ih =>
    have he := hp e (List.mem_cons_self _ _)
    obtain ⟨t, ht⟩ := Option.ne_none_iff_exists'.mp he.1
    obtain ⟨res, hres⟩ := processEvent_parseable config comp e t he
    rw [runCompetitor_step config comp e rest t res ht hres] at h
    obtain ⟨i1, i2, i3, i4⟩ := ih res.1 (fun x hx => hp x (List.mem_cons_of_mem _ hx)) h
    obtain ⟨mh, ms⟩ := processEvent_maps config comp e t res hres
    by_cases k6 : e.EventID = 6
    · obtain ⟨target, htg⟩ := Option.ne_none_iff_exists'.mp (he.2.2 (Or.inr k6))
      have k5 : ¬ e.EventID = 5 := by omega
      rw [if_pos k6, htg] at mh
      rw [if_neg k5] at ms
      have hsum : hitSum res.1.Hits = hitSum comp.Hits + 1 := by
        rw [mh]
        exact hitSum_mapSet_append _ _ _
      refine ⟨?_, ?_, ?_, ?_⟩
      · rw [i1, hsum]
        simp [List.filter_cons, k6]
        omega
      · intro hn
        exact i2 (ms ▸ hn)
      · intro h5
        exact i3 (ms ▸ h5)
      · intro k
        rw [i4 k, ms]
        simp [List.filter_cons, k5]
    · rw [if_neg k6] at mh
      by_cases k5 : e.EventID = 5
      · obtain ⟨r, hr⟩ := Option.ne_none_iff_exists'.mp (he.2.2 (Or.inl k5))
        rw [if_pos k5, hr] at ms
        refine ⟨?_, ?_, ?_, ?_⟩
        · rw [i1, mh]
          simp [List.filter_cons, k6]
        · intro hn
          apply i2
          rw [ms]
          exact nodup_mapKeys_mapSet _ _ _ hn
        · intro h5
          apply i3
          rw [ms]
          intro p hpm
          rcases mem_mapSet _ _ _ _ hpm with h1 | h1
          · rw [h1]
          · exact h5 p h1
        · intro k
          rw [i4 k, ms, mem_mapKeys_mapSet]
          simp [List.filter_cons, k5, hr]
          tauto
      · rw [if_neg k5] at ms
        refine ⟨?_, ?_, ?_, ?_⟩
        · rw [i1, mh]
          simp [List.filter_cons, k6]
        · intro hn
          exact i2 (ms ▸ hn)
        · intro h5
          exact i3 (ms ▸ h5)
        · intro k
          rw [i4 k, ms]
          simp [List.filter_cons, k5]

theorem eventStep_nodupKeys (config : Config) (st st1 : RunState) (event : Event)
    (hn : (mapKeys st.competitors).Nodup) (h : eventStep config st event = some st1) :
    (mapKeys st1.competitors).Nodup := by
  cases hp : parseClock event.Time with
  | none =>
    rw [eventStep_unparsed config st event hp] at h
    injection h with h
    rw [← h]
    exact nodup_mapKeys_mapSet _ _ _ hn
  | some t =>
    rw [eventStep_parsed config st event t hp] at h
    cases hres : processEvent config (competitorOf st.competitors event.CompetitorID) event t with
    | none =>
      rw [hres] at h
      exact Option.noConfusion h
    | some res =>
      rw [hres] at h
      simp only [Option.map_some'] at h
      injection h with h
      rw [← h]
      exact nodup_mapKeys_mapSet _ _ _ hn

theorem eventStep_mem_keys (config : Config) (st st1 : RunState) (event : Event) (k : Int)
    (h : eventStep config st event = some st1) :
    k ∈ mapKeys st1.competitors ↔ k = event.CompetitorID ∨ k ∈ mapKeys st.competitors := by
  cases hp : parseClock event.Time with
  | none =>
    rw [eventStep_unparsed config st event hp] at h
    injection h with h
    rw [← h]
    exact mem_mapKeys_mapSet _ _ _ _
  | some t =>
    rw [eventStep_parsed config st event t hp] at h
    cases hres : processEvent config (competitorOf st.competitors event.CompetitorID) event t with
    | none =>
      rw [hres] at h
      exact Option.noConfusion h
    | some res =>
      rw [hres] at h
      simp only [Option.map_some'] at h
      injection h with h
      rw [← h]
      exact mem_mapKeys_mapSet _ _ _ _

/-- The map of a run holds each id once, and holds exactly the ids it held
before and the ids of the events. -/
theorem runEvents_keys (config : Config) (events : List Event) (st st1 : RunState)
    (h : runEvents config st events = some st1) :
    ((mapKeys st.competitors).Nodup → (mapKeys st1.competitors).Nodup) ∧
    ∀ k, k ∈ mapKeys st1.competitors ↔
      k ∈ mapKeys st.competitors ∨ ∃ e ∈ events, e.CompetitorID = k := by
  induction events generalizing st with
  | nil =>
    simp only [runEvents, Option.some.injEq] at h
    rw [← h]
    simp
  | cons e rest ih =>
    simp only [runEvents] at h
    cases hst : eventStep config st e with
    | none =>
      rw [hst] at h
      exact Option.noConfusion h
    | some st2 =>
      rw [hst] at h
      obtain ⟨i1, i2⟩ := ih st2 h
      refine ⟨fun hn => i1 (eventStep_nodupKeys config st st2 e hn hst), ?_⟩
      intro k
      rw [i2 k, eventStep_mem_keys config st st2 e k hst]
      simp only [List.mem_cons, exists_eq_or_imp]
      constructor
      · rintro ((h1 | h1) | h1)
        · exact Or.inr (Or.inl h1.symm)
        · exact Or.inl h1
        · exact Or.inr (Or.inr h1)
      · rintro (h1 | h1 | h1)
        · exact Or.inl (Or.inr h1)
        · exact Or.inl (Or.inl h1.symm)
        · exact Or.inr h1

theorem mapFind_of_mem {β : Type} (m : List (Int × β)) (hn : (mapKeys m).Nodup) (p : Int × β)
    (hp : p ∈ m) : mapFind m p.1 = some p.2 := by
  induction m with
  | nil => exact absurd hp (List.not_mem_nil _)
  | cons q rest ih =>
    have hn1 : q.1 ∉ mapKeys rest ∧ (mapKeys rest).Nodup := by
      unfold mapKeys at hn ⊢
      exact List.nodup_cons.mp hn
    rw [List.mem_cons] at hp
    rcases hp with hp | hp
    · rw [hp]
      simp [mapFind]
    · have hne : ¬ q.1 = p.1 := by
        intro he
        apply hn1.1
        rw [he]
        exact List.mem_map_of_mem _ hp
      rw [mapFind, if_neg hne]
      exact ih hn1.2 hp

theorem sum_lengths_cast (hits : List (Int × List Int)) :
    (hits.map (fun p => (p.2.length : Int))).sum = ((hitSum hits : Nat) : Int) := by
  unfold hitSum
  induction hits with
  | nil => rfl
  | cons p rest ih =>
    rw [List.map_cons, List.sum_cons, List.map_cons, List.sum_cons, Nat.cast_add, ih]

theorem totalHitsOf_eq (hits : List (Int × List Int)) :
    totalHitsOf hits = wrap64 ((hitSum hits : Nat) : Int) := by
  have h0 : wrap64 0 = 0 := by decide
  have h1 : totalHitsOf hits = durSum 0 (hits.map (fun p => (p.2.length : Int))) := by
    unfold totalHitsOf durSum
    rw [List.foldl_map]
  rw [h1, durSum_eq 0 _ h0, zero_add, sum_lengths_cast]

theorem sum_shots_five (shots : List (Int × Int)) (h5 : ∀ p ∈ shots, p.2 = 5) :
    (shots.map (fun p => p.2)).sum = 5 * (shots.length : Int) := by
  induction shots with
  | nil => rfl
  | cons p rest ih =>
    have hp := h5 p (List.mem_cons_self _ _)
    have hrest := ih (fun q hq => h5 q (List.mem_cons_of_mem _ hq))
    rw [List.map_cons, List.sum_cons, hrest, hp, List.length_cons]
    push_cast
    ring

theorem totalShotsOf_eq (shots : List (Int × Int)) (h5 : ∀ p ∈ shots, p.2 = 5) :
    totalShotsOf shots = wrap64 (5 * (shots.length : Int)) := by
  have h0 : wrap64 0 = 0 := by decide
  have h1 : totalShotsOf shots = durSum 0 (shots.map (fun p => p.2)) := by
    unfold totalShotsOf durSum
    rw [List.foldl_map]
  rw [h1, durSum_eq 0 _ h0, zero_add, sum_shots_five _ h5]

theorem parseable_eventsOf (c : Int) (events : List Event) (hp : ∀ e ∈ events, Parseable e) :
    ∀ e ∈ eventsOf c events, Parseable e := by
  intro e he
  unfold eventsOf at he
  exact hp e (List.mem_of_mem_filter he)

theorem eventsOf_length_le (c : Int) (events : List Event) :
    (eventsOf c events).length ≤ events.length := by
  unfold eventsOf
  exact List.length_filter_le _ _

/-- The accuracy text of the competitor stored under `c` after a run of Events
on parseable events. -/
theorem hitsShots_of_run (config : Config) (events : List Event) (st1 : RunState) (c : Int)
    (hp : ∀ e ∈ events, Parseable e) (hlen : events.length < 2 ^ 60)
    (hrun : runEvents config { competitors := [], outgoingEvents := [] } events = some st1) :
    (reportOf config (competitorOf st1.competitors c)).HitsShots =
      fmtInt (hitCount c events) ++ "/" ++ fmtInt (5 * (distinctRanges c events : Int)) := by
  have hproj := runEvents_competitorOf config events _ st1 c hrun
  have hnew : competitorOf ([] : List (Int × Competitor)) c = newCompetitor c := rfl
  rw [hnew] at hproj
  obtain ⟨i1, i2, i3, i4⟩ := runCompetitor_maps config (eventsOf c events) (newCompetitor c)
    (competitorOf st1.competitors c) (parseable_eventsOf c events hp) hproj
  have hle := eventsOf_length_le c events
  have hhits : hitSum (competitorOf st1.competitors c).Hits = hitCount c events := by
    rw [i1]
    unfold hitCount
    simp [newCompetitor, hitSum]
  have hcle : hitCount c events ≤ (eventsOf c events).length := by
    unfold hitCount
    exact List.length_filter_le _ _
  have hnd : (mapKeys (competitorOf st1.competitors c).Shots).Nodup :=
    i2 (by simp [newCompetitor, mapKeys])
  have h5 : ∀ p ∈ (competitorOf st1.competitors c).Shots, p.2 = 5 :=
    i3 (by simp [newCompetitor])
  have hperm : (mapKeys (competitorOf st1.competitors c).Shots).Perm
      (visitedRanges c events).dedup := by
    rw [List.perm_ext_iff_of_nodup hnd (List.nodup_dedup _)]
    intro k
    rw [i4 k, List.mem_dedup]
    unfold visitedRanges
    simp [newCompetitor, mapKeys]
  have hslen : (competitorOf st1.competitors c).Shots.length = distinctRanges c events := by
    have := hperm.length_eq
    unfold mapKeys at this
    rw [List.length_map] at this
    exact this
  have hdle : distinctRanges c events ≤ (eventsOf c events).length := by
    unfold distinctRanges visitedRanges
    refine le_trans (List.dedup_sublist _).length_le ?_
    exact le_trans (List.length_filterMap_le _ _) (List.length_filter_le _ _)
  have hw1 : wrap64 ((hitCount c events : Nat) : Int) = ((hitCount c events : Nat) : Int) := by
    unfold wrap64
    omega
  have hw2 : wrap64 (5 * ((distinctRanges c events : Nat) : Int)) =
      5 * ((distinctRanges c events : Nat) : Int) := by
    unfold wrap64
    omega
  show fmtInt (totalHitsOf (competitorOf st1.competitors c).Hits) ++ "/" ++
    fmtInt (totalShotsOf (competitorOf st1.competitors c).Shots) = _
  rw [totalHitsOf_eq, totalShotsOf_eq _ h5, hhits, hslen, hw1, hw2]

set_option maxRecDepth 100000 in
/-- C8 (the code departs from the claim): after two visits of competitor 1 to
firing range 1 without a hit the accuracy text is "0/5", where the claim gives
"0/10": `comp.Shots[rangeID] = 5` overwrites the entry of the range at the
second visit.  On the same events the penalty laps are 10, so the code counts
ten missed shots there and five shots in the report.  In a race of two laps
with five hits in each of two visits to range 1 the text is "10/5". -/
theorem C8_repeated_visit_counts_once :
    (twoVisits.filter (fun e => decide (e.CompetitorID = 1 ∧ e.EventID = 5))).length = 2 ∧
    (Events testConfig twoVisits).map
      (fun r => (GenerateReport r.1 testConfig).map (fun x => (x.CompetitorID, x.HitsShots))) =
      some [(1, "0/5")] ∧
    (Events testConfig twoVisits).map (fun r => (competitorOf r.1 1).PenaltyLaps) = some 10 ∧
    (Events testConfig cleanRace).map
      (fun r => (GenerateReport r.1 testConfig).map (fun x => (x.CompetitorID, x.HitsShots))) =
      some [(1, "10/5")] := by
  decide

/-! ## Formatting a duration -/

set_option maxRecDepth 100000 in
/-- C10 (the code departs from the claim): for d = 4097h - 1ns, whose whole
milliseconds are 4096h 59m 59s 999ms, formatDuration returns "4097:59:59.999".
The float64 sum `float64(4096) + float64(3599999999999) / 3.6e12` of d.Hours()
rounds to 4097.0, so the hour field is one too large and the fields no longer
add up to d. -/
theorem C10_hours_field_rounds_up :
    formatDuration 14749199999999999 = "4097:59:59.999" ∧
    (floatUnits Hour 14749199999999999).1 = 4097 * (floatUnits Hour 14749199999999999).2 ∧
    Int.tdiv 14749199999999999 (Millisecond : Int) = 14749199999 ∧
    (14749199999 : Int) = 4096 * 3600000 + 59 * 60000 + 59 * 1000 + 999 ∧
    (4097 * 3600000 + 59 * 60000 + 59 * 1000 + 999 : Int) ≠ 14749199999 ∧
    formatDuration 0 = "00:00:00.000" := by
  decide

/-! ## The loop of ParseDuration ends before its fuel does -/

theorem leadingInt_length (x : Nat) (s : List Char) (v : Nat) (r : List Char)
    (h : leadingInt x s = some (v, r)) : r.length ≤ s.length := by
  induction s generalizing x with
  | nil =>
    simp only [leadingInt, Option.some.injEq, Prod.mk.injEq] at h
    rw [← h.2]
  | cons c cs ih =>
    unfold leadingInt at h
    split at h
    · split at h
      · exact Option.noConfusion h
      · split at h
        · exact Option.noConfusion h
        · exact Nat.le_succ_of_le (ih _ h)
    · simp only [Option.some.injEq, Prod.mk.injEq] at h
      rw [← h.2]

theorem leadingFraction_length (x : Nat) (scale : Nat × Nat) (overflow : Bool) (s : List Char) :
    (leadingFraction x scale overflow s).2.2.length ≤ s.length := by
  induction s generalizing x scale overflow with
  | nil => simp [leadingFraction]
  | cons c cs ih =>
    unfold leadingFraction
    split
    · split
      · exact Nat.le_succ_of_le (ih _ _ _)
      · split
        · exact Nat.le_succ_of_le (ih _ _ _)
        · split
          · exact Nat.le_succ_of_le (ih _ _ _)
          · exact Nat.le_succ_of_le (ih _ _ _)
    · exact Nat.le_refl _

theorem dropWhile_length_lt (p : Char → Bool) (s : List Char) (h : s.takeWhile p ≠ []) :
    (s.dropWhile p).length < s.length := by
  have h1 : (s.takeWhile p).length + (s.dropWhile p).length = s.length := by
    rw [← List.length_append, List.takeWhile_append_dropWhile]
  have h2 : 0 < (s.takeWhile p).length := List.length_pos.mpr h
  omega

theorem parseDurationRound_length (s : List Char) (d : Nat) (res : List Char × Nat)
    (h : parseDurationRound s d = some res) : res.1.length < s.length := by
  unfold parseDurationRound at h
  split at h
  · exact Option.noConfusion h
  · rename_i c cs
    split at h
    · exact Option.noConfusion h
    · split at h
      · exact Option.noConfusion h
      · rename_i v s1 hli
        have hl1 := leadingInt_length _ _ _ _ hli
        dsimp only at h
        split at h
        · exact Option.noConfusion h
        · split at h
          · exact Option.noConfusion h
          · rename_i hu
            split at h
            · exact Option.noConfusion h
            · split at h
              · exact Option.noConfusion h
              · injection h with h
                rw [← h]
                have hd := dropWhile_length_lt isUnitChar _ hu
                have hf : (readFraction s1).2.2.1.length ≤ s1.length := by
                  unfold readFraction
                  split
                  · exact Nat.le_refl _
                  · split
                    · exact Nat.le_succ_of_le (leadingFraction_length _ _ _ _)
                    · exact Nat.le_refl _
                exact Nat.lt_of_lt_of_le hd (Nat.le_trans hf hl1)

/-- Every round of the loop of ParseDuration consumes at least one character,
so beyond the length of the text the fuel makes no difference: the model never
ends a parse for lack of fuel. -/
theorem parseDurationLoop_fuel (f1 f2 : Nat) (s : List Char) (d : Nat)
    (h1 : s.length < f1) (h2 : s.length < f2) :
    parseDurationLoop f1 s d = parseDurationLoop f2 s d := by
  induction f1 generalizing f2 s d with
  | zero => exact absurd h1 (Nat.not_lt_zero _)
  | succ n ih =>
    cases f2 with
    | zero => exact absurd h2 (Nat.not_lt_zero _)
    | succ m =>
      cases s with
      | nil => rfl
      | cons c cs =>
        unfold parseDurationLoop
        cases hr : parseDurationRound (c :: cs) d with
        | none => rfl
        | some res =>
          have hl := parseDurationRound_length _ _ _ hr
          exact ih m res.1 res.2 (by omega) (by omega)

/-! ## The float64 conversions of formatDuration are exact below 4096 hours -/

theorem log2F_spec (fuel n : Nat) (h : n ≤ fuel) (hn : n ≠ 0) :
    2 ^ log2F fuel n ≤ n ∧ n < 2 ^ (log2F fuel n + 1) := by
  induction fuel generalizing n with
  | zero => exact absurd (Nat.le_zero.mp h) hn
  | succ k ih =>
    unfold log2F
    split
    · constructor
      · simp only [pow_zero]
        omega
      · simp only [zero_add, pow_one]
        omega
    · have hh : n / 2 ≤ k := by omega
      have hn2 : n / 2 ≠ 0 := by omega
      obtain ⟨i1, i2⟩ := ih (n / 2) hh hn2
      constructor
      · rw [pow_succ]
        omega
      · rw [pow_succ] at i2 ⊢
        omega

theorem ilog2_spec (n : Nat) (hn : n ≠ 0) : 2 ^ ilog2 n ≤ n ∧ n < 2 ^ (ilog2 n + 1) :=
  log2F_spec n n (Nat.le_refl n) hn

theorem ilog2_lt (n a : Nat) (hn : n ≠ 0) (h : n < 2 ^ a) : ilog2 n < a := by
  have h1 := (ilog2_spec n hn).1
  exact (Nat.pow_lt_pow_iff_right (by decide : 1 < 2)).mp (lt_of_le_of_lt h1 h)

theorem le_ilog2 (n a : Nat) (h : 2 ^ a ≤ n) : a ≤ ilog2 n := by
  have hn : n ≠ 0 := by
    have : 0 < 2 ^ a := Nat.two_pow_pos _
    omega
  have h2 := (ilog2_spec n hn).2
  have := (Nat.pow_lt_pow_iff_right (by decide : 1 < 2)).mp (lt_of_le_of_lt h h2)
  omega

theorem ilog2_pow (t : Nat) : ilog2 (2 ^ t) = t := by
  have hpos : 0 < 2 ^ t := Nat.two_pow_pos _
  have h1 := le_ilog2 (2 ^ t) t (Nat.le_refl _)
  have h2 := ilog2_lt (2 ^ t) (t + 1) (by omega)
    (Nat.pow_lt_pow_right (by decide : 1 < 2) (Nat.lt_succ_self t))
  omega

/-- Rounding to the nearest integer overshoots by at most one half. -/
theorem roundHalfEven_le (num den : Nat) (hden : 0 < den) :
    2 * (roundHalfEven num den * den) ≤ 2 * num + den := by
  have hdm := Nat.div_add_mod num den
  have hq : den * (num / den) = (num / den) * den := Nat.mul_comm _ _
  unfold roundHalfEven
  dsimp only
  split
  · omega
  · split
    · rw [Nat.add_mul]
      omega
    · split
      · omega
      · rw [Nat.add_mul]
        omega

/-- Rounding to the nearest integer never goes below an integer below the
quotient. -/
theorem le_roundHalfEven (num den k : Nat) (hden : 0 < den) (h : k * den ≤ num) :
    k ≤ roundHalfEven num den := by
  have hk : k ≤ num / den := (Nat.le_div_iff_mul_le hden).mpr h
  unfold roundHalfEven
  dsimp only
  split
  · exact hk
  · split
    · omega
    · split <;> omega

/-- The float64 quotient of `r / unit` for `0 < r < unit`, `unit` below `2 ^ g`, stays below
`1 - 2 ^ -g` by more than the spacing of its own grid. -/
theorem f64_fraction_bound (r unit g : Nat) (hr : 0 < r) (hru : r < unit)
    (hg53 : g ≤ 53) (hgap : unit * (2 ^ (54 - g) + 3) ≤ 2 ^ 54) :
    (f64 r unit).2 = 2 ^ (ilog2 unit + 53) ∧
    (f64 r unit).1 * 2 ^ 54 + 2 ^ (ilog2 unit + 53) * 2 ^ (54 - g) <
      2 ^ (ilog2 unit + 53) * 2 ^ 54 := by
  have hu0 : unit ≠ 0 := by omega
  have hr0 : r ≠ 0 := by omega
  have hne : ¬ (r = 0 ∨ unit = 0) := by omega
  unfold f64
  rw [if_neg hne]
  dsimp only
  refine ⟨rfl, ?_⟩
  generalize ht : ilog2 unit + 53 = t
  have hupos : 0 < unit := by omega
  have hPpos : 0 < 2 ^ t := Nat.two_pow_pos _
  -- the scaled quotient lies below 2 ^ t
  have hquot : r * 2 ^ t / unit < 2 ^ t := by
    rw [Nat.div_lt_iff_lt_mul hupos]
    calc r * 2 ^ t < unit * 2 ^ t := Nat.mul_lt_mul_of_pos_right hru hPpos
      _ = 2 ^ t * unit := Nat.mul_comm _ _
  have ht53 : 53 ≤ t := by omega
  have hdrop : ilog2 (r * 2 ^ t / unit) - 52 + 53 ≤ t := by
    by_cases hz : r * 2 ^ t / unit = 0
    · rw [hz]
      have : ilog2 0 = 0 := rfl
      omega
    · have := ilog2_lt _ t hz hquot
      omega
  generalize hdr : ilog2 (r * 2 ^ t / unit) - 52 = drop at hdrop
  have hDpos : 0 < 2 ^ drop := Nat.two_pow_pos _
  have hD : 2 ^ drop * 2 ^ 53 ≤ 2 ^ t := by
    rw [← pow_add]
    exact Nat.pow_le_pow_right (by decide) hdrop
  have hround := roundHalfEven_le (r * 2 ^ t) (unit * 2 ^ drop) (Nat.mul_pos hupos hDpos)
  generalize roundHalfEven (r * 2 ^ t) (unit * 2 ^ drop) = M at hround
  have hG : 2 ^ (54 - g) * 2 ^ g = 2 ^ 54 := by
    rw [← pow_add]
    congr 1
    omega
  generalize 2 ^ t = P at *
  generalize 2 ^ drop = D at *
  generalize 2 ^ (54 - g) = H at *
  generalize 2 ^ g = G at *
  have h54 : (2 : Nat) ^ 54 = 18014398509481984 := by norm_num
  have h53 : (2 : Nat) ^ 53 = 9007199254740992 := by norm_num
  rw [h54] at hgap hG ⊢
  rw [h53] at hD
  have hr1 : r + 1 ≤ unit := hru
  -- multiply the goal by 2 * unit and compare
  have key : 2 * unit * (M * D * 18014398509481984 + P * H) <
      2 * unit * (P * 18014398509481984) := by
    have e1 : 2 * unit * (M * D) ≤ 2 * (r * P) + unit * D := by
      calc 2 * unit * (M * D) = 2 * (M * (unit * D)) := by ring
        _ ≤ 2 * (r * P) + unit * D := hround
    have e2 : 2 * (r * P) + 2 * P ≤ 2 * (unit * P) := by
      have : (r + 1) * P ≤ unit * P := Nat.mul_le_mul_right P hr1
      nlinarith
    have e3 : unit * D * 18014398509481984 ≤ 2 * (unit * P) := by
      have : unit * (D * 9007199254740992) ≤ unit * P := Nat.mul_le_mul_left unit hD
      nlinarith
    have e4 : unit * H + 3 * unit ≤ 18014398509481984 := by
      calc unit * H + 3 * unit = unit * (H + 3) := by ring
        _ ≤ 18014398509481984 := hgap
    have e5 : P * (unit * H + 3 * unit) ≤ P * 18014398509481984 := Nat.mul_le_mul_left P e4
    nlinarith
  exact Nat.lt_of_mul_lt_mul_left key

/-- The float64 sum of an integer `q` below `2 ^ e1` and a fraction `fn / 2 ^ t`
far enough below 1 truncates to `q`. -/
theorem f64_sum_trunc (q fn t e1 : Nat) (hq : q < 2 ^ e1) (he1 : e1 ≤ 53)
    (hfn : fn * 2 ^ 54 + 2 ^ t * 2 ^ e1 < 2 ^ t * 2 ^ 54) :
    (f64 (q * 2 ^ t + fn) (2 ^ t)).1 / (f64 (q * 2 ^ t + fn) (2 ^ t)).2 = q := by
  have hPpos : 0 < 2 ^ t := Nat.two_pow_pos _
  have hP0 : 2 ^ t ≠ 0 := by omega
  by_cases hnum : q * 2 ^ t + fn = 0
  · have hq0 : q = 0 := by
      by_contra hne
      have : 0 < q * 2 ^ t := Nat.mul_pos (Nat.pos_of_ne_zero hne) hPpos
      omega
    unfold f64
    rw [if_pos (Or.inl hnum), hq0]
    rfl
  · have hne : ¬ (q * 2 ^ t + fn = 0 ∨ 2 ^ t = 0) := by
      rintro (h | h)
      · exact hnum h
      · exact hP0 h
    unfold f64
    rw [if_neg hne]
    dsimp only
    rw [ilog2_pow]
    have hbig : (q * 2 ^ t + fn) * 2 ^ (t + 53) / 2 ^ t = (q * 2 ^ t + fn) * 2 ^ 53 := by
      rw [pow_add, ← Nat.mul_assoc, Nat.mul_right_comm, Nat.mul_div_cancel _ hPpos]
    rw [hbig]
    have hfnlt : fn < 2 ^ t := by
      have h54 : 0 < 2 ^ 54 := Nat.two_pow_pos _
      have : fn * 2 ^ 54 < 2 ^ t * 2 ^ 54 := by
        have : 0 < 2 ^ t * 2 ^ e1 := Nat.mul_pos hPpos (Nat.two_pow_pos _)
        omega
      exact Nat.lt_of_mul_lt_mul_right this
    have hnumlt : q * 2 ^ t + fn < 2 ^ e1 * 2 ^ t := by
      have : (q + 1) * 2 ^ t ≤ 2 ^ e1 * 2 ^ t := Nat.mul_le_mul_right _ hq
      rw [Nat.add_mul] at this
      omega
    have hlog : ilog2 ((q * 2 ^ t + fn) * 2 ^ 53) < e1 + t + 53 := by
      apply ilog2_lt
      · exact Nat.mul_ne_zero hnum (by norm_num)
      · calc (q * 2 ^ t + fn) * 2 ^ 53 < 2 ^ e1 * 2 ^ t * 2 ^ 53 :=
            Nat.mul_lt_mul_of_pos_right hnumlt (Nat.two_pow_pos _)
          _ = 2 ^ (e1 + t + 53) := by rw [pow_add, pow_add]
    have hdrop : ilog2 ((q * 2 ^ t + fn) * 2 ^ 53) - 52 ≤ e1 + t := by omega
    generalize ilog2 ((q * 2 ^ t + fn) * 2 ^ 53) - 52 = drop at hdrop
    have hDpos : 0 < 2 ^ drop := Nat.two_pow_pos _
    have hdt : drop ≤ t + 53 := by omega
    have hDle : 2 ^ drop ≤ 2 ^ t * 2 ^ e1 := by
      rw [← pow_add]
      exact Nat.pow_le_pow_right (by decide) (by omega)
    have hsplit : 2 ^ (t + 53 - drop) * 2 ^ drop = 2 ^ (t + 53) := by
      rw [← pow_add]
      congr 1
      omega
    have hlow := le_roundHalfEven ((q * 2 ^ t + fn) * 2 ^ (t + 53)) (2 ^ t * 2 ^ drop)
      (q * 2 ^ (t + 53 - drop)) (Nat.mul_pos hPpos hDpos) (by
        calc q * 2 ^ (t + 53 - drop) * (2 ^ t * 2 ^ drop)
            = q * 2 ^ t * (2 ^ (t + 53 - drop) * 2 ^ drop) := by ring
          _ = q * 2 ^ t * 2 ^ (t + 53) := by rw [hsplit]
          _ ≤ (q * 2 ^ t + fn) * 2 ^ (t + 53) :=
            Nat.mul_le_mul_right _ (Nat.le_add_right _ _))
    have hup := roundHalfEven_le ((q * 2 ^ t + fn) * 2 ^ (t + 53)) (2 ^ t * 2 ^ drop)
      (Nat.mul_pos hPpos hDpos)
    generalize roundHalfEven ((q * 2 ^ t + fn) * 2 ^ (t + 53)) (2 ^ t * 2 ^ drop) = M at hlow hup
    have hT : 2 ^ (t + 53) = 2 ^ t * 2 ^ 53 := pow_add _ _ _
    have hTpos : 0 < 2 ^ (t + 53) := Nat.two_pow_pos _
    apply Nat.div_eq_of_lt_le
    · -- q * 2 ^ (t + 53) ≤ M * 2 ^ drop
      calc q * 2 ^ (t + 53) = q * 2 ^ (t + 53 - drop) * 2 ^ drop := by
            rw [Nat.mul_assoc, hsplit]
        _ ≤ M * 2 ^ drop := Nat.mul_le_mul_right _ hlow
    · -- M * 2 ^ drop < (q + 1) * 2 ^ (t + 53)
      rw [hT] at hup ⊢
      generalize 2 ^ t = P at *
      generalize 2 ^ drop = D at *
      generalize 2 ^ e1 = E at *
      have h54 : (2 : Nat) ^ 54 = 2 * 2 ^ 53 := by norm_num
      rw [h54] at hfn
      generalize (2 : Nat) ^ 53 = T at *
      have key : 2 * P * (M * D) < 2 * P * ((q + 1) * (P * T)) := by
        have e1 : 2 * P * (M * D) ≤ 2 * ((q * P + fn) * (P * T)) + P * D := by
          calc 2 * P * (M * D) = 2 * (M * (P * D)) := by ring
            _ ≤ 2 * ((q * P + fn) * (P * T)) + P * D := hup
        have e2 : P * (fn * (2 * T) + D) < P * (P * (2 * T)) := by
          apply Nat.mul_lt_mul_of_pos_left _ hPpos
          omega
        nlinarith
      exact Nat.lt_of_mul_lt_mul_left key

/-- The conversions `int(d.Hours())`, `int(d.Minutes())` and `int(d.Seconds())`
are the integer quotient as long as the quotient stays below `2 ^ e1`, where
`e1` and the size `g` of the unit leave the 53 bits of a float64 room for both. -/
theorem floatUnits_trunc (unit g e1 a : Nat) (hunit : 0 < unit) (hg53 : g ≤ 53)
    (hgap : unit * (2 ^ (54 - g) + 3) ≤ 2 ^ 54) (he : e1 + g ≤ 54) (he1 : e1 ≤ 53)
    (ha : a / unit < 2 ^ e1) :
    (floatUnits unit a).1 / (floatUnits unit a).2 = a / unit := by
  unfold floatUnits
  dsimp only
  by_cases hr : a % unit = 0
  · have hf : f64 (a % unit) unit = (0, 1) := by
      unfold f64
      rw [if_pos (Or.inl hr)]
    rw [hf]
    have h := f64_sum_trunc (a / unit) 0 0 e1 ha he1 (by
      have : (2 : Nat) ^ e1 ≤ 2 ^ 53 := Nat.pow_le_pow_right (by decide) he1
      have h53 : (2 : Nat) ^ 53 < 2 ^ 54 := by norm_num
      simp only [pow_zero, zero_mul, zero_add, one_mul]
      omega)
    simpa using h
  · obtain ⟨h2, hb⟩ := f64_fraction_bound (a % unit) unit g (Nat.pos_of_ne_zero hr)
      (Nat.mod_lt _ hunit) hg53 hgap
    rw [h2]
    apply f64_sum_trunc (a / unit) (f64 (a % unit) unit).1 (ilog2 unit + 53) e1 ha he1
    have hle : (2 : Nat) ^ e1 ≤ 2 ^ (54 - g) := Nat.pow_le_pow_right (by decide) (by omega)
    have := Nat.mul_le_mul_left (2 ^ (ilog2 unit + 53)) hle
    omega

/-- Below 4096 hours formatDuration shows the exact split of a non-negative
duration into hours, minutes, seconds and milliseconds. -/
theorem formatDuration_below_4096h (d : Int) (h0 : 0 ≤ d) (h1 : d < 4096 * (Hour : Int)) :
    formatDuration d =
      padZero 2 (d / (Hour : Int)) ++ ":" ++ padZero 2 (d / (Minute : Int) % 60) ++ ":" ++
        padZero 2 (d / (Second : Int) % 60) ++ "." ++ padZero 3 (d / (Millisecond : Int) % 1000) := by
  obtain ⟨a, rfl⟩ := Int.eq_ofNat_of_zero_le h0
  have hH : Hour = 3600000000000 := by decide
  have hM : Minute = 60000000000 := by decide
  have hS : Second = 1000000000 := by decide
  have hms : Millisecond = 1000000 := rfl
  have ha : a < 4096 * 3600000000000 := by
    rw [hH] at h1
    exact_mod_cast h1
  have hneg : ¬ ((a : Int) < 0) := by omega
  have tH : truncUnits Hour (a : Int) = ((a / Hour : Nat) : Int) := by
    unfold truncUnits
    dsimp only
    rw [if_neg hneg, Int.natAbs_ofNat, hH,
      floatUnits_trunc 3600000000000 42 12 a (by norm_num) (by norm_num) (by norm_num)
        (by norm_num) (by norm_num) (by
          have : a / 3600000000000 < 4096 := (Nat.div_lt_iff_lt_mul (by norm_num)).mpr ha
          norm_num
          exact this)]
  have tM : truncUnits Minute (a : Int) = ((a / Minute : Nat) : Int) := by
    unfold truncUnits
    dsimp only
    rw [if_neg hneg, Int.natAbs_ofNat, hM,
      floatUnits_trunc 60000000000 36 18 a (by norm_num) (by norm_num) (by norm_num)
        (by norm_num) (by norm_num) (by
          have : a / 60000000000 < 245760 := (Nat.div_lt_iff_lt_mul (by norm_num)).mpr (by omega)
          norm_num
          omega)]
  have tS : truncUnits Second (a : Int) = ((a / Second : Nat) : Int) := by
    unfold truncUnits
    dsimp only
    rw [if_neg hneg, Int.natAbs_ofNat, hS,
      floatUnits_trunc 1000000000 30 24 a (by norm_num) (by norm_num) (by norm_num)
        (by norm_num) (by norm_num) (by
          have : a / 1000000000 < 14745600 := (Nat.div_lt_iff_lt_mul (by norm_num)).mpr (by omega)
          norm_num
          omega)]
  unfold formatDuration
  dsimp only
  rw [tH, tM, tS]
  have m1 : Int.tmod ((a / Minute : Nat) : Int) 60 = (a : Int) / (Minute : Int) % 60 := by
    rw [Int.tmod_eq_emod (Int.ofNat_nonneg _) (by norm_num)]
    rfl
  have m2 : Int.tmod ((a / Second : Nat) : Int) 60 = (a : Int) / (Second : Int) % 60 := by
    rw [Int.tmod_eq_emod (Int.ofNat_nonneg _) (by norm_num)]
    rfl
  have m3 : Int.tmod (Int.tdiv (a : Int) (Millisecond : Int)) 1000 =
      (a : Int) / (Millisecond : Int) % 1000 := by
    have hd : Int.tdiv (a : Int) (Millisecond : Int) = ((a / Millisecond : Nat) : Int) := rfl
    rw [hd, Int.tmod_eq_emod (Int.ofNat_nonneg _) (by norm_num)]
    rfl
  rw [m1, m2, m3]
  rfl

/-! ## Clock times and the instants of a competitor -/

theorem leadingInt_bound (x : Nat) (s : List Char) (v : Nat) (r : List Char)
    (h : leadingInt x s = some (v, r)) : v + 1 ≤ (x + 1) * 10 ^ s.length := by
  induction s generalizing x with
  | nil =>
    simp only [leadingInt, Option.some.injEq, Prod.mk.injEq] at h
    rw [← h.1]
    simp
  | cons c cs ih =>
    unfold leadingInt at h
    split at h
    · rename_i hd
      split at h
      · exact Option.noConfusion h
      · split at h
        · exact Option.noConfusion h
        · have h1 := ih _ h
          have h2 := digitVal_le c hd
          have h3 : (x * 10 + digitVal c + 1) * 10 ^ cs.length ≤ (x * 10 + 10) * 10 ^ cs.length :=
            Nat.mul_le_mul_right _ (by omega)
          rw [List.length_cons, pow_succ]
          calc v + 1 ≤ (x * 10 + digitVal c + 1) * 10 ^ cs.length := h1
            _ ≤ (x * 10 + 10) * 10 ^ cs.length := h3
            _ = (x + 1) * (10 ^ cs.length * 10) := by ring
    · simp only [Option.some.injEq, Prod.mk.injEq] at h
      rw [← h.1]
      have : 0 < 10 ^ (c :: cs).length := Nat.pos_pow_of_pos _ (by decide)
      nlinarith

theorem takeSign_length (s : List Char) : (takeSign s).2.length ≤ s.length := by
  cases s with
  | nil => simp [takeSign]
  | cons c r =>
    show (if c = '-' then (true, r) else if c = '+' then (false, r) else (false, c :: r)).2.length
      ≤ (c :: r).length
    split_ifs <;> simp

/-- The three characters after the period read as milliseconds from 0 to 999. -/
theorem atoi_three (d1 d2 d3 : Char) (ms : Int) (h : atoi [d1, d2, d3] = some ms)
    (h0 : ¬ ms < 0) : 0 ≤ ms ∧ ms ≤ 999 := by
  unfold atoi at h
  dsimp only at h
  split at h
  · rename_i q hq
    have hb := leadingInt_bound 0 _ q [] hq
    have hl := takeSign_length [d1, d2, d3]
    have hp : 10 ^ (takeSign [d1, d2, d3]).2.length ≤ 10 ^ 3 :=
      Nat.pow_le_pow_right (by decide) hl
    have hq1 : q ≤ 999 := by omega
    simp only [Option.some.injEq] at h
    have hw : wrap64 (q : Int) = (q : Int) := by
      unfold wrap64
      omega
    rw [hw] at h
    split at h
    · have hw2 : wrap64 (-(q : Int)) = -(q : Int) := by
        unfold wrap64
        omega
      rw [hw2] at h
      omega
    · omega
  · exact Option.noConfusion h

/-- A parsed clock time lies on the day 0000-01-01. -/
theorem parseClock_range (s : String) (t : Int) (h : parseClock s = some t) :
    0 ≤ t ∧ t < 86400000000000 := by
  unfold parseClock at h
  split at h
  · exact Option.noConfusion h
  · rename_i hour v1 _
    split at h
    · exact Option.noConfusion h
    · rename_i hh
      split at h
      · split at h
        · exact Option.noConfusion h
        · rename_i min v3 _
          split at h
          · exact Option.noConfusion h
          · rename_i hm
            split at h
            · split at h
              · exact Option.noConfusion h
              · rename_i sec v5 _
                split at h
                · exact Option.noConfusion h
                · rename_i hs
                  split at h
                  · rename_i p d1 d2 d3 v6 _
                    split at h
                    · exact Option.noConfusion h
                    · split at h
                      · exact Option.noConfusion h
                      · rename_i ms hms
                        split at h
                        · exact Option.noConfusion h
                        · rename_i hneg
                          split at h
                          · exact Option.noConfusion h
                          · obtain ⟨m0, m1⟩ := atoi_three d1 d2 d3 ms hms hneg
                            simp only [Option.some.injEq] at h
                            have hS : (Second : Int) = 1000000000 := by decide
                            have hM : (Millisecond : Int) = 1000000 := by decide
                            rw [hS, hM] at h
                            push_cast at h
                            omega
                  · exact Option.noConfusion h
            · exact Option.noConfusion h
      · exact Option.noConfusion h

theorem zeroTime_eq : zeroTime = 31622400000000000 := by decide

/-- Between instants of the day of the clock times and the zero value
`time.Time{}` the method Sub is the plain difference. -/
theorem timeSub_exact (t u : Int) (ht : 0 ≤ t ∧ t ≤ zeroTime) (hu : 0 ≤ u ∧ u ≤ zeroTime) :
    timeSub t u = t - u := by
  rw [zeroTime_eq] at ht hu
  unfold timeSub minDuration maxDuration
  rw [if_neg (by omega), if_neg (by omega)]

theorem parseClock_clock (s : String) (t : Int) (h : parseClock s = some t) :
    0 ≤ t ∧ t ≤ zeroTime := by
  have := parseClock_range s t h
  rw [zeroTime_eq]
  omega

set_option maxHeartbeats 1000000 in
/-- What one event does to the fields that the later theorems follow: the time
of the last penalty entry, the lap index, the number of lap times and the
events it emits. -/
theorem processEvent_frame (config : Config) (comp : Competitor) (event : Event) (t : Int)
    (res : Competitor × List Event) (h : processEvent config comp event t = some res) :
    res.1.LastPenaltyTime = (if event.EventID = 8 then t else comp.LastPenaltyTime) ∧
    res.1.CurrentLap = (if event.EventID = 10 then comp.CurrentLap + 1 else comp.CurrentLap) ∧
    res.1.LapTimes.length =
      (if event.EventID = 10 then comp.LapTimes.length + 1 else comp.LapTimes.length) ∧
    (∀ e ∈ res.2, e.CompetitorID = comp.ID) ∧
    (res.2.filter (fun e => decide (e.EventID = 33))).length ≤ 1 ∧
    ((res.2.filter (fun e => decide (e.EventID = 33))) ≠ [] →
      event.EventID = 10 ∧ res.1.CurrentLap + 1 = config.Laps) := by
  rcases kind_cases event.EventID with k | k | k | k | k | k | k | k | k | k | k | k
  · rw [processEvent_registered _ _ _ _ k] at h
    injection h with h
    rw [← h, k]
    simp
  · rw [processEvent_startTime _ _ _ _ k] at h
    split at h
    · exact Option.noConfusion h
    · split at h
      · injection h with h
        rw [← h, k]
        simp
      · rename_i startTime hst
        have hr := parseClock_clock _ _ hst
        injection h with h
        rw [← h, k]
        simp
  · rw [processEvent_startLine _ _ _ _ k] at h
    injection h with h
    rw [← h, k]
    simp
  · rw [processEvent_started _ _ _ _ k] at h
    injection h with h
    rw [← h, k]
    unfold caseStarted
    dsimp only
    split <;> simp [List.filter]
  · rw [processEvent_firingRange _ _ _ _ k] at h
    split at h
    · exact Option.noConfusion h
    · split at h <;>
        (injection h with h; rw [← h, k]; simp [caseFiringRange])
  · rw [processEvent_hit _ _ _ _ k] at h
    split at h
    · exact Option.noConfusion h
    · split at h <;> (injection h with h; rw [← h, k]; simp [caseHit])
  · rw [processEvent_offRange _ _ _ _ k] at h
    injection h with h
    rw [← h, k]
    simp [caseOffRange]
  · rw [processEvent_onPenalty _ _ _ _ k] at h
    injection h with h
    rw [← h, k]
    simp
  · rw [processEvent_offPenalty _ _ _ _ k] at h
    injection h with h
    rw [← h, k]
    simp [caseOffPenalty]
  · rw [processEvent_lapCompleted _ _ _ _ k] at h
    injection h with h
    rw [← h, k]
    unfold caseLapCompleted
    dsimp only
    split
    · rename_i hc
      simp [List.filter, hc.1]
    · simp
  · rw [processEvent_cannotContinue _ _ _ _ k] at h
    injection h with h
    rw [← h, k]
    simp
  · rw [processEvent_other _ _ _ _ k] at h
    injection h with h
    rw [← h]
    simp [k.2.2.2.2.2.2.2.1, k.2.2.2.2.2.2.2.2.2.1]

set_option maxHeartbeats 1000000 in
/-- One event keeps the instants of a competitor in the range of clock times
and the zero value. -/
theorem processEvent_clockFields (config : Config) (comp : Competitor) (event : Event) (t : Int)
    (res : Competitor × List Event) (h : processEvent config comp event t = some res)
    (hc : ClockFields comp) (ht : 0 ≤ t ∧ t ≤ zeroTime) : ClockFields res.1 := by
  unfold ClockFields at hc ⊢
  rcases kind_cases event.EventID with k | k | k | k | k | k | k | k | k | k | k | k
  · rw [processEvent_registered _ _ _ _ k] at h
    injection h with h
    rw [← h]
    (simp; tauto)
  · rw [processEvent_startTime _ _ _ _ k] at h
    split at h
    · exact Option.noConfusion h
    · split at h
      · injection h with h
        rw [← h]
        (simp; tauto)
      · rename_i startTime hst
        have hr := parseClock_clock _ _ hst
        injection h with h
        rw [← h]
        (simp; tauto)
  · rw [processEvent_startLine _ _ _ _ k] at h
    injection h with h
    rw [← h]
    (simp; tauto)
  · rw [processEvent_started _ _ _ _ k] at h
    injection h with h
    rw [← h]
    unfold caseStarted
    dsimp only
    split <;> (simp; tauto)
  · rw [processEvent_firingRange _ _ _ _ k] at h
    split at h
    · exact Option.noConfusion h
    · split at h <;>
        (injection h with h; rw [← h]; (simp [caseFiringRange]; tauto))
  · rw [processEvent_hit _ _ _ _ k] at h
    split at h
    · exact Option.noConfusion h
    · split at h <;> (injection h with h; rw [← h]; (simp [caseHit]; tauto))
  · rw [processEvent_offRange _ _ _ _ k] at h
    injection h with h
    rw [← h]
    (simp [caseOffRange]; tauto)
  · rw [processEvent_onPenalty _ _ _ _ k] at h
    injection h with h
    rw [← h]
    (simp; tauto)
  · rw [processEvent_offPenalty _ _ _ _ k] at h
    injection h with h
    rw [← h]
    (simp [caseOffPenalty]; tauto)
  · rw [processEvent_lapCompleted _ _ _ _ k] at h
    injection h with h
    rw [← h]
    unfold caseLapCompleted
    dsimp only
    split
    · rename_i hc
      (simp; tauto)
    · (simp; tauto)
  · rw [processEvent_cannotContinue _ _ _ _ k] at h
    injection h with h
    rw [← h]
    (simp; tauto)
  · rw [processEvent_other _ _ _ _ k] at h
    injection h with h
    rw [← h]
    (simp; tauto)

theorem clockFields_new (id : Int) : ClockFields (newCompetitor id) := by
  unfold ClockFields newCompetitor
  dsimp only
  rw [zeroTime_eq]
  omega

theorem clockFields_competitorOf (m : List (Int × Competitor))
    (hm : ∀ p ∈ m, ClockFields p.2) (id : Int) : ClockFields (competitorOf m id) := by
  unfold competitorOf
  cases h : mapFind m id with
  | none => exact clockFields_new id
  | some c => exact hm _ (mapFind_mem m id c h)

theorem eventStep_clockFields (config : Config) (st st1 : RunState) (event : Event)
    (hm : ∀ p ∈ st.competitors, ClockFields p.2) (h : eventStep config st event = some st1) :
    ∀ p ∈ st1.competitors, ClockFields p.2 := by
  have hc := clockFields_competitorOf _ hm event.CompetitorID
  cases hp : parseClock event.Time with
  | none =>
    rw [eventStep_unparsed config st event hp] at h
    injection h with h
    rw [← h]
    intro p hpm
    rcases mem_mapSet _ _ _ _ hpm with h1 | h1
    · rw [h1]
      exact hc
    · exact hm p h1
  | some t =>
    rw [eventStep_parsed config st event t hp] at h
    cases hres : processEvent config (competitorOf st.competitors event.CompetitorID) event t with
    | none =>
      rw [hres] at h
      exact Option.noConfusion h
    | some res =>
      rw [hres] at h
      simp only [Option.map_some'] at h
      injection h with h
      rw [← h]
      intro p hpm
      rcases mem_mapSet _ _ _ _ hpm with h1 | h1
      · rw [h1]
        exact processEvent_clockFields config _ event t res hres hc (parseClock_clock _ _ hp)
      · exact hm p h1

/-- In every state that Events reaches, the instants of every competitor are
clock times of the day or the zero value. -/
theorem runEvents_clockFields (config : Config) (events : List Event) (st st1 : RunState)
    (hm : ∀ p ∈ st.competitors, ClockFields p.2) (h : runEvents config st events = some st1) :
    ∀ p ∈ st1.competitors, ClockFields p.2 := by
  induction events generalizing st with
  | nil =>
    simp only [runEvents, Option.some.injEq] at h
    rw [← h]
    exact hm
  | cons e rest ih =>
    simp only [runEvents] at h
    cases hst : eventStep config st e with
    | none =>
      rw [hst] at h
      exact Option.noConfusion h
    | some st2 =>
      rw [hst] at h
      exact ih st2 (eventStep_clockFields config st st2 e hm hst) h

/-! ## Laps and penalty cycles -/

theorem caseLapCompleted_fields (config : Config) (comp : Competitor) (event : Event) (t : Int) :
    (caseLapCompleted config comp event t).1.CurrentLap = comp.CurrentLap + 1 ∧
    (caseLapCompleted config comp event t).1.LapTimes = comp.LapTimes ++
      [if comp.CurrentLap + 1 = 0 then timeSub t comp.ActualStart
        else timeSub t comp.LastLapTime] ∧
    (caseLapCompleted config comp event t).1.LastLapTime = t ∧
    (caseLapCompleted config comp event t).1.PenaltyTimes = comp.PenaltyTimes ∧
    (caseLapCompleted config comp event t).1.Hits = comp.Hits ∧
    (caseLapCompleted config comp event t).1.Shots = comp.Shots ∧
    (caseLapCompleted config comp event t).1.PenaltyLaps = comp.PenaltyLaps := by
  unfold caseLapCompleted
  dsimp only
  split <;> exact ⟨rfl, rfl, rfl, rfl, rfl, rfl, rfl⟩

/-- C11: in every state that Events reaches, a lap-completed event (kind 10)
with a time t that parses raises CurrentLap by one, appends to LapTimes exactly
one entry, t - ActualStart when the new CurrentLap is 0 and t - LastLapTime
otherwise (a signed difference), sets LastLapTime to t, and leaves
PenaltyTimes, Hits, Shots and PenaltyLaps as they are. -/
theorem C11_lap_duration (config : Config) (pre : List Event) (st : RunState) (event : Event)
    (t : Int) (hreach : runEvents config initialState pre = some st)
    (hkind : event.EventID = 10) (ht : parseClock event.Time = some t) :
    ∃ st1, eventStep config st event = some st1 ∧
      (competitorOf st1.competitors event.CompetitorID).CurrentLap =
        (competitorOf st.competitors event.CompetitorID).CurrentLap + 1 ∧
      (competitorOf st1.competitors event.CompetitorID).LapTimes =
        (competitorOf st.competitors event.CompetitorID).LapTimes ++
          [if (competitorOf st1.competitors event.CompetitorID).CurrentLap = 0 then
            t - (competitorOf st.competitors event.CompetitorID).ActualStart
          else t - (competitorOf st.competitors event.CompetitorID).LastLapTime] ∧
      (competitorOf st1.competitors event.CompetitorID).LastLapTime = t ∧
      (competitorOf st1.competitors event.CompetitorID).PenaltyTimes =
        (competitorOf st.competitors event.CompetitorID).PenaltyTimes ∧
      (competitorOf st1.competitors event.CompetitorID).Hits =
        (competitorOf st.competitors event.CompetitorID).Hits ∧
      (competitorOf st1.competitors event.CompetitorID).Shots =
        (competitorOf st.competitors event.CompetitorID).Shots ∧
      (competitorOf st1.competitors event.CompetitorID).PenaltyLaps =
        (competitorOf st.competitors event.CompetitorID).PenaltyLaps := by
  have hall := runEvents_clockFields config pre initialState st
    (fun p hp => absurd hp (List.not_mem_nil _)) hreach
  obtain ⟨-, ha, -, hl⟩ := clockFields_competitorOf _ hall event.CompetitorID
  have htc := parseClock_clock _ _ ht
  obtain ⟨f1, f2, f3, f4, f5, f6, f7⟩ := caseLapCompleted_fields config
    (competitorOf st.competitors event.CompetitorID) event t
  rw [timeSub_exact t _ htc ha, timeSub_exact t _ htc hl] at f2
  rw [eventStep_parsed config st event t ht, processEvent_lapCompleted _ _ _ _ hkind]
  refine ⟨_, rfl, ?_⟩
  simp only [competitorOf_mapSet_self]
  rw [f1]
  exact ⟨rfl, f2, f3, f4, f5, f6, f7⟩

set_option maxRecDepth 100000 in
theorem C11_lap_duration_witness :
    ∃ st1, eventStep testConfig startedState lapEvent = some st1 ∧
      (competitorOf st1.competitors 1).LapTimes = [588000000000] := by
  obtain ⟨st1, h1, h2, h3, -⟩ := C11_lap_duration testConfig [startEvent] startedState lapEvent
    36600000000000 (by decide) rfl (by decide)
  refine ⟨st1, h1, ?_⟩
  have e1 : lapEvent.CompetitorID = 1 := rfl
  rw [e1] at h2 h3
  rw [h3, h2]
  decide

theorem runCompetitor_lastPenalty (config : Config) (mid : List Event) (comp comp1 : Competitor)
    (hmid : ∀ e ∈ mid, e.EventID ≠ 8) (h : runCompetitor config comp mid = some comp1) :
    comp1.LastPenaltyTime = comp.LastPenaltyTime := by
  induction mid generalizing comp with
  | nil =>
    simp only [runCompetitor, Option.some.injEq] at h
    rw [h]
  | cons e rest ih =>
    have hrest : ∀ x ∈ rest, x.EventID ≠ 8 := fun x hx => hmid x (List.mem_cons_of_mem _ hx)
    cases hp : parseClock e.Time with
    | none =>
      rw [runCompetitor_skip _ _ _ _ hp] at h
      exact ih comp hrest h
    | some t =>
      cases hres : processEvent config comp e t with
      | none =>
        simp only [runCompetitor, hp, hres] at h
        exact Option.noConfusion h
      | some res =>
        rw [runCompetitor_step _ _ _ _ t res hp hres] at h
        have hf := (processEvent_frame config comp e t res hres).1
        rw [if_neg (hmid e (List.mem_cons_self _ _))] at hf
        rw [ih res.1 hrest h, hf]

set_option maxRecDepth 100000 in
/-- C12, the claim as stated fails: in a state where competitor 1 has -2^63
penalty laps, the least int64, an on-penalty-laps event followed by an
off-penalty-laps event leaves 2^63 - 1 penalty laps: the `--` of Go's int
wraps and the counter does not go down by one. -/
theorem C12_decrement_wraps_at_least_int :
    (competitorOf leastLapsState.competitors 1).PenaltyLaps = -9223372036854775808 ∧
    (runEvents testConfig leastLapsState [onPenaltyEvent, offPenaltyEvent]).map
      (fun s => (competitorOf s.competitors 1).PenaltyLaps) = some 9223372036854775807 := by
  decide

/-- C12, amended: when the events of competitor c so far are an on-penalty-laps
event (kind 8) at t1 followed by events of other kinds, an off-penalty-laps
event (kind 9) of c at t2 appends exactly the entry t2 - t1 to PenaltyTimes,
takes one from PenaltyLaps in int64 arithmetic, which is one less whenever
PenaltyLaps is an int64 above -2^63, and leaves LapTimes, Hits, Shots, Status
and CurrentLap as they are. -/
theorem C12_penalty_cycle (config : Config) (st stA : RunState) (events mid : List Event)
    (c t1 t2 : Int) (e8 e9 : Event)
    (hrun : runEvents config st events = some stA)
    (hc : eventsOf c events = e8 :: mid)
    (h8 : e8.EventID = 8) (ht1 : parseClock e8.Time = some t1)
    (hmid : ∀ e ∈ mid, e.EventID ≠ 8)
    (h9 : e9.EventID = 9) (hc9 : e9.CompetitorID = c) (ht2 : parseClock e9.Time = some t2) :
    ∃ stB, eventStep config stA e9 = some stB ∧
      (competitorOf stB.competitors c).PenaltyTimes =
        (competitorOf stA.competitors c).PenaltyTimes ++ [t2 - t1] ∧
      (competitorOf stB.competitors c).PenaltyLaps =
        wrap64 ((competitorOf stA.competitors c).PenaltyLaps - 1) ∧
      (-(2 ^ 63) < (competitorOf stA.competitors c).PenaltyLaps ∧
          (competitorOf stA.competitors c).PenaltyLaps ≤ 2 ^ 63 - 1 →
        (competitorOf stB.competitors c).PenaltyLaps =
          (competitorOf stA.competitors c).PenaltyLaps - 1) ∧
      (competitorOf stB.competitors c).LapTimes = (competitorOf stA.competitors c).LapTimes ∧
      (competitorOf stB.competitors c).Hits = (competitorOf stA.competitors c).Hits ∧
      (competitorOf stB.competitors c).Shots = (competitorOf stA.competitors c).Shots ∧
      (competitorOf stB.competitors c).Status = (competitorOf stA.competitors c).Status ∧
      (competitorOf stB.competitors c).CurrentLap =
        (competitorOf stA.competitors c).CurrentLap := by
  have hproj := runEvents_competitorOf config events st stA c hrun
  rw [hc, runCompetitor_step config _ e8 mid t1 _ ht1 (processEvent_onPenalty _ _ _ _ h8)] at hproj
  have hlast := runCompetitor_lastPenalty config mid _ _ hmid hproj
  have hl1 : (competitorOf stA.competitors c).LastPenaltyTime = t1 := hlast
  have hsub : timeSub t2 t1 = t2 - t1 :=
    timeSub_exact t2 t1 (parseClock_clock _ _ ht2) (parseClock_clock _ _ ht1)
  rw [eventStep_parsed config stA e9 t2 ht2, processEvent_offPenalty _ _ _ _ h9, hc9]
  refine ⟨_, rfl, ?_⟩
  simp only [competitorOf_mapSet_self]
  unfold caseOffPenalty
  dsimp only
  rw [hl1, hsub]
  refine ⟨rfl, rfl, ?_, rfl, rfl, rfl, rfl, rfl⟩
  intro hr
  apply wrap64_of_range
  · unfold minDuration
    omega
  · unfold maxDuration
    omega

set_option maxRecDepth 100000 in
/-- Witness of C12: competitor 1 enters the penalty laps at 10:06:00.000 and
leaves them at 10:07:00.000. -/
theorem C12_penalty_cycle_witness :
    ∃ stB, eventStep testConfig penaltyEntryState offPenaltyEvent = some stB ∧
      (competitorOf stB.competitors 1).PenaltyTimes = [60000000000] ∧
      (competitorOf stB.competitors 1).PenaltyLaps = -1 := by
  obtain ⟨stB, h1, h2, -, h4, -⟩ := C12_penalty_cycle testConfig initialState penaltyEntryState
    [onPenaltyEvent] [] 1 36360000000000 36420000000000 onPenaltyEvent offPenaltyEvent
    (by decide) rfl rfl (by decide) (fun e he => absurd he (List.not_mem_nil _)) rfl rfl
    (by decide)
  refine ⟨stB, h1, ?_, ?_⟩
  · rw [h2]
    decide
  · rw [h4 (by decide)]
    decide

/-! ## Parameters that are not integers -/

theorem competitorOf_mapSet (m : List (Int × Competitor)) (k id : Int) (v : Competitor) :
    competitorOf (mapSet m k v) id = if id = k then v else competitorOf m id := by
  by_cases h : id = k
  · rw [if_pos h, h]
    exact competitorOf_mapSet_self m k v
  · rw [if_neg h]
    exact competitorOf_mapSet_ne m k id v h

theorem runEvents_append (config : Config) (es1 es2 : List Event) (st : RunState) :
    runEvents config st (es1 ++ es2) =
      (runEvents config st es1).bind (fun s => runEvents config s es2) := by
  induction es1 generalizing st with
  | nil => rfl
  | cons e rest ih =>
    simp only [List.cons_append, runEvents]
    cases eventStep config st e with
    | none => rfl
    | some s => exact ih s

theorem mapFind_none_of_not_mem {β : Type} (m : List (Int × β)) (k : Int)
    (h : k ∉ mapKeys m) : mapFind m k = none := by
  induction m with
  | nil => rfl
  | cons p rest ih =>
    have h1 : ¬ p.1 = k := by
      intro e
      apply h
      unfold mapKeys
      rw [List.map_cons, e]
      exact List.mem_cons_self _ _
    have h2 : k ∉ mapKeys rest := by
      intro e
      apply h
      unfold mapKeys at e ⊢
      rw [List.map_cons]
      exact List.mem_cons_of_mem _ e
    rw [mapFind, if_neg h1]
    exact ih h2

theorem mapFind_some_of_mem {β : Type} (m : List (Int × β)) (k : Int)
    (h : k ∈ mapKeys m) : ∃ v, mapFind m k = some v := by
  induction m with
  | nil => exact absurd h (List.not_mem_nil _)
  | cons p rest ih =>
    by_cases h1 : p.1 = k
    · exact ⟨p.2, by rw [mapFind, if_pos h1]⟩
    · have h2 : k ∈ mapKeys rest := by
        unfold mapKeys at h ⊢
        rw [List.map_cons, List.mem_cons] at h
        rcases h with h | h
        · exact absurd h.symm h1
        · exact h
      rw [mapFind, if_neg h1]
      exact ih h2

theorem not_numeral_trailing_text (k : Int) : ¬ IsNumeral "7x" k := by
  rintro ⟨ds, -, hd, h | h | h⟩
  · have e : ds = ['7', 'x'] := h.1.symm
    have hx := hd 'x' (by rw [e]; simp)
    exact absurd hx (by decide)
  · have e : ['7', 'x'] = '+' :: ds := h.1
    injection e with e1 _
    exact absurd e1 (by decide)
  · have e : ['7', 'x'] = '-' :: ds := h.1
    injection e with e1 _
    exact absurd e1 (by decide)

set_option maxRecDepth 100000 in
/-- C13 (the code departs from the claim): the parameter "7x" is not an integer,
yet the on-firing-range event that carries it is not passed over: Events on
this one event stores competitor 1 on firing range 7 with five shots there,
where the claim gives the state of a new competitor, as the run on the same
event with the parameter "x7" does.  `fmt.Sscanf(s, "%d", &n)` reads the
leading integer and leaves the rest of the parameter unread. -/
theorem C13_trailing_text_parameter_applied :
    (∀ k, ¬ IsNumeral "7x" k) ∧
    (Events testConfig [trailingTextEvent]).map
      (fun r => r.1.map (fun p => (p.1, p.2.FiringRange, p.2.Shots))) =
      some [(1, 7, [(7, 5)])] ∧
    ((newCompetitor 1).FiringRange, (newCompetitor 1).Shots) = (0, []) ∧
    (Events testConfig [{ trailingTextEvent with ExtraParams := ["x7"] }]).map (fun r => r.1) =
      some [(1, newCompetitor 1)] :=
  ⟨not_numeral_trailing_text, by decide, by decide, by decide⟩

/-! ## One round of the loop, seen from the competitor of the event -/

theorem eventStep_eq (config : Config) (st : RunState) (event : Event) :
    eventStep config st event =
      (competitorStep config (competitorOf st.competitors event.CompetitorID) event).map
        (fun res =>
          { competitors := mapSet st.competitors event.CompetitorID res.1,
            outgoingEvents := st.outgoingEvents ++ res.2 }) := by
  unfold competitorStep
  cases hp : parseClock event.Time with
  | none =>
    rw [eventStep_unparsed config st event hp]
    simp
  | some t => exact eventStep_parsed config st event t hp

theorem runEvents_cons (config : Config) (st : RunState) (e : Event) (rest : List Event) :
    runEvents config st (e :: rest) =
      (eventStep config st e).bind (fun s => runEvents config s rest) := by
  simp only [runEvents]
  cases eventStep config st e <;> rfl

/-- What one round does to the competitor of the event. -/
theorem competitorStep_frame (config : Config) (comp : Competitor) (event : Event)
    (res : Competitor × List Event) (h : competitorStep config comp event = some res) :
    res.1.ID = comp.ID ∧
    (∀ e ∈ res.2, e.CompetitorID = comp.ID) ∧
    (res.1.CurrentLap = comp.CurrentLap ∨
      (res.1.CurrentLap = comp.CurrentLap + 1 ∧ event.EventID = 10)) ∧
    ((res.1.LapTimes.length : Int) - res.1.CurrentLap =
      (comp.LapTimes.length : Int) - comp.CurrentLap) ∧
    (res.2.filter (fun e => decide (e.EventID = 33))).length ≤ 1 ∧
    ((res.2.filter (fun e => decide (e.EventID = 33))) ≠ [] →
      res.1.CurrentLap = comp.CurrentLap + 1 ∧ res.1.CurrentLap + 1 = config.Laps) := by
  unfold competitorStep at h
  split at h
  · injection h with h
    rw [← h]
    simp
  · rename_i t _
    obtain ⟨-, f2, f3, f4, f5, f6⟩ := processEvent_frame config comp event t res h
    refine ⟨processEvent_ID config comp event t res h, f4, ?_, ?_, f5, ?_⟩
    · rw [f2]
      split
      · rename_i hk
        exact Or.inr ⟨rfl, hk⟩
      · exact Or.inl rfl
    · rw [f2, f3]
      split
      · push_cast
        omega
      · rfl
    · intro hne
      obtain ⟨hk, hl⟩ := f6 hne
      rw [f2, if_pos hk] at hl ⊢
      exact ⟨rfl, hl⟩

/-! ## Faults -/

set_option maxRecDepth 100000 in
/-- C14 (the code departs from the claim): the line "[10:00:05.000] 2 1" is read
by parseEvent as a start-time-assigned event with no parameter, and on this
event Events indexes `event.ExtraParams[0]` in an empty slice and faults; the
same holds for kinds 5 and 6. -/
theorem C14_missing_parameter_faults :
    parseEvent "[10:00:05.000] 2 1" = some missingParamEvent ∧
    Events testConfig [missingParamEvent] = none ∧
    Events testConfig [{ missingParamEvent with EventID := 5 }] = none ∧
    Events testConfig [{ missingParamEvent with EventID := 6 }] = none := by
  decide

/-! ## Isolation of the competitors -/

theorem outgoingOf_append (c : Int) (a b : List Event) :
    outgoingOf c (a ++ b) = outgoingOf c a ++ outgoingOf c b := by
  simp [outgoingOf]

theorem outgoingOf_own (c : Int) (a : List Event) (h : ∀ e ∈ a, e.CompetitorID = c) :
    outgoingOf c a = a := by
  unfold outgoingOf
  rw [List.filter_eq_self]
  intro e he
  simp [h e he]

theorem outgoingOf_other (c : Int) (a : List Event) (h : ∀ e ∈ a, e.CompetitorID ≠ c) :
    outgoingOf c a = [] := by
  unfold outgoingOf
  rw [List.filter_eq_nil_iff]
  intro e he
  simp [h e he]

/-- A run from `st` and the run of the events of `c` alone from a state that
agrees with `st` on `c` end with the same competitor `c`, and the second run
emits the events that the first one emits for `c`. -/
theorem runEvents_isolated (config : Config) (c : Int) (events : List Event) :
    ∀ st st2 st1 : RunState, WellKeyed st.competitors →
      competitorOf st.competitors c = competitorOf st2.competitors c →
      runEvents config st events = some st1 →
      ∃ st3 outs, runEvents config st2 (eventsOf c events) = some st3 ∧
        competitorOf st1.competitors c = competitorOf st3.competitors c ∧
        st1.outgoingEvents = st.outgoingEvents ++ outs ∧
        st3.outgoingEvents = st2.outgoingEvents ++ outgoingOf c outs := by
  induction events with
  | nil =>
    intro st st2 st1 _ hc h
    simp only [runEvents, Option.some.injEq] at h
    subst h
    exact ⟨st2, [], rfl, hc, by simp, by simp [outgoingOf]⟩
  | cons e rest ih =>
    intro st st2 st1 hk hc h
    rw [runEvents_cons] at h
    cases hs : eventStep config st e with
    | none => rw [hs] at h; exact absurd h (by simp)
    | some sa =>
      rw [hs] at h
      simp only [Option.some_bind] at h
      have hka := eventStep_wellKeyed config st sa e hk hs
      rw [eventStep_eq] at hs
      cases hr : competitorStep config (competitorOf st.competitors e.CompetitorID) e with
      | none => rw [hr] at hs; exact absurd hs (by simp)
      | some res =>
        rw [hr] at hs
        simp only [Option.map_some', Option.some.injEq] at hs
        obtain ⟨-, fown, -⟩ := competitorStep_frame config _ e res hr
        rw [competitorOf_ID _ hk] at fown
        by_cases hid : e.CompetitorID = c
        · have hev : eventsOf c (e :: rest) = e :: eventsOf c rest := by
            simp [eventsOf, hid]
          have hr2 : competitorStep config (competitorOf st2.competitors e.CompetitorID) e
              = some res := by
            rw [hid, ← hc, ← hid]
            exact hr
          have hs2 : eventStep config st2 e =
              some { competitors := mapSet st2.competitors e.CompetitorID res.1,
                     outgoingEvents := st2.outgoingEvents ++ res.2 } := by
            rw [eventStep_eq, hr2]
            rfl
          have hca : competitorOf sa.competitors c =
              competitorOf (mapSet st2.competitors e.CompetitorID res.1) c := by
            rw [← hs, ← hid]
            simp only [competitorOf_mapSet_self]
          obtain ⟨st3, outs, h1, h2, h3, h4⟩ :=
            ih sa { competitors := mapSet st2.competitors e.CompetitorID res.1,
                    outgoingEvents := st2.outgoingEvents ++ res.2 } st1 hka hca h
          refine ⟨st3, res.2 ++ outs, ?_, h2, ?_, ?_⟩
          · rw [hev, runEvents_cons, hs2]
            exact h1
          · rw [h3, ← hs]
            simp
          · rw [h4, outgoingOf_append, outgoingOf_own c res.2 (fun x hx => (fown x hx).trans hid)]
            simp
        · have hev : eventsOf c (e :: rest) = eventsOf c rest := by
            simp [eventsOf, hid]
          have hca : competitorOf sa.competitors c = competitorOf st2.competitors c := by
            rw [← hs, ← hc]
            exact competitorOf_mapSet_ne _ _ _ _ (fun x => hid x.symm)
          obtain ⟨st3, outs, h1, h2, h3, h4⟩ := ih sa st2 st1 hka hca h
          refine ⟨st3, res.2 ++ outs, ?_, h2, ?_, ?_⟩
          · rw [hev]
            exact h1
          · rw [h3, ← hs]
            simp
          · rw [h4, outgoingOf_append,
              outgoingOf_other c res.2 (fun x hx hx1 => hid ((fown x hx).symm.trans hx1))]
            simp

theorem wellKeyed_nil : WellKeyed [] := by
  intro p hp
  exact absurd hp (List.not_mem_nil _)

theorem mem_eventsOf_id (c : Int) (events : List Event) :
    (∃ e ∈ eventsOf c events, e.CompetitorID = c) ↔ ∃ e ∈ events, e.CompetitorID = c := by
  unfold eventsOf
  constructor
  · rintro ⟨e, he, hc⟩
    exact ⟨e, (List.mem_filter.mp he).1, hc⟩
  · rintro ⟨e, he, hc⟩
    exact ⟨e, List.mem_filter.mpr ⟨he, by simp [hc]⟩, hc⟩

/-- C15: when Events completes on `events`, it completes on the events of
competitor `c` alone; the two runs hold the same entry for `c` in their maps
(none in both, or the same competitor) and the second run emits the outgoing
events that the first one emits for `c`, in the same order.  One round of the
loop changes the entry of no competitor other than the one of its event. -/
theorem C15_per_competitor_isolation (config : Config) (events : List Event) (c : Int)
    (comps : List (Int × Competitor)) (out : List Event)
    (h : Events config events = some (comps, out)) :
    (∃ comps1 out1, Events config (eventsOf c events) = some (comps1, out1) ∧
      mapFind comps1 c = mapFind comps c ∧ out1 = outgoingOf c out) ∧
    (∀ st st1 e id, eventStep config st e = some st1 → id ≠ e.CompetitorID →
      mapFind st1.competitors id = mapFind st.competitors id) := by
  constructor
  · unfold Events at h ⊢
    cases hr : runEvents config { competitors := [], outgoingEvents := [] } events with
    | none => rw [hr] at h; exact absurd h (by simp)
    | some st1 =>
      rw [hr] at h
      simp only [Option.map_some', Option.some.injEq, Prod.mk.injEq] at h
      obtain ⟨hcomps, hout⟩ := h
      obtain ⟨st3, outs, h1, h2, h3, h4⟩ :=
        runEvents_isolated config c events _ { competitors := [], outgoingEvents := [] } st1
          wellKeyed_nil rfl hr
      refine ⟨st3.competitors, st3.outgoingEvents, ?_, ?_, ?_⟩
      · rw [h1]
        rfl
      · have k1 := (runEvents_keys config events _ st1 hr).2 c
        have k3 := (runEvents_keys config (eventsOf c events) _ st3 h1).2 c
        rw [mem_eventsOf_id] at k3
        have hk : c ∈ mapKeys st3.competitors ↔ c ∈ mapKeys st1.competitors := by
          rw [k1, k3]
        rw [← hcomps]
        by_cases hm : c ∈ mapKeys st1.competitors
        · obtain ⟨v1, hv1⟩ := mapFind_some_of_mem _ c hm
          obtain ⟨v3, hv3⟩ := mapFind_some_of_mem _ c (hk.mpr hm)
          unfold competitorOf at h2
          rw [hv1, hv3] at h2
          rw [hv1, hv3]
          exact congrArg some h2.symm
        · rw [mapFind_none_of_not_mem _ c hm, mapFind_none_of_not_mem _ c (fun x => hm (hk.mp x))]
      · rw [h4, ← hout, h3]
        simp
  · intro st st1 e id hs hid
    rw [eventStep_eq] at hs
    cases hr : competitorStep config (competitorOf st.competitors e.CompetitorID) e with
    | none => rw [hr] at hs; exact absurd hs (by simp)
    | some res =>
      rw [hr] at hs
      simp only [Option.map_some', Option.some.injEq] at hs
      rw [← hs]
      exact mapFind_mapSet_ne _ _ _ _ hid

set_option maxRecDepth 100000 in
/-- Witness of C15: the events of two competitors, restricted to competitor 1. -/
theorem C15_per_competitor_isolation_witness :
    Events testConfig twoCompetitorEvents =
      some (twoCompetitorRun.competitors, twoCompetitorRun.outgoingEvents) ∧
    ((∃ comps1 out1, Events testConfig (eventsOf 1 twoCompetitorEvents) = some (comps1, out1) ∧
      mapFind comps1 1 = mapFind twoCompetitorRun.competitors 1 ∧
      out1 = outgoingOf 1 twoCompetitorRun.outgoingEvents) ∧
    (∀ st st1 e id, eventStep testConfig st e = some st1 → id ≠ e.CompetitorID →
      mapFind st1.competitors id = mapFind st.competitors id)) :=
  ⟨by decide, C15_per_competitor_isolation testConfig twoCompetitorEvents 1 _ _ (by decide)⟩

/-! ## The reports of GenerateReport -/

/-- C18: GenerateReport returns as many reports as the map has competitors, the
CompetitorID values of the reports are a permutation of the IDs of the
competitors, and the result is a permutation of the reports computed one per
competitor, so that sorting changes no field of a report. -/
theorem C18_one_report_per_competitor (competitors : List (Int × Competitor)) (config : Config) :
    (GenerateReport competitors config).length = competitors.length ∧
    ((GenerateReport competitors config).map (fun r => r.CompetitorID)).Perm
      (competitors.map (fun p => p.2.ID)) ∧
    (GenerateReport competitors config).Perm (competitors.map (fun p => reportOf config p.2)) := by
  have hp : (GenerateReport competitors config).Perm
      (competitors.map (fun p => reportOf config p.2)) := sortSlice_perm _ _
  refine ⟨?_, ?_, hp⟩
  · rw [hp.length_eq, List.length_map]
  · have hm := hp.map (fun r => r.CompetitorID)
    rw [List.map_map] at hm
    exact hm

/-! ## Finishes and lap counts -/

theorem finishCount_append (c : Int) (a b : List Event) :
    finishCount c (a ++ b) = finishCount c a + finishCount c b := by
  simp [finishCount]

theorem finishCount_other (c : Int) (a : List Event) (h : ∀ e ∈ a, e.CompetitorID ≠ c) :
    finishCount c a = 0 := by
  unfold finishCount
  rw [List.length_eq_zero, List.filter_eq_nil_iff]
  intro e he
  simp [h e he]

theorem finishCount_own (c : Int) (a : List Event) (h : ∀ e ∈ a, e.CompetitorID = c) :
    finishCount c a = (a.filter (fun e => decide (e.EventID = 33))).length := by
  unfold finishCount
  congr 1
  apply List.filter_congr
  intro e he
  simp [h e he]

/-- One round of the loop keeps: every competitor has at most one event
`finished` in the output, and one who has it is past the last lap but one. -/
theorem eventStep_finish (config : Config) (st st1 : RunState) (e : Event)
    (hk : WellKeyed st.competitors)
    (hinv : ∀ c, finishCount c st.outgoingEvents ≤ 1 ∧
      (finishCount c st.outgoingEvents = 1 →
        config.Laps ≤ (competitorOf st.competitors c).CurrentLap + 1))
    (h : eventStep config st e = some st1) :
    ∀ c, finishCount c st1.outgoingEvents ≤ 1 ∧
      (finishCount c st1.outgoingEvents = 1 →
        config.Laps ≤ (competitorOf st1.competitors c).CurrentLap + 1) := by
  rw [eventStep_eq] at h
  cases hr : competitorStep config (competitorOf st.competitors e.CompetitorID) e with
  | none => rw [hr] at h; exact absurd h (by simp)
  | some res =>
    rw [hr] at h
    simp only [Option.map_some', Option.some.injEq] at h
    obtain ⟨-, fown, flap, -, f5, f6⟩ := competitorStep_frame config _ e res hr
    rw [competitorOf_ID _ hk] at fown
    intro c
    rw [← h]
    dsimp only
    rw [finishCount_append]
    by_cases hc : c = e.CompetitorID
    · subst hc
      rw [competitorOf_mapSet_self, finishCount_own _ res.2 fown]
      obtain ⟨hn, h1⟩ := hinv e.CompetitorID
      by_cases hm : res.2.filter (fun e => decide (e.EventID = 33)) = []
      · rw [hm]
        simp only [List.length_nil, Nat.add_zero]
        refine ⟨hn, fun hone => ?_⟩
        have := h1 hone
        rcases flap with hl | ⟨hl, -⟩ <;> omega
      · obtain ⟨g1, g2⟩ := f6 hm
        constructor
        · by_contra hcon
          have hone : finishCount e.CompetitorID st.outgoingEvents = 1 := by omega
          have := h1 hone
          omega
        · intro _
          omega
    · rw [competitorOf_mapSet_ne _ _ _ _ hc,
        finishCount_other c res.2 (fun x hx hx1 => hc ((fown x hx).symm.trans hx1).symm)]
      exact hinv c

theorem runEvents_finish (config : Config) (events : List Event) :
    ∀ st st1 : RunState, WellKeyed st.competitors →
      (∀ c, finishCount c st.outgoingEvents ≤ 1 ∧
        (finishCount c st.outgoingEvents = 1 →
          config.Laps ≤ (competitorOf st.competitors c).CurrentLap + 1)) →
      runEvents config st events = some st1 →
      ∀ c, finishCount c st1.outgoingEvents ≤ 1 ∧
        (finishCount c st1.outgoingEvents = 1 →
          config.Laps ≤ (competitorOf st1.competitors c).CurrentLap + 1) := by
  induction events with
  | nil =>
    intro st st1 _ hinv h
    simp only [runEvents, Option.some.injEq] at h
    subst h
    exact hinv
  | cons e rest ih =>
    intro st st1 hk hinv h
    rw [runEvents_cons] at h
    cases hs : eventStep config st e with
    | none => rw [hs] at h; exact absurd h (by simp)
    | some sa =>
      rw [hs] at h
      exact ih sa st1 (eventStep_wellKeyed config st sa e hk hs)
        (eventStep_finish config st sa e hk hinv hs) h

/-- C19: in the output of a run of Events that completes, every competitor id
has at most one event `finished` (33), and a competitor that has one is at lap
index config.Laps - 1 or later.  The lap index of a new competitor is -1, and
one round of the loop leaves the lap index of its competitor as it is or, on a
lap-completed event, raises it by one. -/
theorem C19_at_most_one_finish (config : Config) (events : List Event)
    (comps : List (Int × Competitor)) (out : List Event)
    (h : Events config events = some (comps, out)) (c : Int) :
    finishCount c out ≤ 1 ∧
    (finishCount c out = 1 → config.Laps ≤ (competitorOf comps c).CurrentLap + 1) ∧
    (newCompetitor c).CurrentLap = -1 ∧
    (∀ comp e res, competitorStep config comp e = some res →
      res.1.CurrentLap = comp.CurrentLap ∨
        (res.1.CurrentLap = comp.CurrentLap + 1 ∧ e.EventID = 10)) := by
  unfold Events at h
  cases hr : runEvents config { competitors := [], outgoingEvents := [] } events with
  | none => rw [hr] at h; exact absurd h (by simp)
  | some st1 =>
    rw [hr] at h
    simp only [Option.map_some', Option.some.injEq, Prod.mk.injEq] at h
    obtain ⟨hcomps, hout⟩ := h
    have hinv := runEvents_finish config events _ st1 wellKeyed_nil
      (fun c => ⟨by simp [finishCount], by simp [finishCount]⟩) hr c
    rw [hcomps, hout] at hinv
    refine ⟨hinv.1, hinv.2, rfl, ?_⟩
    intro comp e res hres
    exact (competitorStep_frame config comp e res hres).2.2.1

set_option maxRecDepth 100000 in
/-- Witness of C19: a start and three completed laps in a race of two laps give
one event `finished`. -/
theorem C19_at_most_one_finish_witness :
    Events testConfig finishingEvents =
      some (finishingRun.competitors, finishingRun.outgoingEvents) ∧
    finishCount 1 finishingRun.outgoingEvents = 1 ∧
    (finishCount 1 finishingRun.outgoingEvents ≤ 1 ∧
    (finishCount 1 finishingRun.outgoingEvents = 1 →
      testConfig.Laps ≤ (competitorOf finishingRun.competitors 1).CurrentLap + 1) ∧
    (newCompetitor 1).CurrentLap = -1 ∧
    (∀ comp e res, competitorStep testConfig comp e = some res →
      res.1.CurrentLap = comp.CurrentLap ∨
        (res.1.CurrentLap = comp.CurrentLap + 1 ∧ e.EventID = 10))) :=
  ⟨by decide, by decide, C19_at_most_one_finish testConfig finishingEvents _ _ (by decide) 1⟩

theorem runEvents_lapCount (config : Config) (events : List Event) :
    ∀ st st1 : RunState,
      (∀ c, ((competitorOf st.competitors c).LapTimes.length : Int) =
        (competitorOf st.competitors c).CurrentLap + 1) →
      runEvents config st events = some st1 →
      ∀ c, ((competitorOf st1.competitors c).LapTimes.length : Int) =
        (competitorOf st1.competitors c).CurrentLap + 1 := by
  induction events with
  | nil =>
    intro st st1 hinv h
    simp only [runEvents, Option.some.injEq] at h
    subst h
    exact hinv
  | cons e rest ih =>
    intro st st1 hinv h
    rw [runEvents_cons] at h
    cases hs : eventStep config st e with
    | none => rw [hs] at h; exact absurd h (by simp)
    | some sa =>
      rw [hs] at h
      refine ih sa st1 ?_ h
      rw [eventStep_eq] at hs
      cases hr : competitorStep config (competitorOf st.competitors e.CompetitorID) e with
      | none => rw [hr] at hs; exact absurd hs (by simp)
      | some res =>
        rw [hr] at hs
        simp only [Option.map_some', Option.some.injEq] at hs
        obtain ⟨-, -, -, flen, -⟩ := competitorStep_frame config _ e res hr
        intro c
        rw [← hs]
        dsimp only
        rw [competitorOf_mapSet]
        split
        · have := hinv e.CompetitorID
          omega
        · exact hinv c

/-- C20: after a run of Events from the initial state every competitor of the
map has CurrentLap + 1 lap times; and when the next round of the loop emits an
event `finished`, the competitor of the event has config.Laps lap times after
that round. -/
theorem C20_lap_count_invariant (config : Config) (events : List Event) (st : RunState)
    (h : runEvents config initialState events = some st) :
    (∀ p ∈ st.competitors, (p.2.LapTimes.length : Int) = p.2.CurrentLap + 1) ∧
    (∀ e st1, eventStep config st e = some st1 →
      ∃ added, st1.outgoingEvents = st.outgoingEvents ++ added ∧
        ((∃ x ∈ added, x.EventID = 33) →
          ((competitorOf st1.competitors e.CompetitorID).LapTimes.length : Int) =
            config.Laps)) := by
  have hnew : ∀ c, ((competitorOf initialState.competitors c).LapTimes.length : Int) =
      (competitorOf initialState.competitors c).CurrentLap + 1 := by
    intro c
    rfl
  have hinv := runEvents_lapCount config events initialState st hnew h
  constructor
  · intro p hp
    have hn := (runEvents_keys config events initialState st h).1 List.nodup_nil
    have hf := mapFind_of_mem st.competitors hn p hp
    have := hinv p.1
    unfold competitorOf at this
    rw [hf] at this
    exact this
  · intro e st1 hs
    rw [eventStep_eq] at hs
    cases hr : competitorStep config (competitorOf st.competitors e.CompetitorID) e with
    | none => rw [hr] at hs; exact absurd hs (by simp)
    | some res =>
      rw [hr] at hs
      simp only [Option.map_some', Option.some.injEq] at hs
      obtain ⟨-, -, -, flen, -, f6⟩ := competitorStep_frame config _ e res hr
      refine ⟨res.2, by rw [← hs], ?_⟩
      rintro ⟨x, hx, hx33⟩
      have hne : res.2.filter (fun e => decide (e.EventID = 33)) ≠ [] := by
        intro hnil
        rw [List.filter_eq_nil_iff] at hnil
        exact hnil x hx (by simp [hx33])
      obtain ⟨g1, g2⟩ := f6 hne
      rw [← hs]
      dsimp only
      rw [competitorOf_mapSet_self]
      have := hinv e.CompetitorID
      omega

set_option maxRecDepth 100000 in
/-- Witness of C20: after the start and the first lap of competitor 1, the
second lap of a race of two laps emits `finished`. -/
theorem C20_lap_count_invariant_witness :
    (eventStep testConfig
        ((runEvents testConfig initialState [startEvent, lapEvent]).getD initialState)
        lapEvent).map (fun s => s.outgoingEvents.map (fun x => x.EventID)) = some [33] ∧
    ((∀ p ∈ ((runEvents testConfig initialState [startEvent, lapEvent]).getD
        initialState).competitors,
      (p.2.LapTimes.length : Int) = p.2.CurrentLap + 1) ∧
    (∀ e st1,
      eventStep testConfig
        ((runEvents testConfig initialState [startEvent, lapEvent]).getD initialState) e
        = some st1 →
      ∃ added, st1.outgoingEvents =
        ((runEvents testConfig initialState [startEvent, lapEvent]).getD
          initialState).outgoingEvents ++ added ∧
        ((∃ x ∈ added, x.EventID = 33) →
          ((competitorOf st1.competitors e.CompetitorID).LapTimes.length : Int) =
            testConfig.Laps))) :=
  ⟨by decide, C20_lap_count_invariant testConfig [startEvent, lapEvent] _ (by decide)⟩

/-! ## parseEvent -/

set_option maxRecDepth 100000 in
/-- C17 (the code departs from the claim): the line "invalid line" is rejected
and so is a kind field without a digit, but a kind or competitor field that is
an integer followed by other characters is accepted: `fmt.Sscanf(s, "%d", &n)`
reads the leading integer and leaves the rest of the field unread. -/
theorem C17_trailing_text_accepted :
    parseEvent "invalid line" = none ∧
    parseEvent "[09:05:59.867] x 1" = none ∧
    sscanfInt "1x" = some 1 ∧
    parseEvent "[09:05:59.867] 1x 1" =
      some { Time := "09:05:59.867", EventID := 1, CompetitorID := 1, ExtraParams := [] } ∧
    parseEvent "[09:05:59.867] 1 1x" =
      some { Time := "09:05:59.867", EventID := 1, CompetitorID := 1, ExtraParams := [] } := by
  decide

theorem fieldsFrom_blank (ws tail : List Char) (h : Blank ws) :
    fieldsFrom [] (ws ++ tail) = fieldsFrom [] tail := by
  induction ws with
  | nil => rfl
  | cons w ws ih =>
    have hw : isSpace w = true := h w (List.mem_cons_self _ _)
    rw [List.cons_append, fieldsFrom, if_pos hw, if_pos rfl]
    exact ih (fun ch hch => h ch (List.mem_cons_of_mem _ hch))

theorem fieldsFrom_read (f : List Char) (h : ∀ ch ∈ f, isSpace ch = false) :
    ∀ cur tail : List Char, fieldsFrom cur (f ++ tail) = fieldsFrom (f.reverse ++ cur) tail := by
  induction f with
  | nil =>
    intro cur tail
    rfl
  | cons c f ih =>
    intro cur tail
    have hc : isSpace c = false := h c (List.mem_cons_self _ _)
    rw [List.cons_append, fieldsFrom, hc, if_neg (by simp),
      ih (fun ch hch => h ch (List.mem_cons_of_mem _ hch))]
    simp

/-- Reading one field that is followed by white space or by the end of the
line. -/
theorem fieldsFrom_field (f tail : List Char) (hf : Unbroken f)
    (ht : ∀ ch, tail.head? = some ch → isSpace ch = true) :
    fieldsFrom [] (f ++ tail) = String.mk f :: fieldsFrom [] tail := by
  rw [fieldsFrom_read f hf.2, List.append_nil]
  have hne : f.reverse ≠ [] := by
    intro e
    exact hf.1 (List.reverse_eq_nil_iff.mp e)
  cases tail with
  | nil =>
    rw [fieldsFrom, if_neg hne, List.reverse_reverse]
    rfl
  | cons w t =>
    have hw : isSpace w = true := ht w rfl
    rw [fieldsFrom, if_pos hw, if_neg hne, List.reverse_reverse, fieldsFrom, if_pos hw,
      if_pos rfl]

theorem head_blank_append (ws tail : List Char) (h : Blank ws)
    (ht : ∀ ch, tail.head? = some ch → isSpace ch = true) :
    ∀ ch, (ws ++ tail).head? = some ch → isSpace ch = true := by
  cases ws with
  | nil => exact ht
  | cons w ws =>
    intro ch hch
    simp only [List.cons_append, List.head?_cons, Option.some.injEq] at hch
    rw [← hch]
    exact h w (List.mem_cons_self _ _)

theorem head_joinFields (rest : List (List Char × String)) (trail : List Char)
    (hrest : ∀ q ∈ rest, Separator q.1 ∧ Unbroken q.2.toList) (htrail : Blank trail) :
    ∀ ch, (joinFields rest ++ trail).head? = some ch → isSpace ch = true := by
  cases rest with
  | nil =>
    have := head_blank_append trail [] htrail (by simp)
    simpa [joinFields] using this
  | cons q rest =>
    obtain ⟨sep, f⟩ := q
    obtain ⟨⟨hne, hb⟩, -⟩ := hrest (sep, f) (List.mem_cons_self _ _)
    intro ch hch
    cases sep with
    | nil => exact absurd rfl hne
    | cons w ws =>
      simp only [joinFields, List.cons_append, List.head?_cons, Option.some.injEq] at hch
      rw [← hch]
      exact hb w (List.mem_cons_self _ _)

/-- The function strings.Fields gives back the fields that were joined. -/
theorem fieldsFrom_joinFields (rest : List (List Char × String)) (trail : List Char)
    (hrest : ∀ q ∈ rest, Separator q.1 ∧ Unbroken q.2.toList) (htrail : Blank trail) :
    fieldsFrom [] (joinFields rest ++ trail) = rest.map (fun q => q.2) := by
  induction rest with
  | nil =>
    have := fieldsFrom_blank trail [] htrail
    simpa [joinFields, fieldsFrom] using this
  | cons q rest ih =>
    obtain ⟨sep, f⟩ := q
    obtain ⟨⟨-, hb⟩, hf⟩ := hrest (sep, f) (List.mem_cons_self _ _)
    have hrest1 : ∀ q ∈ rest, Separator q.1 ∧ Unbroken q.2.toList :=
      fun q hq => hrest q (List.mem_cons_of_mem _ hq)
    have e : joinFields ((sep, f) :: rest) ++ trail =
        sep ++ (f.toList ++ (joinFields rest ++ trail)) := by
      simp [joinFields]
    rw [e, fieldsFrom_blank _ _ hb,
      fieldsFrom_field _ _ hf (head_joinFields rest trail hrest1 htrail), ih hrest1]
    rfl

theorem dropWhile_head_false {α : Type} (p : α → Bool) (l : List α)
    (h : ∀ x, l.head? = some x → p x = false) : l.dropWhile p = l := by
  cases l with
  | nil => rfl
  | cons x l => rw [List.dropWhile_cons, h x rfl]; rfl

/-- The call `strings.Trim(s, "[]")` on a bracketed text without brackets. -/
theorem trimBrackets_bracketed (T : String) (h : ∀ ch ∈ T.toList, isBracket ch = false) :
    trimBrackets (String.mk ('[' :: T.toList ++ [']'])) = T := by
  obtain ⟨l⟩ := T
  change ∀ ch ∈ l, isBracket ch = false at h
  show String.mk ((('[' :: l ++ [']']).dropWhile isBracket).reverse.dropWhile
    isBracket).reverse = String.mk l
  congr 1
  have e1 : ('[' :: l ++ [']']).dropWhile isBracket = (l ++ [']']).dropWhile isBracket := by
    rw [List.cons_append, List.dropWhile_cons]
    rfl
  rw [e1]
  cases l with
  | nil => rfl
  | cons t ts =>
    have ht : isBracket t = false := h t (List.mem_cons_self _ _)
    have e2 : (t :: ts ++ [']']).dropWhile isBracket = t :: ts ++ [']'] :=
      dropWhile_head_false _ _ (by
        intro x hx
        simp only [List.cons_append, List.head?_cons, Option.some.injEq] at hx
        rw [← hx]
        exact ht)
    rw [e2]
    have e3 : (t :: ts ++ [']']).reverse = ']' :: (t :: ts).reverse := by simp
    rw [e3, List.dropWhile_cons]
    have e4 : isBracket ']' = true := rfl
    rw [e4]
    simp only [if_true]
    have e5 : ((t :: ts).reverse).dropWhile isBracket = (t :: ts).reverse :=
      dropWhile_head_false _ _ (by
        intro x hx
        have hmem : x ∈ (t :: ts).reverse := List.mem_of_mem_head? hx
        exact h x (List.mem_reverse.mp hmem))
    rw [e5, List.reverse_reverse]

theorem digitsVal_foldl (ds : List Char) :
    ∀ acc : Nat, ds.foldl (fun acc c => acc * 10 + digitVal c) acc =
      acc * 10 ^ ds.length + decimalValue ds := by
  induction ds with
  | nil =>
    intro acc
    simp [decimalValue]
  | cons d ds ih =>
    intro acc
    rw [List.foldl_cons, ih]
    have e : decimalValue (d :: ds) = decimalValue ds + 10 ^ ds.length * digitVal d := by
      unfold decimalValue digitVal
      rw [List.reverse_cons, List.map_append, Nat.ofDigits_append]
      simp
    rw [e, List.length_cons]
    ring

theorem digitsVal_eq (ds : List Char) : digitsVal ds = decimalValue ds := by
  unfold digitsVal
  rw [digitsVal_foldl]
  simp

theorem isSpace_digit (c : Char) (h : c.isDigit = true) : isSpace c = false := by
  rw [isDigit_iff] at h
  unfold isSpace
  simp only [Bool.or_eq_false_iff, Bool.and_eq_false_imp, decide_eq_true_eq, beq_eq_false_iff_ne,
    ne_eq, decide_eq_false_iff_not]
  omega

theorem skipSpace_unbroken (c : Char) (cs : List Char) (h : isSpace c = false) :
    skipSpace (c :: cs) = some (c :: cs) := by
  have hn : c ≠ '\n' := by
    rintro rfl
    exact absurd h (by decide)
  rw [skipSpace, if_neg hn, h]
  rfl

/-- The call `fmt.Sscanf(s, "%d", &n)` on a decimal numeral of an int64. -/
theorem sscanfInt_numeral (s : String) (k : Int) (h : IsNumeral s k)
    (hr : -(2 ^ 63) ≤ k ∧ k ≤ 2 ^ 63 - 1) : sscanfInt s = some k := by
  obtain ⟨ds, hne, hd, hs⟩ := h
  have htw : ds.takeWhile Char.isDigit = ds := by
    rw [List.takeWhile_eq_self_iff]
    exact hd
  obtain ⟨d0, dt, hds⟩ := List.exists_cons_of_ne_nil hne
  have hd0 : d0.isDigit = true := hd d0 (by rw [hds]; exact List.mem_cons_self _ _)
  have h0m : d0 ≠ '-' := isDigit_ne d0 '-' hd0 (by decide)
  have h0p : d0 ≠ '+' := isDigit_ne d0 '+' hd0 (by decide)
  unfold sscanfInt
  rcases hs with ⟨hs, hk⟩ | ⟨hs, hk⟩ | ⟨hs, hk⟩
  · have e1 : skipSpace s.toList = some ds := by
      rw [hs, hds]
      exact skipSpace_unbroken d0 dt (isSpace_digit d0 hd0)
    have e2 : takeSign ds = (false, ds) := by
      rw [hds, takeSign, if_neg h0m, if_neg h0p]
    rw [e1]
    dsimp only
    rw [e2]
    dsimp only
    rw [htw, if_neg hne, digitsVal_eq, ← hk]
    simp only [Bool.false_eq_true, if_false]
    rw [if_neg (by omega)]
  · have e1 : skipSpace s.toList = some ('+' :: ds) := by
      rw [hs]
      exact skipSpace_unbroken '+' ds (by decide)
    have e2 : takeSign ('+' :: ds) = (false, ds) := by
      rw [takeSign, if_neg (by decide), if_pos rfl]
    rw [e1]
    dsimp only
    rw [e2]
    dsimp only
    rw [htw, if_neg hne, digitsVal_eq, ← hk]
    simp only [Bool.false_eq_true, if_false]
    rw [if_neg (by omega)]
  · have e1 : skipSpace s.toList = some ('-' :: ds) := by
      rw [hs]
      exact skipSpace_unbroken '-' ds (by decide)
    have e2 : takeSign ('-' :: ds) = (true, ds) := by
      rw [takeSign, if_pos rfl]
    rw [e1]
    dsimp only
    rw [e2]
    dsimp only
    rw [htw, if_neg hne, digitsVal_eq, ← hk]
    simp only [if_true]
    rw [if_neg (by omega)]

theorem unbroken_numeral (s : String) (k : Int) (h : IsNumeral s k) : Unbroken s.toList := by
  obtain ⟨ds, hne, hd, hs⟩ := h
  have hds : ∀ ch ∈ ds, isSpace ch = false := fun ch hch => isSpace_digit ch (hd ch hch)
  rcases hs with ⟨hs, -⟩ | ⟨hs, -⟩ | ⟨hs, -⟩
  · rw [hs]
    exact ⟨hne, hds⟩
  · rw [hs]
    refine ⟨by simp, ?_⟩
    intro ch hch
    rcases List.mem_cons.mp hch with e | e
    · rw [e]
      decide
    · exact hds ch e
  · rw [hs]
    refine ⟨by simp, ?_⟩
    intro ch hch
    rcases List.mem_cons.mp hch with e | e
    · rw [e]
      decide
    · exact hds ch e

/-- C16: a line made of the field "[T]", where T has no bracket and no white
space, a decimal numeral of an int64 `k`, a decimal numeral of an int64 `c` and
further fields without white space, with white space between the fields (and
possibly before the first and after the last), is read by parseEvent without
error as the event with Time T, EventID `k`, CompetitorID `c` and the further
fields in their order as ExtraParams. -/
theorem C16_well_formed_line (T ks cs : String) (k c : Int) (lead s1 s2 trail : List Char)
    (rest : List (List Char × String))
    (hT : ∀ ch ∈ T.toList, isBracket ch = false ∧ isSpace ch = false)
    (hk : IsNumeral ks k) (hkr : -(2 ^ 63) ≤ k ∧ k ≤ 2 ^ 63 - 1)
    (hc : IsNumeral cs c) (hcr : -(2 ^ 63) ≤ c ∧ c ≤ 2 ^ 63 - 1)
    (hlead : Blank lead) (hs1 : Separator s1) (hs2 : Separator s2)
    (hrest : ∀ q ∈ rest, Separator q.1 ∧ Unbroken q.2.toList) (htrail : Blank trail) :
    parseEvent (String.mk (lead ++ ('[' :: T.toList ++ [']']) ++
        joinFields ((s1, ks) :: (s2, cs) :: rest) ++ trail)) =
      some { Time := T, EventID := k, CompetitorID := c,
             ExtraParams := rest.map (fun q => q.2) } := by
  have hall : ∀ q ∈ (s1, ks) :: (s2, cs) :: rest, Separator q.1 ∧ Unbroken q.2.toList := by
    intro q hq
    rcases List.mem_cons.mp hq with e | hq
    · rw [e]
      exact ⟨hs1, unbroken_numeral ks k hk⟩
    · rcases List.mem_cons.mp hq with e | hq
      · rw [e]
        exact ⟨hs2, unbroken_numeral cs c hc⟩
      · exact hrest q hq
  have hf0 : Unbroken ('[' :: T.toList ++ [']']) := by
    refine ⟨by simp, ?_⟩
    intro ch hch
    simp only [List.cons_append, List.mem_cons, List.mem_append, List.mem_singleton,
      List.not_mem_nil, or_false] at hch
    rcases hch with e | e | e
    · rw [e]
      decide
    · exact (hT ch e).2
    · rw [e]
      decide
  have hF : Fields (String.mk (lead ++ ('[' :: T.toList ++ [']']) ++
      joinFields ((s1, ks) :: (s2, cs) :: rest) ++ trail)) =
      String.mk ('[' :: T.toList ++ [']']) :: ks :: cs :: rest.map (fun q => q.2) := by
    show fieldsFrom [] (lead ++ ('[' :: T.toList ++ [']']) ++
      joinFields ((s1, ks) :: (s2, cs) :: rest) ++ trail) = _
    rw [List.append_assoc, List.append_assoc, fieldsFrom_blank _ _ hlead,
      fieldsFrom_field _ _ hf0 (head_joinFields _ trail hall htrail),
      fieldsFrom_joinFields _ trail hall htrail]
    rfl
  unfold parseEvent
  rw [hF]
  dsimp only
  rw [sscanfInt_numeral ks k hk hkr, sscanfInt_numeral cs c hc hcr,
    trimBrackets_bracketed T (fun ch hch => (hT ch hch).1)]

set_option maxRecDepth 100000 in
/-- Witness of C16: the line "[09:15:00.841] 2 1 09:30:00.000". -/
theorem C16_well_formed_line_witness :
    parseEvent "[09:15:00.841] 2 1 09:30:00.000" =
      some { Time := "09:15:00.841", EventID := 2, CompetitorID := 1,
             ExtraParams := ["09:30:00.000"] } :=
  C16_well_formed_line "09:15:00.841" "2" "1" 2 1 [] [' '] [' '] [] [([' '], "09:30:00.000")]
    (by decide)
    ⟨['2'], by decide, by decide, Or.inl ⟨rfl, by decide⟩⟩ (by decide)
    ⟨['1'], by decide, by decide, Or.inl ⟨rfl, by decide⟩⟩ (by decide)
    (by decide) ⟨by decide, by decide⟩ ⟨by decide, by decide⟩
    (by decide) (by decide)

/-! ## The lap times of a competitor add up -/

set_option maxHeartbeats 1000000 in
/-- What one event does to the start, the last lap boundary, the lap times and
the lap index of its competitor. -/
theorem processEvent_lapFields (config : Config) (comp : Competitor) (event : Event) (t : Int)
    (res : Competitor × List Event) (h : processEvent config comp event t = some res) :
    res.1.ActualStart = (if event.EventID = 4 then t else comp.ActualStart) ∧
    res.1.LastLapTime =
      (if event.EventID = 4 ∨ event.EventID = 10 then t else comp.LastLapTime) ∧
    res.1.LapTimes =
      (if event.EventID = 10 then
        comp.LapTimes ++ [if comp.CurrentLap + 1 = 0 then timeSub t comp.ActualStart
          else timeSub t comp.LastLapTime]
       else comp.LapTimes) ∧
    res.1.CurrentLap = (if event.EventID = 10 then comp.CurrentLap + 1 else comp.CurrentLap) := by
  rcases kind_cases event.EventID with k | k | k | k | k | k | k | k | k | k | k | k
  · rw [processEvent_registered _ _ _ _ k] at h
    injection h with h
    rw [← h, k]
    simp
  · rw [processEvent_startTime _ _ _ _ k] at h
    split at h
    · exact Option.noConfusion h
    · split at h <;> (injection h with h; rw [← h, k]; simp)
  · rw [processEvent_startLine _ _ _ _ k] at h
    injection h with h
    rw [← h, k]
    simp
  · rw [processEvent_started _ _ _ _ k] at h
    injection h with h
    rw [← h, k]
    unfold caseStarted
    dsimp only
    split <;> simp
  · rw [processEvent_firingRange _ _ _ _ k] at h
    split at h
    · exact Option.noConfusion h
    · split at h <;> (injection h with h; rw [← h, k]; simp [caseFiringRange])
  · rw [processEvent_hit _ _ _ _ k] at h
    split at h
    · exact Option.noConfusion h
    · split at h <;> (injection h with h; rw [← h, k]; simp [caseHit])
  · rw [processEvent_offRange _ _ _ _ k] at h
    injection h with h
    rw [← h, k]
    simp [caseOffRange]
  · rw [processEvent_onPenalty _ _ _ _ k] at h
    injection h with h
    rw [← h, k]
    simp
  · rw [processEvent_offPenalty _ _ _ _ k] at h
    injection h with h
    rw [← h, k]
    simp [caseOffPenalty]
  · rw [processEvent_lapCompleted _ _ _ _ k] at h
    injection h with h
    obtain ⟨f1, f2, f3, -⟩ := caseLapCompleted_fields config comp event t
    rw [← h, k, f1, f2, f3]
    unfold caseLapCompleted
    dsimp only
    split <;> simp
  · rw [processEvent_cannotContinue _ _ _ _ k] at h
    injection h with h
    rw [← h, k]
    simp
  · rw [processEvent_other _ _ _ _ k] at h
    injection h with h
    rw [← h]
    simp [k.2.2.2.1, k.2.2.2.2.2.2.2.2.2.1]

theorem runCompetitor_append (config : Config) (a b : List Event) :
    ∀ comp : Competitor, runCompetitor config comp (a ++ b) =
      (runCompetitor config comp a).bind (fun x => runCompetitor config x b) := by
  induction a with
  | nil =>
    intro comp
    rfl
  | cons e rest ih =>
    intro comp
    cases hp : parseClock e.Time with
    | none =>
      rw [List.cons_append, runCompetitor_skip _ _ _ _ hp, runCompetitor_skip _ _ _ _ hp]
      exact ih comp
    | some t =>
      cases hr : processEvent config comp e t with
      | none => simp only [List.cons_append, runCompetitor, hp, hr, Option.none_bind]
      | some res =>
        rw [List.cons_append, runCompetitor_step _ _ _ _ t res hp hr,
          runCompetitor_step _ _ _ _ t res hp hr]
        exact ih res.1

/-- Events that are neither a start nor a lap leave the start, the last lap
boundary, the lap times and the lap index as they are. -/
theorem runCompetitor_noLap (config : Config) (events : List Event)
    (hk : ∀ e ∈ events, e.EventID ≠ 4 ∧ e.EventID ≠ 10) :
    ∀ comp comp1 : Competitor, ClockFields comp → runCompetitor config comp events = some comp1 →
      ClockFields comp1 ∧ comp1.ActualStart = comp.ActualStart ∧
      comp1.LastLapTime = comp.LastLapTime ∧ comp1.LapTimes = comp.LapTimes ∧
      comp1.CurrentLap = comp.CurrentLap := by
  induction events with
  | nil =>
    intro comp comp1 hc h
    simp only [runCompetitor, Option.some.injEq] at h
    subst h
    exact ⟨hc, rfl, rfl, rfl, rfl⟩
  | cons e rest ih =>
    intro comp comp1 hc h
    have hrest : ∀ e ∈ rest, e.EventID ≠ 4 ∧ e.EventID ≠ 10 :=
      fun x hx => hk x (List.mem_cons_of_mem _ hx)
    obtain ⟨h4, h10⟩ := hk e (List.mem_cons_self _ _)
    cases hp : parseClock e.Time with
    | none =>
      rw [runCompetitor_skip _ _ _ _ hp] at h
      exact ih hrest comp comp1 hc h
    | some t =>
      cases hr : processEvent config comp e t with
      | none =>
        simp only [runCompetitor, hp, hr] at h
        exact Option.noConfusion h
      | some res =>
        rw [runCompetitor_step _ _ _ _ t res hp hr] at h
        obtain ⟨f1, f2, f3, f4⟩ := processEvent_lapFields config comp e t res hr
        rw [if_neg h4] at f1
        rw [if_neg (by tauto)] at f2
        rw [if_neg h10] at f3 f4
        have hc1 := processEvent_clockFields config comp e t res hr hc (parseClock_clock _ _ hp)
        obtain ⟨g0, g1, g2, g3, g4⟩ := ih hrest res.1 comp1 hc1 h
        exact ⟨g0, g1.trans f1, g2.trans f2, g3.trans f3, g4.trans f4⟩

/-- After the start at `s`, events other than a start keep: the lap times add
up to the last lap boundary less `s`, and before the first lap the last lap
boundary is `s`. -/
theorem runCompetitor_telescope (config : Config) (s : Int) (events : List Event)
    (hk : ∀ e ∈ events, e.EventID ≠ 4) :
    ∀ comp comp1 : Competitor, ClockFields comp → comp.ActualStart = s →
      comp.LapTimes.sum = comp.LastLapTime - s → -1 ≤ comp.CurrentLap →
      (comp.CurrentLap + 1 = 0 → comp.LastLapTime = s) →
      runCompetitor config comp events = some comp1 →
      ClockFields comp1 ∧ comp1.ActualStart = s ∧
      comp1.LapTimes.sum = comp1.LastLapTime - s ∧ -1 ≤ comp1.CurrentLap ∧
      (comp1.CurrentLap + 1 = 0 → comp1.LastLapTime = s) := by
  induction events with
  | nil =>
    intro comp comp1 hc h1 h2 h3 h4 h
    simp only [runCompetitor, Option.some.injEq] at h
    subst h
    exact ⟨hc, h1, h2, h3, h4⟩
  | cons e rest ih =>
    intro comp comp1 hc h1 h2 h3 h4 h
    have hrest : ∀ e ∈ rest, e.EventID ≠ 4 := fun x hx => hk x (List.mem_cons_of_mem _ hx)
    have hne4 := hk e (List.mem_cons_self _ _)
    cases hp : parseClock e.Time with
    | none =>
      rw [runCompetitor_skip _ _ _ _ hp] at h
      exact ih hrest comp comp1 hc h1 h2 h3 h4 h
    | some t =>
      cases hr : processEvent config comp e t with
      | none =>
        simp only [runCompetitor, hp, hr] at h
        exact Option.noConfusion h
      | some res =>
        rw [runCompetitor_step _ _ _ _ t res hp hr] at h
        obtain ⟨f1, f2, f3, f4⟩ := processEvent_lapFields config comp e t res hr
        have ht := parseClock_clock _ _ hp
        have hc1 := processEvent_clockFields config comp e t res hr hc ht
        rw [if_neg hne4] at f1
        refine ih hrest res.1 comp1 hc1 (f1.trans h1) ?_ ?_ ?_ h
        · by_cases h10 : e.EventID = 10
          · rw [if_pos (Or.inr h10)] at f2
            rw [if_pos h10] at f3
            rw [f2, f3, List.sum_append, List.sum_singleton, h2]
            have e1 := timeSub_exact t comp.ActualStart ht hc.2.1
            have e2 := timeSub_exact t comp.LastLapTime ht hc.2.2.2
            split
            · rename_i hz
              rw [e1, h1, h4 hz]
              ring
            · rw [e2]
              ring
          · rw [if_neg (by tauto)] at f2
            rw [if_neg h10] at f3
            rw [f2, f3]
            exact h2
        · rw [f4]
          split <;> omega
        · intro hz
          by_cases h10 : e.EventID = 10
          · rw [f4, if_pos h10] at hz
            omega
          · rw [f4, if_neg h10] at hz
            rw [if_neg (by tauto)] at f2
            rw [f2]
            exact h4 hz

/-- C21: when Events completes and the events of competitor `c` are, in this
order, events that are neither a start nor a lap, the one start with a time
that parses to `s`, events other than a start, a lap-completed event with a
time that parses to `tn`, and events that are neither a start nor a lap, then
the lap times recorded for `c` add up to `tn - s`, as integers and in the
int64 sum of GenerateReport.  The time stamps may come in any order. -/
theorem C21_lap_times_telescope (config : Config) (events : List Event)
    (comps : List (Int × Competitor)) (out : List Event) (c s tn : Int)
    (pre mid tail : List Event) (start lapN : Event)
    (h : Events config events = some (comps, out))
    (hc : eventsOf c events = pre ++ start :: (mid ++ lapN :: tail))
    (hpre : ∀ e ∈ pre, e.EventID ≠ 4 ∧ e.EventID ≠ 10)
    (hstart : start.EventID = 4) (hs : parseClock start.Time = some s)
    (hmid : ∀ e ∈ mid, e.EventID ≠ 4)
    (hlap : lapN.EventID = 10) (htn : parseClock lapN.Time = some tn)
    (htail : ∀ e ∈ tail, e.EventID ≠ 4 ∧ e.EventID ≠ 10) :
    ∃ comp, mapFind comps c = some comp ∧ comp.LapTimes.sum = tn - s ∧
      durSum 0 comp.LapTimes = tn - s := by
  unfold Events at h
  cases hr : runEvents config { competitors := [], outgoingEvents := [] } events with
  | none => rw [hr] at h; exact absurd h (by simp)
  | some st =>
    rw [hr] at h
    simp only [Option.map_some', Option.some.injEq, Prod.mk.injEq] at h
    obtain ⟨hcomps, -⟩ := h
    have hrun := runEvents_competitorOf config events _ st c hr
    have hnew : competitorOf ({ competitors := [], outgoingEvents := [] } : RunState).competitors c
        = newCompetitor c := rfl
    rw [hnew, hc, runCompetitor_append] at hrun
    cases h1 : runCompetitor config (newCompetitor c) pre with
    | none => rw [h1] at hrun; exact absurd hrun (by simp)
    | some c1 =>
      rw [h1, Option.some_bind,
        runCompetitor_step _ _ _ _ s _ hs (processEvent_started config c1 start s hstart),
        runCompetitor_append] at hrun
      obtain ⟨p0, -, -, p3, p4⟩ :=
        runCompetitor_noLap config pre hpre _ c1 (clockFields_new c) h1
      have hts := parseClock_clock _ _ hs
      have htt := parseClock_clock _ _ htn
      obtain ⟨q1, q2, q3, q4⟩ := processEvent_lapFields config c1 start s _
        (processEvent_started config c1 start s hstart)
      have q0 := processEvent_clockFields config c1 start s _
        (processEvent_started config c1 start s hstart) p0 hts
      rw [if_pos hstart] at q1
      rw [if_pos (Or.inl hstart)] at q2
      rw [if_neg (by omega)] at q3 q4
      cases h2 : runCompetitor config (caseStarted config c1 start s).1 mid with
      | none => rw [h2] at hrun; exact absurd hrun (by simp)
      | some c3 =>
        rw [h2, Option.some_bind,
          runCompetitor_step _ _ _ _ tn _ htn (processEvent_lapCompleted config c3 lapN tn hlap)]
          at hrun
        have hsum0 : (caseStarted config c1 start s).1.LapTimes.sum =
            (caseStarted config c1 start s).1.LastLapTime - s := by
          rw [q3, q2, p3]
          simp [newCompetitor]
        have hlap0 : -1 ≤ (caseStarted config c1 start s).1.CurrentLap := by
          rw [q4, p4]
          simp [newCompetitor]
        obtain ⟨r0, r1, r2, r3, r4⟩ := runCompetitor_telescope config s mid hmid _ c3 q0 q1
          hsum0 hlap0 (fun _ => q2) h2
        have hone : runCompetitor config c3 [lapN] =
            some (caseLapCompleted config c3 lapN tn).1 := by
          rw [runCompetitor_step _ _ _ _ tn _ htn
            (processEvent_lapCompleted config c3 lapN tn hlap)]
          rfl
        obtain ⟨u0, -, u2, -, -⟩ := runCompetitor_telescope config s [lapN]
          (by
            intro e he
            rw [List.mem_singleton] at he
            rw [he, hlap]
            omega) c3 _ r0 r1 r2 r3 r4 hone
        rw [(caseLapCompleted_fields config c3 lapN tn).2.2.1] at u2
        obtain ⟨-, -, -, v3, -⟩ := runCompetitor_noLap config tail htail _ _ u0 hrun
        have hmem : c ∈ mapKeys st.competitors := by
          rw [(runEvents_keys config events _ st hr).2 c]
          right
          have hin : start ∈ eventsOf c events := by
            rw [hc]
            simp
          unfold eventsOf at hin
          rw [List.mem_filter] at hin
          exact ⟨start, hin.1, by simpa using hin.2⟩
        obtain ⟨v, hv⟩ := mapFind_some_of_mem _ c hmem
        have hcomp : competitorOf st.competitors c = v := by
          unfold competitorOf
          rw [hv]
          rfl
        rw [hcomp] at v3
        have hsum : v.LapTimes.sum = tn - s := by
          rw [v3]
          exact u2
        refine ⟨v, ?_, hsum, ?_⟩
        · rw [← hcomps]
          exact hv
        · rw [durSum_eq 0 _ (by decide), Int.zero_add, hsum]
          apply wrap64_of_range
          · rw [zeroTime_eq] at hts htt
            unfold minDuration
            omega
          · rw [zeroTime_eq] at hts htt
            unfold maxDuration
            omega

set_option maxRecDepth 100000 in
/-- Witness of C21: competitor 1 starts at 10:00:12.000 and completes laps
stamped 10:20:00.000, 10:10:00.000 and 10:30:00.000; the three lap times add up
to 29m48s. -/
theorem C21_lap_times_telescope_witness :
    (competitorOf telescopeRun.competitors 1).LapTimes =
      [1188000000000, -600000000000, 1200000000000] ∧
    ∃ comp, mapFind telescopeRun.competitors 1 = some comp ∧
      comp.LapTimes.sum = 37800000000000 - 36012000000000 ∧
      durSum 0 comp.LapTimes = 37800000000000 - 36012000000000 :=
  ⟨by decide,
    C21_lap_times_telescope testConfig telescopeEvents telescopeRun.competitors
      telescopeRun.outgoingEvents 1 36012000000000 37800000000000
      [{ Time := "09:55:00.000", EventID := 1, CompetitorID := 1, ExtraParams := [] }]
      [{ Time := "10:20:00.000", EventID := 10, CompetitorID := 1, ExtraParams := [] },
       { Time := "10:21:00.000", EventID := 5, CompetitorID := 1, ExtraParams := ["1"] },
       lapEvent]
      [{ Time := "10:31:00.000", EventID := 11, CompetitorID := 1, ExtraParams := ["Lost"] }]
      startEvent
      { Time := "10:30:00.000", EventID := 10, CompetitorID := 1, ExtraParams := [] }
      (by decide) (by decide) (by decide) (by decide) (by decide) (by decide) (by decide)
      (by decide) (by decide)⟩

end TelecomTask
